import Mathlib

/-!
Well-tempered linear scales (`scale.c`)

A shallow embedding of `src/scale.c` and the properties of its scale
algorithms. The routines are embedded twice.

* In `Scale` a C `double` is an exact rational number (`ℚ`): every arithmetic
  operation is the mathematical one, without rounding, underflow, overflow,
  infinities or NaN; a C `int` is a mathematical integer (`ℤ`),
  `(int) floor (x)` is `⌊x⌋` and `(int) ceil (x)` is `⌈x⌉`, and
  `floor (log10 (x))` is `Int.log 10 x`, the greatest `k` with `10 ^ k ≤ x`.
  These routines compute what the code computes when every intermediate
  value is a binary64 number and fits its type, as for the small integers at
  which they are evaluated; elsewhere they describe the algorithm apart from
  rounding.
* In `Scale.Machine` the operations on doubles are the fields of a structure
  `Arith`. A property proved for every `Arith` holds whatever the rounding is;
  `Machine.ieee` rounds every operation to the nearest binary64 number and
  converts to a 32-bit `int`, and the routines are evaluated on it where
  rounding decides the outcome.

In both embeddings

* output parameters become components of the returned value;
* a failed `assert`, a read outside `pdSet` and a loop that does not stop
  within the given number of iterations are results of type `ScError`.
-/

namespace Scale

/-- The ways a run of a scale routine can fail to produce a scale. -/
inductive ScError where
  /-- An `assert` of the routine does not hold. -/
  | assertFailed
  /-- The mantissa table `pdSet` is read outside its four entries. -/
  | indexRange
  /-- A loop needs more iterations than the fuel allows. -/
  | outOfFuel
  deriving DecidableEq

/-- The mantissa table `static double pdSet[] = { 1.0, 2.0, 5.0, 10.0 };`. -/
def pdSet : List ℚ := [1, 2, 5, 10]

/-- The usable length `#define SET_LEN (sizeof(pdSet)/sizeof(double)-1)`. -/
def SET_LEN : ℤ := (pdSet.length : ℤ) - 1

/-- The array read `pdSet[i]`; an index outside the table is an error. -/
def readSet (set : List ℚ) (i : ℤ) : Except ScError ℚ :=
  if 0 ≤ i ∧ i < (set.length : ℤ) then .ok (set.getD i.toNat 0) else .error .indexRange

/-- The cursor of the nice-number generator: `iIndex` and `dPowerOfTen`. -/
structure NiceState where
  iIndex : ℤ
  dPowerOfTen : ℚ
  deriving DecidableEq

/-- The outputs `*pdScaleMin`, `*pdScaleMax`, `*pnActual` of a scale routine. -/
structure ScaleResult where
  pdScaleMin : ℚ
  pdScaleMax : ℚ
  pnActual : ℤ
  deriving DecidableEq

/-- The outputs `*pdRefMin`, `*pdRefMax`, `*pnActual` of `scInternal`. -/
structure RefResult where
  pdRefMin : ℚ
  pdRefMax : ℚ
  pnActual : ℤ
  deriving DecidableEq

/-- The `while( iExponent )` loop of `scPower`, on a non-negative exponent. -/
def scPowerLoop (iExponent : ℕ) (dRoot dResult : ℚ) : ℚ :=
  if iExponent = 0 then dResult
  else
    let dResult1 := if iExponent % 2 = 1 then dResult * dRoot else dResult
    let iExponent1 := iExponent / 2
    let dRoot1 := if iExponent1 ≠ 0 then dRoot * dRoot else dRoot
    scPowerLoop iExponent1 dRoot1 dResult1
termination_by iExponent
decreasing_by omega

/-- Routine `scPower`: raise a double to an integer power, in exact
arithmetic: the products are not rounded and do not underflow, so the value is
`dRoot ^ iExponent`. `Machine.scPower` is the routine with rounding. -/
def scPower (dRoot : ℚ) (iExponent : ℤ) : ℚ :=
  if iExponent < 0 then scPowerLoop (-iExponent).toNat (1 / dRoot) 1
  else scPowerLoop iExponent.toNat dRoot 1

/-- Routine `scFirstNiceNum`: the initial nice number and generator cursor, in
exact arithmetic. `Int.log 10 x` stands for `(int) floor (log10 (x))`; with
the exact power of ten the correction `dPowerOfTen * 10.0 <= dIntervalSize`
never fires. `Machine.scFirstNiceNum` is the routine with rounding. -/
def scFirstNiceNum (dIntervalSize : ℚ) : ℚ × NiceState :=
  let iExponent : ℤ := Int.log 10 dIntervalSize
  let dPowerOfTen := scPower 10 iExponent
  let dPowerOfTen := if dPowerOfTen * 10 ≤ dIntervalSize then dPowerOfTen * 10 else dPowerOfTen
  (dPowerOfTen, ⟨0, dPowerOfTen⟩)

/-- Routine `scNextNiceNum`: advance the cursor and return the next nice number. -/
def scNextNiceNum (set : List ℚ) (nSet : ℤ) (st : NiceState) : Except ScError (ℚ × NiceState) :=
  let iIndex := st.iIndex + 1
  let st1 : NiceState :=
    if iIndex ≥ nSet then ⟨0, st.dPowerOfTen * 10⟩ else ⟨iIndex, st.dPowerOfTen⟩
  match readSet set st1.iIndex with
  | .ok m => .ok (m * st1.dPowerOfTen, st1)
  | .error e => .error e

/-- Routine `scCalcExtLabel`: the multipliers `(*pnLoMult, *pnHiMult)`, in
exact arithmetic and with an unbounded `int`: the quotients are not rounded,
so the two corrections never fire. `Machine.scCalcExtLabel` is the routine with
rounding and the conversion to a 32-bit `int`. -/
def scCalcExtLabel (dDataMin dDataMax dNiceNum : ℚ) : ℤ × ℤ :=
  let nLoMult : ℤ := ⌊dDataMin / dNiceNum⌋
  let nLoMult := if ((nLoMult + 1 : ℤ) : ℚ) * dNiceNum ≤ dDataMin then nLoMult + 1 else nLoMult
  let nHiMult : ℤ := ⌊dDataMax / dNiceNum⌋
  let nHiMult := if ((nHiMult - 1 : ℤ) : ℚ) * dNiceNum ≥ dDataMax then nHiMult - 1 else nHiMult
  (nLoMult, nHiMult)

/-- Routine `scCalcIntLabel`: the multipliers `(*pnLoMult, *pnHiMult)`, in
exact arithmetic and with an unbounded `int`: the quotients are not rounded,
so the two corrections never fire. `Machine.scCalcIntLabel` is the routine with
rounding and the conversion to a 32-bit `int`. -/
def scCalcIntLabel (dDataMin dDataMax dNiceNum : ℚ) : ℤ × ℤ :=
  let nLoMult : ℤ := ⌈dDataMin / dNiceNum⌉
  let nLoMult := if ((nLoMult - 1 : ℤ) : ℚ) * dNiceNum ≥ dDataMin then nLoMult - 1 else nLoMult
  let nHiMult : ℤ := ⌈dDataMax / dNiceNum⌉
  let nHiMult := if ((nHiMult + 1 : ℤ) : ℚ) * dNiceNum ≤ dDataMax then nHiMult + 1 else nHiMult
  (nLoMult, nHiMult)

/-- The search loop shared by `scDixonKronmal`, `scMaxInterval` and
`scInternal`: `for( ...; dNiceNum < dIntervalSize; dNiceNum = scNextNiceNum(...) )`,
entered after `scFirstNiceNum`. The fuel bounds the number of calls of
`scNextNiceNum`. -/
def searchLoop (dIntervalSize : ℚ) : ℕ → ℚ × NiceState → Except ScError (ℚ × NiceState)
  | 0, (dNiceNum, st) =>
    if dNiceNum < dIntervalSize then .error .outOfFuel else .ok (dNiceNum, st)
  | fuel + 1, (dNiceNum, st) =>
    if dNiceNum < dIntervalSize then
      match scNextNiceNum pdSet SET_LEN st with
      | .ok next => searchLoop dIntervalSize fuel next
      | .error e => .error e
    else .ok (dNiceNum, st)

/-- The coarsening loop of `scDixonKronmal` and `scMaxInterval`:
`while( nHiMult - nLoMult > nIntervals )`. The fuel bounds the number of
iterations. -/
def coarsenLoop (dDataMin dDataMax : ℚ) (nIntervals : ℤ) :
    ℕ → ℚ × NiceState → ℤ × ℤ → Except ScError (ℚ × NiceState × ℤ × ℤ)
  | 0, (dNiceNum, st), (nLoMult, nHiMult) =>
    if nHiMult - nLoMult > nIntervals then .error .outOfFuel
    else .ok (dNiceNum, st, nLoMult, nHiMult)
  | fuel + 1, (dNiceNum, st), (nLoMult, nHiMult) =>
    if nHiMult - nLoMult > nIntervals then
      match scNextNiceNum pdSet SET_LEN st with
      | .ok (dNiceNum1, st1) =>
        coarsenLoop dDataMin dDataMax nIntervals fuel (dNiceNum1, st1)
          (scCalcExtLabel dDataMin dDataMax dNiceNum1)
      | .error e => .error e
    else .ok (dNiceNum, st, nLoMult, nHiMult)

/-- The common first part of `scDixonKronmal` and `scMaxInterval`, from the
asserts to the end of the coarsening loop; the value is
`(dNiceNum, nLoMult, nHiMult)` as the loop leaves them. -/
def extScaleVars (fuel : ℕ) (dDataMin dDataMax : ℚ) (nIntervals : ℤ) :
    Except ScError (ℚ × ℤ × ℤ) :=
  if ¬ dDataMin < dDataMax then .error .assertFailed
  else if ¬ nIntervals ≥ 2 then .error .assertFailed
  else
    let dIntervalSize : ℚ := (dDataMax - dDataMin) / (nIntervals : ℚ)
    match searchLoop dIntervalSize fuel (scFirstNiceNum dIntervalSize) with
    | .error e => .error e
    | .ok (dNiceNum0, st0) =>
      match coarsenLoop dDataMin dDataMax nIntervals fuel (dNiceNum0, st0)
          (scCalcExtLabel dDataMin dDataMax dNiceNum0) with
      | .error e => .error e
      | .ok (dNiceNum, _, nLoMult, nHiMult) => .ok (dNiceNum, nLoMult, nHiMult)

/-- The centering and zero-crossing part of `scDixonKronmal`: the adjusted
multipliers `(nAdjLoMult, nAdjHiMult)`. The test `nDiffIntervals & 1` is
`nDiffIntervals % 2 = 1`, the C division `nDiffIntervals / 2` truncates, and
`guard1`, `guard2` are the pair after the first and the second guard. -/
def dkAdjust (dDataMin dDataMax : ℚ) (nExactIntervals : ℤ) (dNiceNum : ℚ)
    (nLoMult nHiMult : ℤ) : ℤ × ℤ :=
  let nActualIntervals := nHiMult - nLoMult
  let nDiffIntervals := nExactIntervals - nActualIntervals
  let nAdjIntervals := Int.tdiv nDiffIntervals 2
  let nAdjIntervals :=
    if nDiffIntervals % 2 = 1 then
      if dDataMin - (nLoMult : ℚ) * dNiceNum < (nHiMult : ℚ) * dNiceNum - dDataMax
      then nAdjIntervals + 1 else nAdjIntervals
    else nAdjIntervals
  let nAdjLoMult := nLoMult - nAdjIntervals
  let nAdjHiMult := nAdjLoMult + nExactIntervals
  let guard1 : ℤ × ℤ :=
    if nAdjLoMult < 0 ∧ nLoMult ≥ 0 then (0, nExactIntervals) else (nAdjLoMult, nAdjHiMult)
  let guard2 : ℤ × ℤ :=
    if guard1.2 > 0 ∧ nHiMult ≤ 0 then (-nExactIntervals, 0) else guard1
  guard2

/-- Routine `scDixonKronmal`: the enhanced Dixon-Kronmal algorithm. -/
def scDixonKronmal (fuel : ℕ) (dDataMin dDataMax : ℚ) (nExactIntervals : ℤ) :
    Except ScError ScaleResult :=
  match extScaleVars fuel dDataMin dDataMax nExactIntervals with
  | .error e => .error e
  | .ok (dNiceNum, nLoMult, nHiMult) =>
    let adj := dkAdjust dDataMin dDataMax nExactIntervals dNiceNum nLoMult nHiMult
    .ok ⟨(adj.1 : ℚ) * dNiceNum, (adj.2 : ℚ) * dNiceNum, nExactIntervals⟩

/-- Routine `scMaxInterval`: scaling with a maximum number of intervals. -/
def scMaxInterval (fuel : ℕ) (dDataMin dDataMax : ℚ) (nMaxIntervals : ℤ) :
    Except ScError ScaleResult :=
  match extScaleVars fuel dDataMin dDataMax nMaxIntervals with
  | .error e => .error e
  | .ok (dNiceNum, nLoMult, nHiMult) =>
    .ok ⟨(nLoMult : ℚ) * dNiceNum, (nHiMult : ℚ) * dNiceNum, nHiMult - nLoMult⟩

/-- The body of `scInternal` from the asserts to `scCalcIntLabel`; the value
is `(dNiceNum, nLoMult, nHiMult)`. -/
def intScaleVars (fuel : ℕ) (dDataMin dDataMax : ℚ) (nMaxIntervals : ℤ) :
    Except ScError (ℚ × ℤ × ℤ) :=
  if ¬ dDataMin < dDataMax then .error .assertFailed
  else if ¬ nMaxIntervals ≥ 5 then .error .assertFailed
  else
    let dIntervalSize : ℚ := (dDataMax - dDataMin) / (nMaxIntervals : ℚ)
    match searchLoop dIntervalSize fuel (scFirstNiceNum dIntervalSize) with
    | .error e => .error e
    | .ok (dNiceNum, _) =>
      let m := scCalcIntLabel dDataMin dDataMax dNiceNum
      .ok (dNiceNum, m.1, m.2)

/-- Routine `scInternal`: the algorithm for internal labelling. -/
def scInternal (fuel : ℕ) (dDataMin dDataMax : ℚ) (nMaxIntervals : ℤ) :
    Except ScError RefResult :=
  match intScaleVars fuel dDataMin dDataMax nMaxIntervals with
  | .error e => .error e
  | .ok (dNiceNum, nLoMult, nHiMult) =>
    .ok ⟨(nLoMult : ℚ) * dNiceNum, (nHiMult : ℚ) * dNiceNum, nHiMult - nLoMult⟩


/-- The comparison `sqrt (a) * p < x` of the stopping test of `scLewart`,
for `a ≥ 0`, decided exactly on rational numbers by comparing squares. -/
def sqrtMulLt (a p x : ℚ) : Bool :=
  if 0 ≤ p then decide (0 < x ∧ a * p ^ 2 < x ^ 2)
  else decide (0 < x ∨ x ^ 2 < a * p ^ 2)

/-- The stopping test of the loop of `scLewart`,
`sqrt( pdSet[iIndex] * pdSet[iIndex-1] ) * dPowerOfTen < dIntervalSize`,
with its two reads of `pdSet`. -/
def lewartTest (dIntervalSize : ℚ) (st : NiceState) : Except ScError Bool :=
  match readSet pdSet st.iIndex with
  | .error e => .error e
  | .ok a =>
    match readSet pdSet (st.iIndex - 1) with
    | .error e => .error e
    | .ok b => .ok (sqrtMulLt (a * b) st.dPowerOfTen dIntervalSize)

/-- The search loop of `scLewart`, entered after `scFirstNiceNum`. The fuel
bounds the number of calls of `scNextNiceNum`. -/
def lewartLoop (dIntervalSize : ℚ) : ℕ → ℚ × NiceState → Except ScError (ℚ × NiceState)
  | 0, (dNiceNum, st) =>
    match lewartTest dIntervalSize st with
    | .error e => .error e
    | .ok true => .error .outOfFuel
    | .ok false => .ok (dNiceNum, st)
  | fuel + 1, (dNiceNum, st) =>
    match lewartTest dIntervalSize st with
    | .error e => .error e
    | .ok true =>
      match scNextNiceNum pdSet SET_LEN st with
      | .ok next => lewartLoop dIntervalSize fuel next
      | .error e => .error e
    | .ok false => .ok (dNiceNum, st)

/-- Routine `scLewart`: the algorithm of Lewart. -/
def scLewart (fuel : ℕ) (dDataMin dDataMax : ℚ) (nApproxIntervals : ℤ) :
    Except ScError ScaleResult :=
  if ¬ dDataMin < dDataMax then .error .assertFailed
  else if ¬ nApproxIntervals ≥ 2 then .error .assertFailed
  else
    let dIntervalSize : ℚ := (dDataMax - dDataMin) / (nApproxIntervals : ℚ)
    match lewartLoop dIntervalSize fuel (scFirstNiceNum dIntervalSize) with
    | .error e => .error e
    | .ok (dNiceNum, _) =>
      let m := scCalcExtLabel dDataMin dDataMax dNiceNum
      .ok ⟨(m.1 : ℚ) * dNiceNum, (m.2 : ℚ) * dNiceNum, m.2 - m.1⟩

/-- The current nice number of a cursor, `pdSet[iIndex] * dPowerOfTen`. -/
def curNice (st : NiceState) : ℚ := pdSet.getD st.iIndex.toNat 0 * st.dPowerOfTen

/-- The result of `k` successive calls of `scNextNiceNum( pdSet, SET_LEN, ... )`
from a nice number and its cursor: the value returned by the last call and
the cursor it leaves. -/
def nextCalls : ℕ → ℚ × NiceState → Except ScError (ℚ × NiceState)
  | 0, s => .ok s
  | k + 1, s =>
    match scNextNiceNum pdSet SET_LEN s.2 with
    | .ok next => nextCalls k next
    | .error e => .error e

/-- A nice number is a value `m * 10 ^ k` with `m` one of 1, 2, 5 and `k` an
integer (glossary of the specification). -/
def IsNice (N : ℚ) : Prop :=
  ∃ (m : ℚ) (k : ℤ), (m = 1 ∨ m = 2 ∨ m = 5) ∧ N = m * (10 : ℚ) ^ k

/-- The multiplier span `nHiMult - nLoMult` that `scCalcExtLabel` computes. -/
def extSpan (dDataMin dDataMax dNiceNum : ℚ) : ℤ :=
  (scCalcExtLabel dDataMin dDataMax dNiceNum).2 - (scCalcExtLabel dDataMin dDataMax dNiceNum).1

/-! The same routines over the arithmetic of the machine.

The routines above take every operation on a `double` to be exact. The
definitions of `Machine` repeat them with the operations on doubles taken
from a structure `Arith`, so that a property proved for every `Arith` holds
whatever the rounding of the operations, the result of an out-of-range cast
to `int` and the accuracy of `log10` are. `Machine.exact` is the arithmetic
without rounding, and `Machine.ieee` rounds every operation to the nearest
binary64 number. Arithmetic on `int` values stays that of `ℤ`: signed
overflow is undefined in C and is not modelled. -/

namespace Machine

/-- The operations of the machine on the type `D` of its doubles. -/
structure Arith (D : Type) where
  /-- The conversion `(double) n`, also used for the literals `1.0`, `2.0`,
  `5.0` and `10.0`. -/
  ofInt : ℤ → D
  /-- The subtraction `a - b`. -/
  sub : D → D → D
  /-- The product `a * b`. -/
  mul : D → D → D
  /-- The quotient `a / b`. -/
  div : D → D → D
  /-- The comparison `a < b`. -/
  lt : D → D → Bool
  /-- The comparison `a <= b`. -/
  le : D → D → Bool
  /-- The conversion `(int) floor (x)`. -/
  floorInt : D → ℤ
  /-- The conversion `(int) ceil (x)`. -/
  ceilInt : D → ℤ
  /-- The conversion `(int) floor (log10 (x))`. -/
  ilog10 : D → ℤ

/-- The cursor of the nice-number generator: `iIndex` and `dPowerOfTen`. -/
structure NiceState (D : Type) where
  iIndex : ℤ
  dPowerOfTen : D

/-- The outputs `*pdScaleMin`, `*pdScaleMax`, `*pnActual` of a scale routine. -/
structure ScaleResult (D : Type) where
  pdScaleMin : D
  pdScaleMax : D
  pnActual : ℤ

/-- The outputs `*pdRefMin`, `*pdRefMax`, `*pnActual` of `scInternal`. -/
structure RefResult (D : Type) where
  pdRefMin : D
  pdRefMax : D
  pnActual : ℤ

variable {D : Type}

/-- The mantissa table `static double pdSet[] = { 1.0, 2.0, 5.0, 10.0 };`. -/
def pdSet (A : Arith D) : List D := [A.ofInt 1, A.ofInt 2, A.ofInt 5, A.ofInt 10]

/-- The array read `pdSet[i]`; an index outside the table is an error. -/
def readSet (A : Arith D) (set : List D) (i : ℤ) : Except ScError D :=
  if 0 ≤ i ∧ i < (set.length : ℤ) then .ok (set.getD i.toNat (A.ofInt 0))
  else .error .indexRange

/-- The `while( iExponent )` loop of `scPower`, on a non-negative exponent. -/
def scPowerLoop (A : Arith D) (iExponent : ℕ) (dRoot dResult : D) : D :=
  if iExponent = 0 then dResult
  else
    let dResult1 := if iExponent % 2 = 1 then A.mul dResult dRoot else dResult
    let iExponent1 := iExponent / 2
    let dRoot1 := if iExponent1 ≠ 0 then A.mul dRoot dRoot else dRoot
    scPowerLoop A iExponent1 dRoot1 dResult1
termination_by iExponent
decreasing_by omega

/-- Routine `scPower`: raise a double to an integer power. -/
def scPower (A : Arith D) (dRoot : D) (iExponent : ℤ) : D :=
  if iExponent < 0 then
    scPowerLoop A (-iExponent).toNat (A.div (A.ofInt 1) dRoot) (A.ofInt 1)
  else scPowerLoop A iExponent.toNat dRoot (A.ofInt 1)

/-- Routine `scFirstNiceNum`: the initial nice number and generator cursor. -/
def scFirstNiceNum (A : Arith D) (dIntervalSize : D) : D × NiceState D :=
  let iExponent : ℤ := A.ilog10 dIntervalSize
  let dPowerOfTen := scPower A (A.ofInt 10) iExponent
  let dPowerOfTen :=
    if A.le (A.mul dPowerOfTen (A.ofInt 10)) dIntervalSize then A.mul dPowerOfTen (A.ofInt 10)
    else dPowerOfTen
  (dPowerOfTen, ⟨0, dPowerOfTen⟩)

/-- Routine `scNextNiceNum`: advance the cursor and return the next nice
number. -/
def scNextNiceNum (A : Arith D) (set : List D) (nSet : ℤ) (st : NiceState D) :
    Except ScError (D × NiceState D) :=
  let iIndex := st.iIndex + 1
  let st1 : NiceState D :=
    if iIndex ≥ nSet then ⟨0, A.mul st.dPowerOfTen (A.ofInt 10)⟩
    else ⟨iIndex, st.dPowerOfTen⟩
  match readSet A set st1.iIndex with
  | .ok m => .ok (A.mul m st1.dPowerOfTen, st1)
  | .error e => .error e

/-- Routine `scCalcExtLabel`: the multipliers `(*pnLoMult, *pnHiMult)`. -/
def scCalcExtLabel (A : Arith D) (dDataMin dDataMax dNiceNum : D) : ℤ × ℤ :=
  let nLoMult : ℤ := A.floorInt (A.div dDataMin dNiceNum)
  let nLoMult :=
    if A.le (A.mul (A.ofInt (nLoMult + 1)) dNiceNum) dDataMin then nLoMult + 1 else nLoMult
  let nHiMult : ℤ := A.floorInt (A.div dDataMax dNiceNum)
  let nHiMult :=
    if A.le dDataMax (A.mul (A.ofInt (nHiMult - 1)) dNiceNum) then nHiMult - 1 else nHiMult
  (nLoMult, nHiMult)

/-- Routine `scCalcIntLabel`: the multipliers `(*pnLoMult, *pnHiMult)`. -/
def scCalcIntLabel (A : Arith D) (dDataMin dDataMax dNiceNum : D) : ℤ × ℤ :=
  let nLoMult : ℤ := A.ceilInt (A.div dDataMin dNiceNum)
  let nLoMult :=
    if A.le dDataMin (A.mul (A.ofInt (nLoMult - 1)) dNiceNum) then nLoMult - 1 else nLoMult
  let nHiMult : ℤ := A.ceilInt (A.div dDataMax dNiceNum)
  let nHiMult :=
    if A.le (A.mul (A.ofInt (nHiMult + 1)) dNiceNum) dDataMax then nHiMult + 1 else nHiMult
  (nLoMult, nHiMult)

/-- The search loop `for( ...; dNiceNum < dIntervalSize; dNiceNum = scNextNiceNum(...) )`
of `scDixonKronmal`, `scMaxInterval` and `scInternal`. The fuel bounds the
number of calls of `scNextNiceNum`. -/
def searchLoop (A : Arith D) (dIntervalSize : D) :
    ℕ → D × NiceState D → Except ScError (D × NiceState D)
  | 0, (dNiceNum, st) =>
    if A.lt dNiceNum dIntervalSize then .error .outOfFuel else .ok (dNiceNum, st)
  | fuel + 1, (dNiceNum, st) =>
    if A.lt dNiceNum dIntervalSize then
      match scNextNiceNum A (pdSet A) SET_LEN st with
      | .ok next => searchLoop A dIntervalSize fuel next
      | .error e => .error e
    else .ok (dNiceNum, st)

/-- The coarsening loop `while( nHiMult - nLoMult > nIntervals )` of
`scDixonKronmal` and `scMaxInterval`. The fuel bounds the number of
iterations. -/
def coarsenLoop (A : Arith D) (dDataMin dDataMax : D) (nIntervals : ℤ) :
    ℕ → D × NiceState D → ℤ × ℤ → Except ScError (D × NiceState D × ℤ × ℤ)
  | 0, (dNiceNum, st), (nLoMult, nHiMult) =>
    if nHiMult - nLoMult > nIntervals then .error .outOfFuel
    else .ok (dNiceNum, st, nLoMult, nHiMult)
  | fuel + 1, (dNiceNum, st), (nLoMult, nHiMult) =>
    if nHiMult - nLoMult > nIntervals then
      match scNextNiceNum A (pdSet A) SET_LEN st with
      | .ok (dNiceNum1, st1) =>
        coarsenLoop A dDataMin dDataMax nIntervals fuel (dNiceNum1, st1)
          (scCalcExtLabel A dDataMin dDataMax dNiceNum1)
      | .error e => .error e
    else .ok (dNiceNum, st, nLoMult, nHiMult)

/-- The common first part of `scDixonKronmal` and `scMaxInterval`, from the
asserts to the end of the coarsening loop; the value is
`(dNiceNum, nLoMult, nHiMult)` as the loop leaves them. -/
def extScaleVars (A : Arith D) (fuel : ℕ) (dDataMin dDataMax : D) (nIntervals : ℤ) :
    Except ScError (D × ℤ × ℤ) :=
  if ¬ A.lt dDataMin dDataMax then .error .assertFailed
  else if ¬ nIntervals ≥ 2 then .error .assertFailed
  else
    let dIntervalSize : D := A.div (A.sub dDataMax dDataMin) (A.ofInt nIntervals)
    match searchLoop A dIntervalSize fuel (scFirstNiceNum A dIntervalSize) with
    | .error e => .error e
    | .ok (dNiceNum0, st0) =>
      match coarsenLoop A dDataMin dDataMax nIntervals fuel (dNiceNum0, st0)
          (scCalcExtLabel A dDataMin dDataMax dNiceNum0) with
      | .error e => .error e
      | .ok (dNiceNum, _, nLoMult, nHiMult) => .ok (dNiceNum, nLoMult, nHiMult)

/-- The centering and zero-crossing part of `scDixonKronmal`: the adjusted
multipliers `(nAdjLoMult, nAdjHiMult)`. -/
def dkAdjust (A : Arith D) (dDataMin dDataMax : D) (nExactIntervals : ℤ) (dNiceNum : D)
    (nLoMult nHiMult : ℤ) : ℤ × ℤ :=
  let nActualIntervals := nHiMult - nLoMult
  let nDiffIntervals := nExactIntervals - nActualIntervals
  let nAdjIntervals := Int.tdiv nDiffIntervals 2
  let nAdjIntervals :=
    if nDiffIntervals % 2 = 1 then
      if A.lt (A.sub dDataMin (A.mul (A.ofInt nLoMult) dNiceNum))
          (A.sub (A.mul (A.ofInt nHiMult) dNiceNum) dDataMax)
      then nAdjIntervals + 1 else nAdjIntervals
    else nAdjIntervals
  let nAdjLoMult := nLoMult - nAdjIntervals
  let nAdjHiMult := nAdjLoMult + nExactIntervals
  let guard1 : ℤ × ℤ :=
    if nAdjLoMult < 0 ∧ nLoMult ≥ 0 then (0, nExactIntervals) else (nAdjLoMult, nAdjHiMult)
  let guard2 : ℤ × ℤ :=
    if guard1.2 > 0 ∧ nHiMult ≤ 0 then (-nExactIntervals, 0) else guard1
  guard2

/-- Routine `scDixonKronmal`: the enhanced Dixon-Kronmal algorithm. -/
def scDixonKronmal (A : Arith D) (fuel : ℕ) (dDataMin dDataMax : D) (nExactIntervals : ℤ) :
    Except ScError (ScaleResult D) :=
  match extScaleVars A fuel dDataMin dDataMax nExactIntervals with
  | .error e => .error e
  | .ok (dNiceNum, nLoMult, nHiMult) =>
    let adj := dkAdjust A dDataMin dDataMax nExactIntervals dNiceNum nLoMult nHiMult
    .ok ⟨A.mul (A.ofInt adj.1) dNiceNum, A.mul (A.ofInt adj.2) dNiceNum, nExactIntervals⟩

/-- Routine `scMaxInterval`: scaling with a maximum number of intervals. -/
def scMaxInterval (A : Arith D) (fuel : ℕ) (dDataMin dDataMax : D) (nMaxIntervals : ℤ) :
    Except ScError (ScaleResult D) :=
  match extScaleVars A fuel dDataMin dDataMax nMaxIntervals with
  | .error e => .error e
  | .ok (dNiceNum, nLoMult, nHiMult) =>
    .ok ⟨A.mul (A.ofInt nLoMult) dNiceNum, A.mul (A.ofInt nHiMult) dNiceNum,
      nHiMult - nLoMult⟩

/-- The body of `scInternal` from the asserts to `scCalcIntLabel`; the value
is `(dNiceNum, nLoMult, nHiMult)`. -/
def intScaleVars (A : Arith D) (fuel : ℕ) (dDataMin dDataMax : D) (nMaxIntervals : ℤ) :
    Except ScError (D × ℤ × ℤ) :=
  if ¬ A.lt dDataMin dDataMax then .error .assertFailed
  else if ¬ nMaxIntervals ≥ 5 then .error .assertFailed
  else
    let dIntervalSize : D := A.div (A.sub dDataMax dDataMin) (A.ofInt nMaxIntervals)
    match searchLoop A dIntervalSize fuel (scFirstNiceNum A dIntervalSize) with
    | .error e => .error e
    | .ok (dNiceNum, _) =>
      let m := scCalcIntLabel A dDataMin dDataMax dNiceNum
      .ok (dNiceNum, m.1, m.2)

/-- Routine `scInternal`: the algorithm for internal labelling. -/
def scInternal (A : Arith D) (fuel : ℕ) (dDataMin dDataMax : D) (nMaxIntervals : ℤ) :
    Except ScError (RefResult D) :=
  match intScaleVars A fuel dDataMin dDataMax nMaxIntervals with
  | .error e => .error e
  | .ok (dNiceNum, nLoMult, nHiMult) =>
    .ok ⟨A.mul (A.ofInt nLoMult) dNiceNum, A.mul (A.ofInt nHiMult) dNiceNum,
      nHiMult - nLoMult⟩

/-- The result of `k` successive calls of `scNextNiceNum( pdSet, SET_LEN, ... )`
from a nice number and its cursor: the value returned by the last call and
the cursor it leaves. -/
def nextCalls (A : Arith D) : ℕ → D × NiceState D → Except ScError (D × NiceState D)
  | 0, s => .ok s
  | k + 1, s =>
    match scNextNiceNum A (pdSet A) SET_LEN s.2 with
    | .ok next => nextCalls A k next
    | .error e => .error e

/-- The arithmetic without rounding: doubles are rational numbers and every
operation is the mathematical one. -/
def exact : Arith ℚ where
  ofInt := fun z => (z : ℚ)
  sub := fun a b => a - b
  mul := fun a b => a * b
  div := fun a b => a / b
  lt := fun a b => decide (a < b)
  le := fun a b => decide (a ≤ b)
  floorInt := fun x => ⌊x⌋
  ceilInt := fun x => ⌈x⌉
  ilog10 := fun x => Int.log 10 x

/-- The exponent of the unit in the last place of the binary64 numbers
around `q`: 53 significant bits, and the subnormal spacing `2 ^ (-1074)` for
the smallest magnitudes. -/
def ulpExp (q : ℚ) : ℤ := max (Int.log 2 |q| - 52) (-1074)

/-- The integer nearest to `m`, the even one of the two when `m` lies half
way. -/
def roundEven (m : ℚ) : ℤ :=
  if m - (⌊m⌋ : ℚ) < 1 / 2 then ⌊m⌋
  else if 1 / 2 < m - (⌊m⌋ : ℚ) then ⌊m⌋ + 1
  else if ⌊m⌋ % 2 = 0 then ⌊m⌋ else ⌊m⌋ + 1

/-- Rounding to the nearest binary64 number, ties to even. Overflow is not
modelled: above the largest binary64 number the exponent keeps growing. -/
def rnd64 (q : ℚ) : ℚ :=
  if q = 0 then 0 else (roundEven (q / (2 : ℚ) ^ ulpExp q) : ℚ) * (2 : ℚ) ^ ulpExp q

/-- The conversion of an integral double to a 32-bit `int`. Out of range it is
undefined in C; the value here, `INT_MIN`, is what the conversion instruction
of x86-64 delivers. -/
def cast32 (z : ℤ) : ℤ := if -2147483648 ≤ z ∧ z ≤ 2147483647 then z else -2147483648

/-- The arithmetic on finite binary64 numbers, as rational numbers: every
sum, product and quotient is rounded to nearest, `floor` and `ceil` are exact
and their conversion to `int` is `cast32`. The floor of the logarithm is that
of the exact logarithm: the `log10` of the C library, which rounds its result,
gives one more for an argument so closely below a power of ten that the
rounded logarithm is an integer; the evaluations on this arithmetic take the
logarithm only of arguments that are not of this kind. Infinities and NaN are
not modelled. -/
def ieee : Arith ℚ where
  ofInt := fun z => rnd64 (z : ℚ)
  sub := fun a b => rnd64 (a - b)
  mul := fun a b => rnd64 (a * b)
  div := fun a b => rnd64 (a / b)
  lt := fun a b => decide (a < b)
  le := fun a b => decide (a ≤ b)
  floorInt := fun x => cast32 ⌊x⌋
  ceilInt := fun x => cast32 ⌈x⌉
  ilog10 := fun x => Int.log 10 x

end Machine

end Scale

/-! The linear conversion (`linearConversion.c`). A `u_int16_t` is a natural
number below `65536`; a subtraction stored in a `u_int16_t` is taken modulo
`65536`. -/

namespace LinearConversion

/-- The structure `linConv_t`. -/
structure linConv_t where
  rawLow : ℕ
  engLow : ℚ
  rawHigh : ℕ
  engHigh : ℚ
  rawOffset : ℚ
  engSlope : ℚ
  engOffset : ℚ
  deriving DecidableEq

/-- The values of type `u_int16_t`. -/
def isU16 (v : ℕ) : Prop := v < 65536

/-- Routine `calcScale`: the return value and the structure it leaves. -/
def calcScale (linConv : linConv_t) : ℤ × linConv_t :=
  let rawRange : ℕ := (((linConv.rawHigh : ℤ) - (linConv.rawLow : ℤ)) % 65536).toNat
  let engRange : ℚ := linConv.engHigh - linConv.engLow
  if linConv.rawLow ≠ linConv.rawHigh then
    (0, { linConv with
      rawOffset := (linConv.rawLow : ℚ)
      engSlope := engRange / (rawRange : ℚ)
      engOffset := linConv.engLow })
  else (-1, linConv)

/-- Routine `rawToEng`: the return value and `*engVal`. -/
def rawToEng (linConv : linConv_t) (rawVal : ℕ) : ℤ × ℚ :=
  (0, ((rawVal : ℚ) - linConv.rawOffset) * linConv.engSlope + linConv.engOffset)

end LinearConversion

namespace Scale

/-! The power routine and the first nice number -/

theorem scPowerLoop_eq (e : ℕ) :
    ∀ root res : ℚ, scPowerLoop e root res = res * root ^ e := by
  induction e using Nat.strong_induction_on with
  | _ e ih =>
    intro root res
    rw [scPowerLoop]
    by_cases h0 : e = 0
    · subst h0; simp
    · have hlt : e / 2 < e := by omega
      have hdec : e = 2 * (e / 2) + e % 2 := (Nat.div_add_mod e 2).symm
      simp only [h0, if_false]
      rw [ih _ hlt]
      by_cases h1 : e % 2 = 1
      · by_cases h2 : e / 2 = 0
        · have he : e = 1 := by omega
          subst he
          simp
        · simp only [h1, h2, if_true, ne_eq, not_false_eq_true]
          conv_rhs => rw [hdec, h1]
          rw [pow_succ, pow_mul, pow_two]
          ring
      · have h2 : e / 2 ≠ 0 := by omega
        have h3 : e % 2 = 0 := by omega
        simp only [h1, h2, if_false, if_true, ne_eq, not_false_eq_true]
        conv_rhs => rw [hdec, h3]
        rw [add_zero, pow_mul, pow_two]

theorem scPower_ten (e : ℤ) : scPower 10 e = (10 : ℚ) ^ e := by
  unfold scPower
  by_cases h : e < 0
  · rw [if_pos h, scPowerLoop_eq, one_mul]
    have he : e = -(((-e).toNat : ℕ) : ℤ) := by
      rw [Int.toNat_of_nonneg (by omega)]; ring
    conv_rhs => rw [he]
    rw [zpow_neg, zpow_natCast, one_div, inv_pow]
  · rw [if_neg h, scPowerLoop_eq, one_mul]
    have he : e = ((e.toNat : ℕ) : ℤ) := by
      rw [Int.toNat_of_nonneg (by omega)]
    conv_rhs => rw [he]
    rw [zpow_natCast]

theorem scFirstNiceNum_eq (x : ℚ) :
    scFirstNiceNum x = ((10 : ℚ) ^ Int.log 10 x, ⟨0, (10 : ℚ) ^ Int.log 10 x⟩) := by
  have hlt : x < (10 : ℚ) ^ (Int.log 10 x + 1) := by
    have := Int.lt_zpow_succ_log_self (b := 10) (by norm_num) x
    simpa using this
  have hnot : ¬ (10 : ℚ) ^ Int.log 10 x * 10 ≤ x := by
    rw [zpow_add_one₀ (by norm_num)] at hlt
    exact not_le.mpr hlt
  simp only [scFirstNiceNum, scPower_ten, if_neg hnot]

theorem first_le (x : ℚ) (hx : 0 < x) : (10 : ℚ) ^ Int.log 10 x ≤ x := by
  have := Int.zpow_log_le_self (b := 10) (by norm_num) hx
  simpa using this

theorem lt_ten_first (x : ℚ) : x < 10 * (10 : ℚ) ^ Int.log 10 x := by
  have := Int.lt_zpow_succ_log_self (b := 10) (by norm_num) x
  rw [zpow_add_one₀ (by norm_num)] at this
  simpa [mul_comm] using this

theorem scFirstNiceNum_of_bounds (x : ℚ) (k : ℤ) (hx : 0 < x) (h1 : (10 : ℚ) ^ k ≤ x)
    (h2 : x < (10 : ℚ) ^ (k + 1)) :
    scFirstNiceNum x = ((10 : ℚ) ^ k, ⟨0, (10 : ℚ) ^ k⟩) := by
  have hk : Int.log 10 x = k := by
    apply le_antisymm
    · have := (Int.lt_zpow_iff_log_lt (b := 10) (by norm_num) hx).mp (by simpa using h2)
      omega
    · exact (Int.zpow_le_iff_le_log (b := 10) (by norm_num) hx).mp (by simpa using h1)
  rw [scFirstNiceNum_eq, hk]

/-! The generator -/

theorem scNextNiceNum_zero (p : ℚ) :
    scNextNiceNum pdSet SET_LEN ⟨0, p⟩ = .ok (2 * p, ⟨1, p⟩) := by
  simp [scNextNiceNum, readSet, pdSet, SET_LEN]

theorem scNextNiceNum_one (p : ℚ) :
    scNextNiceNum pdSet SET_LEN ⟨1, p⟩ = .ok (5 * p, ⟨2, p⟩) := by
  simp [scNextNiceNum, readSet, pdSet, SET_LEN]

theorem scNextNiceNum_two (p : ℚ) :
    scNextNiceNum pdSet SET_LEN ⟨2, p⟩ = .ok (1 * (p * 10), ⟨0, p * 10⟩) := by
  simp [scNextNiceNum, readSet, pdSet, SET_LEN]

/-! The search loop -/

theorem searchLoop_stop (x : ℚ) (fuel : ℕ) (N : ℚ) (st : NiceState) (h : ¬ N < x) :
    searchLoop x fuel (N, st) = .ok (N, st) := by
  cases fuel <;> simp [searchLoop, h]

theorem searchLoop_step (x : ℚ) (fuel : ℕ) (N : ℚ) (st : NiceState) (h : N < x)
    (next : ℚ × NiceState) (hn : scNextNiceNum pdSet SET_LEN st = .ok next) :
    searchLoop x (fuel + 1) (N, st) = searchLoop x fuel next := by
  simp [searchLoop, h, hn]

/-- From a power of ten `p` with `x < 10 * p` the search stops within three
calls of `scNextNiceNum`, at the first of `p, 2p, 5p, 10p` not below `x`. -/
theorem searchLoop_from_power (x p : ℚ) (hp : x < 10 * p) (fuel : ℕ) (hf : 3 ≤ fuel) :
    ∃ N st, searchLoop x fuel (p, ⟨0, p⟩) = .ok (N, st) ∧ x ≤ N ∧
      ((N = p ∧ st = ⟨0, p⟩) ∨ (N = 2 * p ∧ st = ⟨1, p⟩ ∧ p < x) ∨
        (N = 5 * p ∧ st = ⟨2, p⟩ ∧ 2 * p < x) ∨
        (N = 10 * p ∧ st = ⟨0, p * 10⟩ ∧ 5 * p < x)) := by
  obtain ⟨f, rfl⟩ : ∃ f, fuel = f + 3 := ⟨fuel - 3, by omega⟩
  by_cases h0 : p < x
  · rw [show f + 3 = (f + 2) + 1 from rfl, searchLoop_step x _ p _ h0 _ (scNextNiceNum_zero p)]
    by_cases h1 : 2 * p < x
    · rw [show f + 2 = (f + 1) + 1 from rfl,
        searchLoop_step x _ _ _ h1 _ (scNextNiceNum_one p)]
      by_cases h2 : 5 * p < x
      · rw [searchLoop_step x _ _ _ h2 _ (scNextNiceNum_two p)]
        have h3 : ¬ 1 * (p * 10) < x := by
          rw [one_mul, mul_comm]; exact not_lt.mpr hp.le
        rw [searchLoop_stop x _ _ _ h3]
        refine ⟨1 * (p * 10), ⟨0, p * 10⟩, rfl, ?_, ?_⟩
        · exact not_lt.mp h3
        · right; right; right
          exact ⟨by ring, rfl, h2⟩
      · rw [searchLoop_stop x _ _ _ h2]
        exact ⟨5 * p, ⟨2, p⟩, rfl, not_lt.mp h2, Or.inr (Or.inr (Or.inl ⟨rfl, rfl, h1⟩))⟩
    · rw [searchLoop_stop x _ _ _ h1]
      exact ⟨2 * p, ⟨1, p⟩, rfl, not_lt.mp h1, Or.inr (Or.inl ⟨rfl, rfl, h0⟩)⟩
  · rw [searchLoop_stop x _ _ _ h0]
    exact ⟨p, ⟨0, p⟩, rfl, not_lt.mp h0, Or.inl ⟨rfl, rfl⟩⟩

/-- For a positive interval size the search started by `scFirstNiceNum`
returns, with fuel 3 or more, a positive nice number not below it. -/
theorem searchLoop_first (x : ℚ) (hx : 0 < x) (fuel : ℕ) (hf : 3 ≤ fuel) :
    ∃ N st, searchLoop x fuel (scFirstNiceNum x) = .ok (N, st) ∧ x ≤ N ∧ 0 < N := by
  rw [scFirstNiceNum_eq]
  obtain ⟨N, st, h, hle, _⟩ := searchLoop_from_power x _ (lt_ten_first x) fuel hf
  exact ⟨N, st, h, hle, lt_of_lt_of_le hx hle⟩

/-! The label calculators -/

theorem scCalcExtLabel_eq (dDataMin dDataMax N : ℚ) (hN : 0 < N) :
    scCalcExtLabel dDataMin dDataMax N = (⌊dDataMin / N⌋, ⌊dDataMax / N⌋) := by
  have h1 : ¬ ((⌊dDataMin / N⌋ + 1 : ℤ) : ℚ) * N ≤ dDataMin := by
    have := Int.lt_floor_add_one (dDataMin / N)
    rw [div_lt_iff₀ hN] at this
    push_cast
    exact not_le.mpr this
  have h2 : ¬ ((⌊dDataMax / N⌋ - 1 : ℤ) : ℚ) * N ≥ dDataMax := by
    have := Int.floor_le (dDataMax / N)
    rw [le_div_iff₀ hN] at this
    push_cast
    intro h
    nlinarith
  simp only [scCalcExtLabel, if_neg h1, if_neg h2]

theorem scCalcIntLabel_eq (dDataMin dDataMax N : ℚ) (hN : 0 < N) :
    scCalcIntLabel dDataMin dDataMax N = (⌈dDataMin / N⌉, ⌈dDataMax / N⌉) := by
  have h1 : ¬ ((⌈dDataMin / N⌉ - 1 : ℤ) : ℚ) * N ≥ dDataMin := by
    have := Int.ceil_lt_add_one (dDataMin / N)
    have h3 : ((⌈dDataMin / N⌉ : ℤ) : ℚ) - 1 < dDataMin / N := by linarith
    rw [lt_div_iff₀ hN] at h3
    push_cast
    exact not_le.mpr h3
  have h2 : ¬ ((⌈dDataMax / N⌉ + 1 : ℤ) : ℚ) * N ≤ dDataMax := by
    have := Int.le_ceil (dDataMax / N)
    rw [div_le_iff₀ hN] at this
    push_cast
    intro h
    nlinarith
  simp only [scCalcIntLabel, if_neg h1, if_neg h2]

/-- The high multiplier of `scCalcExtLabel` is the greatest multiple not above
`max`; it is below `max` unless `max` is a multiple of the nice number. -/
theorem scCalcExtLabel_hi_floor (dDataMin dDataMax N : ℚ) (hN : 0 < N) :
    ((scCalcExtLabel dDataMin dDataMax N).2 : ℚ) * N ≤ dDataMax ∧
      dDataMax < (((scCalcExtLabel dDataMin dDataMax N).2 : ℚ) + 1) * N := by
  rw [scCalcExtLabel_eq _ _ _ hN]
  constructor
  · have := Int.floor_le (dDataMax / N)
    rwa [le_div_iff₀ hN] at this
  · have := Int.lt_floor_add_one (dDataMax / N)
    rwa [div_lt_iff₀ hN] at this

/-- The high multiplier of `scCalcIntLabel` is the least multiple not below
`max`; it is above `max` unless `max` is a multiple of the nice number. -/
theorem scCalcIntLabel_hi_ceil (dDataMin dDataMax N : ℚ) (hN : 0 < N) :
    (((scCalcIntLabel dDataMin dDataMax N).2 : ℚ) - 1) * N < dDataMax ∧
      dDataMax ≤ ((scCalcIntLabel dDataMin dDataMax N).2 : ℚ) * N := by
  rw [scCalcIntLabel_eq _ _ _ hN]
  constructor
  · have := Int.ceil_lt_add_one (dDataMax / N)
    have h3 : ((⌈dDataMax / N⌉ : ℤ) : ℚ) - 1 < dDataMax / N := by linarith
    rwa [lt_div_iff₀ hN] at h3
  · have := Int.le_ceil (dDataMax / N)
    rwa [div_le_iff₀ hN] at this

/-- Two numbers at most `n` apart have floors at most `n` apart. -/
theorem floor_sub_floor_le (a b : ℚ) (n : ℤ) (h : a - b ≤ n) : ⌊a⌋ - ⌊b⌋ ≤ n := by
  have h1 := Int.floor_le a
  have h2 := Int.lt_floor_add_one b
  have h3 : ((⌊a⌋ : ℤ) : ℚ) < ((⌊b⌋ + 1 + n : ℤ) : ℚ) := by push_cast; linarith
  have := Int.cast_lt.mp h3
  omega

/-- Two numbers at most `n` apart have ceilings at most `n` apart. -/
theorem ceil_sub_ceil_le (a b : ℚ) (n : ℤ) (h : a - b ≤ n) : ⌈a⌉ - ⌈b⌉ ≤ n := by
  have h1 := Int.ceil_lt_add_one a
  have h2 := Int.le_ceil b
  have h3 : ((⌈a⌉ : ℤ) : ℚ) < ((⌈b⌉ + 1 + n : ℤ) : ℚ) := by push_cast; linarith
  have := Int.cast_lt.mp h3
  omega

theorem coarsenLoop_stop (dDataMin dDataMax : ℚ) (n : ℤ) (fuel : ℕ) (s : ℚ × NiceState)
    (lo hi : ℤ) (h : hi - lo ≤ n) :
    coarsenLoop dDataMin dDataMax n fuel s (lo, hi) = .ok (s.1, s.2, lo, hi) := by
  obtain ⟨N, st⟩ := s
  cases fuel <;> simp [coarsenLoop, not_lt.mpr h]

/-- The data range divided by a nice number not below the interval size spans
at most `n` units. -/
theorem range_div_le (dDataMin dDataMax N : ℚ) (n : ℤ) (hn : 0 < n) (hN : 0 < N)
    (h : (dDataMax - dDataMin) / (n : ℚ) ≤ N) : dDataMax / N - dDataMin / N ≤ n := by
  have hn' : (0 : ℚ) < n := by exact_mod_cast hn
  rw [div_le_iff₀ hn'] at h
  rw [← sub_div, div_le_iff₀ hN]
  linarith

/-! The routines up to their label computation -/

/-- With fuel 3 or more, valid arguments bring `scDixonKronmal` and
`scMaxInterval` out of their loops with a positive nice number not below the
interval size, the floors of the scaled data bounds as multipliers, and at
most `n` intervals between them. -/
theorem extScaleVars_spec (fuel : ℕ) (dDataMin dDataMax : ℚ) (n : ℤ)
    (hlt : dDataMin < dDataMax) (hn : 2 ≤ n) (hf : 3 ≤ fuel) :
    ∃ N : ℚ, extScaleVars fuel dDataMin dDataMax n
        = .ok (N, ⌊dDataMin / N⌋, ⌊dDataMax / N⌋) ∧
      0 < N ∧ (dDataMax - dDataMin) / (n : ℚ) ≤ N ∧
      ⌊dDataMax / N⌋ - ⌊dDataMin / N⌋ ≤ n := by
  have hn' : (0 : ℚ) < n := by exact_mod_cast (by omega : (0 : ℤ) < n)
  have hx : 0 < (dDataMax - dDataMin) / (n : ℚ) := div_pos (by linarith) hn'
  obtain ⟨N, st, hs, hle, hN⟩ := searchLoop_first _ hx fuel hf
  have hspan : ⌊dDataMax / N⌋ - ⌊dDataMin / N⌋ ≤ n :=
    floor_sub_floor_le _ _ n (range_div_le dDataMin dDataMax N n (by omega) hN hle)
  refine ⟨N, ?_, hN, hle, hspan⟩
  simp only [extScaleVars, hlt, not_true_eq_false, if_false, ge_iff_le, hn, hs,
    scCalcExtLabel_eq _ _ _ hN, coarsenLoop_stop _ _ _ _ _ _ _ hspan]

/-- With fuel 3 or more, valid arguments bring `scInternal` to a positive
nice number not below the interval size and the ceilings of the scaled data
bounds as multipliers. -/
theorem intScaleVars_spec (fuel : ℕ) (dDataMin dDataMax : ℚ) (n : ℤ)
    (hlt : dDataMin < dDataMax) (hn : 5 ≤ n) (hf : 3 ≤ fuel) :
    ∃ N : ℚ, intScaleVars fuel dDataMin dDataMax n
        = .ok (N, ⌈dDataMin / N⌉, ⌈dDataMax / N⌉) ∧
      0 < N ∧ (dDataMax - dDataMin) / (n : ℚ) ≤ N := by
  have hn' : (0 : ℚ) < n := by exact_mod_cast (by omega : (0 : ℤ) < n)
  have hx : 0 < (dDataMax - dDataMin) / (n : ℚ) := div_pos (by linarith) hn'
  obtain ⟨N, st, hs, hle, hN⟩ := searchLoop_first _ hx fuel hf
  refine ⟨N, ?_, hN, hle⟩
  simp only [intScaleVars, hlt, not_true_eq_false, if_false, ge_iff_le, hn, hs,
    scCalcIntLabel_eq _ _ _ hN]

/-! Evaluation at concrete arguments -/

/-- A certificate for the search: between the powers of ten `10 ^ k` and
`10 ^ (k + 1)`, the search returns the first of `1, 2, 5, 10` times `10 ^ k`
that is not below the interval size. -/
theorem searchLoop_cert (x : ℚ) (k : ℤ) (f : ℕ) (N : ℚ) (hx : 0 < x)
    (h1 : (10 : ℚ) ^ k ≤ x) (h2 : x < (10 : ℚ) ^ (k + 1)) (hN : x ≤ N)
    (hsel : N = (10 : ℚ) ^ k ∨ (N = 2 * (10 : ℚ) ^ k ∧ (10 : ℚ) ^ k < x) ∨
      (N = 5 * (10 : ℚ) ^ k ∧ 2 * (10 : ℚ) ^ k < x) ∨
      (N = 10 * (10 : ℚ) ^ k ∧ 5 * (10 : ℚ) ^ k < x)) :
    ∃ st, searchLoop x (f + 3) (scFirstNiceNum x) = .ok (N, st) := by
  rw [scFirstNiceNum_of_bounds x k hx h1 h2]
  have hp : (0 : ℚ) < (10 : ℚ) ^ k := zpow_pos (by norm_num) k
  have h2' : x < 10 * (10 : ℚ) ^ k := by
    rw [zpow_add_one₀ (by norm_num)] at h2
    linarith
  obtain ⟨N', st, hs, hle, hc⟩ := searchLoop_from_power x _ h2' (f + 3) (by omega)
  have hNN : N' = N := by
    rcases hsel with h | ⟨h, h'⟩ | ⟨h, h'⟩ | ⟨h, h'⟩ <;>
      rcases hc with ⟨g, _⟩ | ⟨g, _, g'⟩ | ⟨g, _, g'⟩ | ⟨g, _, g'⟩ <;>
      first
        | exact g.trans h.symm
        | (exfalso; rw [h] at hN; rw [g] at hle; linarith)
  exact ⟨st, by rw [hs, hNN]⟩

/-- A certificate for the first part of `scDixonKronmal` and `scMaxInterval`
at given arguments. -/
theorem extScaleVars_cert (f : ℕ) (dDataMin dDataMax : ℚ) (n k lo hi : ℤ) (N : ℚ)
    (hlt : dDataMin < dDataMax) (hn : 2 ≤ n)
    (h1 : (10 : ℚ) ^ k ≤ (dDataMax - dDataMin) / (n : ℚ))
    (h2 : (dDataMax - dDataMin) / (n : ℚ) < (10 : ℚ) ^ (k + 1))
    (hN : (dDataMax - dDataMin) / (n : ℚ) ≤ N)
    (hsel : N = (10 : ℚ) ^ k ∨
      (N = 2 * (10 : ℚ) ^ k ∧ (10 : ℚ) ^ k < (dDataMax - dDataMin) / (n : ℚ)) ∨
      (N = 5 * (10 : ℚ) ^ k ∧ 2 * (10 : ℚ) ^ k < (dDataMax - dDataMin) / (n : ℚ)) ∨
      (N = 10 * (10 : ℚ) ^ k ∧ 5 * (10 : ℚ) ^ k < (dDataMax - dDataMin) / (n : ℚ)))
    (hlo : (lo : ℚ) * N ≤ dDataMin ∧ dDataMin < ((lo : ℚ) + 1) * N)
    (hhi : (hi : ℚ) * N ≤ dDataMax ∧ dDataMax < ((hi : ℚ) + 1) * N) :
    extScaleVars (f + 3) dDataMin dDataMax n = .ok (N, lo, hi) := by
  have hn' : (0 : ℚ) < n := by exact_mod_cast (by omega : (0 : ℤ) < n)
  have hx : 0 < (dDataMax - dDataMin) / (n : ℚ) := div_pos (by linarith) hn'
  have hNpos : 0 < N := lt_of_lt_of_le hx hN
  obtain ⟨st, hs⟩ := searchLoop_cert _ k f N hx h1 h2 hN hsel
  have flo : ⌊dDataMin / N⌋ = lo := by
    rw [Int.floor_eq_iff, le_div_iff₀ hNpos, div_lt_iff₀ hNpos]; exact hlo
  have fhi : ⌊dDataMax / N⌋ = hi := by
    rw [Int.floor_eq_iff, le_div_iff₀ hNpos, div_lt_iff₀ hNpos]; exact hhi
  have hspan : hi - lo ≤ n := by
    rw [← flo, ← fhi]
    exact floor_sub_floor_le _ _ n (range_div_le dDataMin dDataMax N n (by omega) hNpos hN)
  simp only [extScaleVars, hlt, not_true_eq_false, if_false, ge_iff_le, hn, hs,
    scCalcExtLabel_eq _ _ _ hNpos, flo, fhi, coarsenLoop_stop _ _ _ _ _ _ _ hspan]

/-- A certificate for `scInternal` up to its label computation at given
arguments. -/
theorem intScaleVars_cert (f : ℕ) (dDataMin dDataMax : ℚ) (n k lo hi : ℤ) (N : ℚ)
    (hlt : dDataMin < dDataMax) (hn : 5 ≤ n)
    (h1 : (10 : ℚ) ^ k ≤ (dDataMax - dDataMin) / (n : ℚ))
    (h2 : (dDataMax - dDataMin) / (n : ℚ) < (10 : ℚ) ^ (k + 1))
    (hN : (dDataMax - dDataMin) / (n : ℚ) ≤ N)
    (hsel : N = (10 : ℚ) ^ k ∨
      (N = 2 * (10 : ℚ) ^ k ∧ (10 : ℚ) ^ k < (dDataMax - dDataMin) / (n : ℚ)) ∨
      (N = 5 * (10 : ℚ) ^ k ∧ 2 * (10 : ℚ) ^ k < (dDataMax - dDataMin) / (n : ℚ)) ∨
      (N = 10 * (10 : ℚ) ^ k ∧ 5 * (10 : ℚ) ^ k < (dDataMax - dDataMin) / (n : ℚ)))
    (hlo : ((lo : ℚ) - 1) * N < dDataMin ∧ dDataMin ≤ (lo : ℚ) * N)
    (hhi : ((hi : ℚ) - 1) * N < dDataMax ∧ dDataMax ≤ (hi : ℚ) * N) :
    intScaleVars (f + 3) dDataMin dDataMax n = .ok (N, lo, hi) := by
  have hn' : (0 : ℚ) < n := by exact_mod_cast (by omega : (0 : ℤ) < n)
  have hx : 0 < (dDataMax - dDataMin) / (n : ℚ) := div_pos (by linarith) hn'
  have hNpos : 0 < N := lt_of_lt_of_le hx hN
  obtain ⟨st, hs⟩ := searchLoop_cert _ k f N hx h1 h2 hN hsel
  have flo : ⌈dDataMin / N⌉ = lo := by
    rw [Int.ceil_eq_iff, lt_div_iff₀ hNpos, div_le_iff₀ hNpos]; exact hlo
  have fhi : ⌈dDataMax / N⌉ = hi := by
    rw [Int.ceil_eq_iff, lt_div_iff₀ hNpos, div_le_iff₀ hNpos]; exact hhi
  simp only [intScaleVars, hlt, not_true_eq_false, if_false, ge_iff_le, hn, hs,
    scCalcIntLabel_eq _ _ _ hNpos, flo, fhi]

/-- The adjusted high multiplier of `scDixonKronmal` is not positive when the
high multiplier is not positive. -/
theorem dkAdjust_snd_nonpos (dDataMin dDataMax : ℚ) (n : ℤ) (N : ℚ) (lo hi : ℤ)
    (h : hi ≤ 0) : (dkAdjust dDataMin dDataMax n N lo hi).2 ≤ 0 := by
  unfold dkAdjust
  simp only
  split_ifs <;> simp_all

/-! The claims -/

/-- Claim C1, evaluated on the code at the scenario of the specification:
`scMaxInterval (3, 27, 10)` returns `scaleMin = 0`, `scaleMax = 25` and
`actualIntervals = 5` whatever the fuel, so the returned scale stops below the
data maximum 27 (the specification expects 0, 30 and 6). -/
theorem scMaxInterval_misses_dataMax :
    ∀ f : ℕ, ∃ r : ScaleResult, scMaxInterval (f + 3) 3 27 10 = .ok r ∧
      r = ⟨0, 25, 5⟩ ∧ r.pdScaleMax < 27 := by
  intro f
  have h : extScaleVars (f + 3) 3 27 10 = .ok (5, 0, 5) := by
    apply extScaleVars_cert f 3 27 10 0 0 5 5 <;> norm_num
  refine ⟨⟨0, 25, 5⟩, ?_, rfl, by norm_num⟩
  simp only [scMaxInterval, h]
  norm_num

/-- Claim C2: for `dDataMin < dDataMax` and `nExactIntervals ≥ 2`,
`scDixonKronmal` returns a scale (fuel 3 is enough for its loops) whose
`*pnActual` equals `nExactIntervals`. -/
theorem scDixonKronmal_actual_eq (fuel : ℕ) (dDataMin dDataMax : ℚ) (n : ℤ)
    (hlt : dDataMin < dDataMax) (hn : 2 ≤ n) (hf : 3 ≤ fuel) :
    ∃ r : ScaleResult, scDixonKronmal fuel dDataMin dDataMax n = .ok r ∧ r.pnActual = n := by
  obtain ⟨N, h, _⟩ := extScaleVars_spec fuel dDataMin dDataMax n hlt hn hf
  have hr : scDixonKronmal fuel dDataMin dDataMax n = .ok
      ⟨((dkAdjust dDataMin dDataMax n N ⌊dDataMin / N⌋ ⌊dDataMax / N⌋).1 : ℚ) * N,
        ((dkAdjust dDataMin dDataMax n N ⌊dDataMin / N⌋ ⌊dDataMax / N⌋).2 : ℚ) * N, n⟩ := by
    simp only [scDixonKronmal, h]
  exact ⟨_, hr, rfl⟩

theorem scDixonKronmal_actual_eq_witness :
    (0 : ℚ) < 100 ∧ (2 : ℤ) ≤ 5 ∧ 3 ≤ 3 ∧
      ∃ r : ScaleResult, scDixonKronmal 3 0 100 5 = .ok r ∧ r.pnActual = 5 :=
  ⟨by norm_num, by norm_num, le_refl 3,
    scDixonKronmal_actual_eq 3 0 100 5 (by norm_num) (by norm_num) (le_refl 3)⟩

/-- Claim C3, evaluated on the code: `scDixonKronmal (4, 11, 2)` returns the
scale from 0 to 10 with 2 intervals whatever the fuel, although the data
maximum is 11, so the returned scale does not contain the data range. -/
theorem scDixonKronmal_misses_dataMax :
    ∀ f : ℕ, ∃ r : ScaleResult, scDixonKronmal (f + 3) 4 11 2 = .ok r ∧
      r = ⟨0, 10, 2⟩ ∧ r.pdScaleMax < 11 := by
  intro f
  have h : extScaleVars (f + 3) 4 11 2 = .ok (5, 0, 2) := by
    apply extScaleVars_cert f 4 11 2 0 0 2 5 <;> norm_num
  refine ⟨⟨0, 10, 2⟩, ?_, rfl, by norm_num⟩
  simp only [scDixonKronmal, h, dkAdjust]
  norm_num [Int.tdiv]

/-- In exact arithmetic, for `dDataMin < dDataMax` and `nMaxIntervals ≥ 5`,
`scInternal` returns a result (fuel 3 is enough for its loop) whose `*pnActual`
is at most `nMaxIntervals`; and for every positive nice number not smaller
than `(dDataMax - dDataMin) / nMaxIntervals` the multipliers of
`scCalcIntLabel` differ by at most `nMaxIntervals`. With the rounding of
binary64 the bound can fail. -/
theorem scInternal_actual_le_exact (fuel : ℕ) (dDataMin dDataMax : ℚ) (n : ℤ)
    (hlt : dDataMin < dDataMax) (hn : 5 ≤ n) (hf : 3 ≤ fuel) :
    (∃ r : RefResult, scInternal fuel dDataMin dDataMax n = .ok r ∧ r.pnActual ≤ n) ∧
      ∀ N : ℚ, 0 < N → (dDataMax - dDataMin) / (n : ℚ) ≤ N →
        (scCalcIntLabel dDataMin dDataMax N).2 - (scCalcIntLabel dDataMin dDataMax N).1 ≤ n := by
  have hspan : ∀ N : ℚ, 0 < N → (dDataMax - dDataMin) / (n : ℚ) ≤ N →
      ⌈dDataMax / N⌉ - ⌈dDataMin / N⌉ ≤ n := fun N hN hle =>
    ceil_sub_ceil_le _ _ n (range_div_le dDataMin dDataMax N n (by omega) hN hle)
  constructor
  · obtain ⟨N, h, hN, hle⟩ := intScaleVars_spec fuel dDataMin dDataMax n hlt hn hf
    have hr : scInternal fuel dDataMin dDataMax n = .ok
        ⟨(⌈dDataMin / N⌉ : ℚ) * N, (⌈dDataMax / N⌉ : ℚ) * N,
          ⌈dDataMax / N⌉ - ⌈dDataMin / N⌉⟩ := by
      simp only [scInternal, h]
    exact ⟨_, hr, hspan N hN hle⟩
  · intro N hN hle
    rw [scCalcIntLabel_eq _ _ _ hN]
    exact hspan N hN hle

/-- Claim C6, evaluated on the code at the scenario of the specification:
`scInternal (12, 88, 5)` returns `refMin = 20`, `refMax = 100` and 4 intervals
whatever the fuel, so the upper reference value lies above the data maximum
88 and not inside the data range. -/
theorem scInternal_exceeds_dataMax :
    ∀ f : ℕ, ∃ r : RefResult, scInternal (f + 3) 12 88 5 = .ok r ∧
      r = ⟨20, 100, 4⟩ ∧ 88 < r.pdRefMax := by
  intro f
  have h : intScaleVars (f + 3) 12 88 5 = .ok (20, 1, 5) := by
    apply intScaleVars_cert f 12 88 5 1 1 5 20 <;> norm_num
  refine ⟨⟨20, 100, 4⟩, ?_, rfl, by norm_num⟩
  simp only [scInternal, h]
  norm_num

/-- Claim C7, evaluated on the code: for `min = 3`, `max = 27` and the nice
number 5, `scCalcExtLabel` returns the high multiplier 5, and `5 * 5` is below
`max`: the high multiplier does not cover the data maximum. -/
theorem scCalcExtLabel_hi_below_max :
    scCalcExtLabel 3 27 5 = (0, 5) ∧
      ¬ (27 : ℚ) ≤ ((scCalcExtLabel 3 27 5).2 : ℚ) * 5 := by
  have h : scCalcExtLabel 3 27 5 = (0, 5) := by
    rw [scCalcExtLabel_eq _ _ _ (by norm_num)]
    have a : ⌊(3 : ℚ) / 5⌋ = 0 := by rw [Int.floor_eq_iff]; norm_num
    have b : ⌊(27 : ℚ) / 5⌋ = 5 := by rw [Int.floor_eq_iff]; norm_num
    rw [a, b]
  rw [h]
  exact ⟨rfl, by norm_num⟩

/-- In exact arithmetic and with an unbounded `int`, for a positive nice
number the low multiplier `lo` of `scCalcExtLabel` is the greatest integer
multiple not above `min`: `lo * niceNumber ≤ min < (lo + 1) * niceNumber`. -/
theorem scCalcExtLabel_lo_exact (dDataMin dDataMax N : ℚ) (_hlt : dDataMin < dDataMax)
    (hN : 0 < N) :
    ((scCalcExtLabel dDataMin dDataMax N).1 : ℚ) * N ≤ dDataMin ∧
      dDataMin < (((scCalcExtLabel dDataMin dDataMax N).1 : ℚ) + 1) * N := by
  rw [scCalcExtLabel_eq _ _ _ hN]
  constructor
  · have := Int.floor_le (dDataMin / N)
    rwa [le_div_iff₀ hN] at this
  · have := Int.lt_floor_add_one (dDataMin / N)
    rwa [div_lt_iff₀ hN] at this

/-- Claim C9, evaluated on the code: for the positive data range from 1 to 49
and 2 intervals, `scDixonKronmal` returns the scale from -100 to 0 whatever
the fuel: a negative scale for non-negative data. -/
theorem scDixonKronmal_negative_scale :
    ∀ f : ℕ, ∃ r : ScaleResult, scDixonKronmal (f + 3) 1 49 2 = .ok r ∧
      r = ⟨-100, 0, 2⟩ ∧ r.pdScaleMin < 0 := by
  intro f
  have h : extScaleVars (f + 3) 1 49 2 = .ok (50, 0, 0) := by
    apply extScaleVars_cert f 1 49 2 1 0 0 50 <;> norm_num
  refine ⟨⟨-100, 0, 2⟩, ?_, rfl, by norm_num⟩
  simp only [scDixonKronmal, h, dkAdjust]
  norm_num [Int.tdiv]

/-- Claim C10: for `dDataMin < dDataMax ≤ 0` and `nExactIntervals ≥ 2`,
`scDixonKronmal` returns a scale (fuel 3 is enough for its loops) whose
`*pdScaleMax` is not positive. -/
theorem scDixonKronmal_scaleMax_nonpos (fuel : ℕ) (dDataMin dDataMax : ℚ) (n : ℤ)
    (hlt : dDataMin < dDataMax) (hmax : dDataMax ≤ 0) (hn : 2 ≤ n) (hf : 3 ≤ fuel) :
    ∃ r : ScaleResult, scDixonKronmal fuel dDataMin dDataMax n = .ok r ∧ r.pdScaleMax ≤ 0 := by
  obtain ⟨N, h, hN, _⟩ := extScaleVars_spec fuel dDataMin dDataMax n hlt hn hf
  have hr : scDixonKronmal fuel dDataMin dDataMax n = .ok
      ⟨((dkAdjust dDataMin dDataMax n N ⌊dDataMin / N⌋ ⌊dDataMax / N⌋).1 : ℚ) * N,
        ((dkAdjust dDataMin dDataMax n N ⌊dDataMin / N⌋ ⌊dDataMax / N⌋).2 : ℚ) * N, n⟩ := by
    simp only [scDixonKronmal, h]
  refine ⟨_, hr, ?_⟩
  have hhi : ⌊dDataMax / N⌋ ≤ 0 :=
    Int.floor_nonpos (div_nonpos_of_nonpos_of_nonneg hmax hN.le)
  have hadj := dkAdjust_snd_nonpos dDataMin dDataMax n N ⌊dDataMin / N⌋ ⌊dDataMax / N⌋ hhi
  have hq : ((dkAdjust dDataMin dDataMax n N ⌊dDataMin / N⌋ ⌊dDataMax / N⌋).2 : ℚ) ≤ 0 := by
    exact_mod_cast hadj
  exact mul_nonpos_iff.mpr (Or.inr ⟨hq, hN.le⟩)

theorem scDixonKronmal_scaleMax_nonpos_witness :
    (-49 : ℚ) < -1 ∧ (-1 : ℚ) ≤ 0 ∧ (2 : ℤ) ≤ 2 ∧ 3 ≤ 3 ∧
      ∃ r : ScaleResult, scDixonKronmal 3 (-49) (-1) 2 = .ok r ∧ r.pdScaleMax ≤ 0 :=
  ⟨by norm_num, by norm_num, le_refl 2, le_refl 3,
    scDixonKronmal_scaleMax_nonpos 3 (-49) (-1) 2 (by norm_num) (by norm_num) (le_refl 2)
      (le_refl 3)⟩

/-! Nice numbers and the search -/

theorem isNice_pos (N : ℚ) (h : IsNice N) : 0 < N := by
  obtain ⟨m, k, hm, rfl⟩ := h
  have hp : (0 : ℚ) < (10 : ℚ) ^ k := zpow_pos (by norm_num) k
  rcases hm with rfl | rfl | rfl <;> positivity

/-- Where a nice number lies relative to the power of ten `10 ^ k`: at most
half of it, one of `1, 2, 5` times it, or at least ten times it. -/
theorem nice_gap (M : ℚ) (hM : IsNice M) (k : ℤ) :
    M ≤ (10 : ℚ) ^ k / 2 ∨ M = (10 : ℚ) ^ k ∨ M = 2 * (10 : ℚ) ^ k ∨
      M = 5 * (10 : ℚ) ^ k ∨ 10 * (10 : ℚ) ^ k ≤ M := by
  obtain ⟨m, j, hm, rfl⟩ := hM
  have hj : (0 : ℚ) < (10 : ℚ) ^ j := zpow_pos (by norm_num) j
  rcases lt_trichotomy j k with h | h | h
  · left
    have h1 : (10 : ℚ) ^ j ≤ (10 : ℚ) ^ (k - 1) :=
      zpow_le_zpow_right₀ (by norm_num) (by omega)
    rw [zpow_sub_one₀ (by norm_num)] at h1
    rcases hm with rfl | rfl | rfl <;> linarith
  · subst h
    rcases hm with rfl | rfl | rfl
    · right; left; ring
    · right; right; left; rfl
    · right; right; right; left; rfl
  · right; right; right; right
    have h1 : (10 : ℚ) ^ (k + 1) ≤ (10 : ℚ) ^ j :=
      zpow_le_zpow_right₀ (by norm_num) (by omega)
    rw [zpow_add_one₀ (by norm_num)] at h1
    rcases hm with rfl | rfl | rfl <;> linarith

/-- For a positive interval size and fuel 3 or more the search returns the
smallest nice number not smaller than the interval size. -/
theorem searchLoop_smallest (x : ℚ) (hx : 0 < x) (fuel : ℕ) (hf : 3 ≤ fuel) :
    ∃ N st, searchLoop x fuel (scFirstNiceNum x) = .ok (N, st) ∧ 0 < N ∧ x ≤ N ∧
      IsNice N ∧ ∀ M, IsNice M → x ≤ M → N ≤ M := by
  rw [scFirstNiceNum_eq]
  have hp : (0 : ℚ) < (10 : ℚ) ^ Int.log 10 x := zpow_pos (by norm_num) _
  have hpx := first_le x hx
  obtain ⟨N, st, h, hle, hc⟩ := searchLoop_from_power x _ (lt_ten_first x) fuel hf
  refine ⟨N, st, h, lt_of_lt_of_le hx hle, hle, ?_, ?_⟩
  · rcases hc with ⟨g, _⟩ | ⟨g, _, _⟩ | ⟨g, _, _⟩ | ⟨g, _, _⟩
    · exact ⟨1, _, Or.inl rfl, by rw [g, one_mul]⟩
    · exact ⟨2, _, Or.inr (Or.inl rfl), g⟩
    · exact ⟨5, _, Or.inr (Or.inr rfl), g⟩
    · exact ⟨1, Int.log 10 x + 1, Or.inl rfl, by
        rw [g, zpow_add_one₀ (by norm_num)]; ring⟩
  · intro M hM hxM
    rcases nice_gap M hM (Int.log 10 x) with c | c | c | c | c <;>
      rcases hc with ⟨g, _⟩ | ⟨g, _, g'⟩ | ⟨g, _, g'⟩ | ⟨g, _, g'⟩ <;>
      rw [g] <;> linarith

/-- With fuel 3 or more, valid arguments bring `scDixonKronmal` and
`scMaxInterval` out of their loops with the smallest nice number not below
the interval size, found by the search alone. -/
theorem extScaleVars_smallest (fuel : ℕ) (dDataMin dDataMax : ℚ) (n : ℤ)
    (hlt : dDataMin < dDataMax) (hn : 2 ≤ n) (hf : 3 ≤ fuel) :
    ∃ N st, searchLoop ((dDataMax - dDataMin) / (n : ℚ)) fuel
          (scFirstNiceNum ((dDataMax - dDataMin) / (n : ℚ))) = .ok (N, st) ∧
      extScaleVars fuel dDataMin dDataMax n = .ok (N, ⌊dDataMin / N⌋, ⌊dDataMax / N⌋) ∧
      0 < N ∧ (dDataMax - dDataMin) / (n : ℚ) ≤ N ∧ IsNice N ∧
      (∀ M, IsNice M → (dDataMax - dDataMin) / (n : ℚ) ≤ M → N ≤ M) ∧
      ⌊dDataMax / N⌋ - ⌊dDataMin / N⌋ ≤ n := by
  have hn' : (0 : ℚ) < n := by exact_mod_cast (by omega : (0 : ℤ) < n)
  have hx : 0 < (dDataMax - dDataMin) / (n : ℚ) := div_pos (by linarith) hn'
  obtain ⟨N, st, hs, hN, hle, hnice, hmin⟩ := searchLoop_smallest _ hx fuel hf
  have hspan : ⌊dDataMax / N⌋ - ⌊dDataMin / N⌋ ≤ n :=
    floor_sub_floor_le _ _ n (range_div_le dDataMin dDataMax N n (by omega) hN hle)
  refine ⟨N, st, hs, ?_, hN, hle, hnice, hmin, hspan⟩
  simp only [extScaleVars, hlt, not_true_eq_false, if_false, ge_iff_le, hn, hs,
    scCalcExtLabel_eq _ _ _ hN, coarsenLoop_stop _ _ _ _ _ _ _ hspan]

/-- The adjusted multipliers of `scDixonKronmal` are always `nExactIntervals`
apart, whether a guard fires or not. -/
theorem dkAdjust_width (dDataMin dDataMax : ℚ) (n : ℤ) (N : ℚ) (lo hi : ℤ) :
    (dkAdjust dDataMin dDataMax n N lo hi).2 - (dkAdjust dDataMin dDataMax n N lo hi).1 = n := by
  unfold dkAdjust
  simp only
  split_ifs <;> simp

/-! The search of `scLewart` -/

theorem lewartTest_index_zero (x p : ℚ) :
    lewartTest x ⟨0, p⟩ = .error .indexRange := by
  simp [lewartTest, readSet, pdSet]

theorem lewartLoop_first (x : ℚ) (fuel : ℕ) :
    lewartLoop x fuel (scFirstNiceNum x) = .error .indexRange := by
  rw [scFirstNiceNum_eq]
  cases fuel <;> simp [lewartLoop, lewartTest_index_zero]

theorem scLewart_error (fuel : ℕ) (dDataMin dDataMax : ℚ) (n : ℤ) :
    scLewart fuel dDataMin dDataMax n = .error .assertFailed ∨
      scLewart fuel dDataMin dDataMax n = .error .indexRange := by
  unfold scLewart
  by_cases h1 : dDataMin < dDataMax
  · by_cases h2 : n ≥ 2
    · right
      simp only [h1, h2, not_true_eq_false, if_false, lewartLoop_first]
    · left
      simp only [h1, h2, not_true_eq_false, not_false_eq_true, if_false, if_true]
  · left
    simp only [h1, not_false_eq_true, if_true]

/-! The claims, continued -/

/-- In exact arithmetic, for `dDataMin < dDataMax` and an interval count of
at least 2 (fuel 3 is enough), `scMaxInterval` and `scDixonKronmal` leave
their loops with the same nice number `N`, a value `m * 10 ^ k` with `m` one
of 1, 2, 5, and each returns a scale with
`scaleMax - scaleMin = actualIntervals * N` whose two bounds are integer
multiples of `N`; for `scDixonKronmal` whichever guard fires. -/
theorem scale_width_exact (fuel : ℕ) (dDataMin dDataMax : ℚ) (n : ℤ)
    (hlt : dDataMin < dDataMax) (hn : 2 ≤ n) (hf : 3 ≤ fuel) :
    ∃ (N : ℚ) (lo hi : ℤ), extScaleVars fuel dDataMin dDataMax n = .ok (N, lo, hi) ∧
      IsNice N ∧
      (∃ r : ScaleResult, scMaxInterval fuel dDataMin dDataMax n = .ok r ∧
        r.pdScaleMax - r.pdScaleMin = (r.pnActual : ℚ) * N ∧
        ∃ a b : ℤ, r.pdScaleMin = (a : ℚ) * N ∧ r.pdScaleMax = (b : ℚ) * N) ∧
      (∃ r : ScaleResult, scDixonKronmal fuel dDataMin dDataMax n = .ok r ∧
        r.pdScaleMax - r.pdScaleMin = (r.pnActual : ℚ) * N ∧
        ∃ a b : ℤ, r.pdScaleMin = (a : ℚ) * N ∧ r.pdScaleMax = (b : ℚ) * N) := by
  obtain ⟨N, st, _, h, _, _, hnice, _, _⟩ :=
    extScaleVars_smallest fuel dDataMin dDataMax n hlt hn hf
  refine ⟨N, ⌊dDataMin / N⌋, ⌊dDataMax / N⌋, h, hnice, ?_, ?_⟩
  · have hr : scMaxInterval fuel dDataMin dDataMax n = .ok
        ⟨(⌊dDataMin / N⌋ : ℚ) * N, (⌊dDataMax / N⌋ : ℚ) * N,
          ⌊dDataMax / N⌋ - ⌊dDataMin / N⌋⟩ := by
      simp only [scMaxInterval, h]
    refine ⟨_, hr, ?_, ⌊dDataMin / N⌋, ⌊dDataMax / N⌋, rfl, rfl⟩
    push_cast
    ring
  · have hr : scDixonKronmal fuel dDataMin dDataMax n = .ok
        ⟨((dkAdjust dDataMin dDataMax n N ⌊dDataMin / N⌋ ⌊dDataMax / N⌋).1 : ℚ) * N,
          ((dkAdjust dDataMin dDataMax n N ⌊dDataMin / N⌋ ⌊dDataMax / N⌋).2 : ℚ) * N, n⟩ := by
      simp only [scDixonKronmal, h]
    refine ⟨_, hr, ?_, _, _, rfl, rfl⟩
    have hw := dkAdjust_width dDataMin dDataMax n N ⌊dDataMin / N⌋ ⌊dDataMax / N⌋
    have hq : ((dkAdjust dDataMin dDataMax n N ⌊dDataMin / N⌋ ⌊dDataMax / N⌋).2 : ℚ)
        - ((dkAdjust dDataMin dDataMax n N ⌊dDataMin / N⌋ ⌊dDataMax / N⌋).1 : ℚ) = (n : ℚ) := by
      exact_mod_cast hw
    show _ * N - _ * N = (n : ℚ) * N
    rw [← sub_mul, hq]

/-- In exact arithmetic, for a positive interval size (fuel 3 is enough),
`scFirstNiceNum` returns a power of ten `p` with `p ≤ intervalSize < 10 * p`,
and the search from it stops at a nice number `N ≥ intervalSize` such that
every nice number not smaller than the interval size is at least `N`. -/
theorem search_smallest_exact (x : ℚ) (hx : 0 < x) (fuel : ℕ) (hf : 3 ≤ fuel) :
    (∃ k : ℤ, (scFirstNiceNum x).1 = (10 : ℚ) ^ k ∧ (10 : ℚ) ^ k ≤ x ∧
        x < 10 * (10 : ℚ) ^ k) ∧
      ∃ N st, searchLoop x fuel (scFirstNiceNum x) = .ok (N, st) ∧ IsNice N ∧ x ≤ N ∧
        ∀ M, IsNice M → x ≤ M → ¬ M < N := by
  constructor
  · exact ⟨Int.log 10 x, by rw [scFirstNiceNum_eq], first_le x hx, lt_ten_first x⟩
  · obtain ⟨N, st, h, _, hle, hnice, hmin⟩ := searchLoop_smallest x hx fuel hf
    exact ⟨N, st, h, hnice, hle, fun M hM hxM => not_lt.mpr (hmin M hM hxM)⟩

/-- Claim C15, evaluated on the code: the first stopping test of the search of
`scLewart` reads `pdSet[iIndex-1]` with `iIndex = 0`, outside the table, so
`scLewart (0, 100, 5)` selects no nice number whatever the fuel, and no
arguments make `scLewart` return a scale. -/
theorem scLewart_selects_nothing :
    (∀ fuel : ℕ, scLewart fuel 0 100 5 = .error .indexRange) ∧
      ∀ (fuel : ℕ) (dDataMin dDataMax : ℚ) (n : ℤ) (r : ScaleResult),
        scLewart fuel dDataMin dDataMax n ≠ .ok r := by
  constructor
  · intro fuel
    simp only [scLewart, lewartLoop_first]
    norm_num
  · intro fuel dDataMin dDataMax n r h
    rcases scLewart_error fuel dDataMin dDataMax n with e | e <;>
      rw [e] at h <;> cases h

/-- In exact arithmetic, for `dDataMin < dDataMax` and an interval count of
at least 2, the two loops shared by `scDixonKronmal` and `scMaxInterval` stop:
with fuel 3 or more the search loop returns, the coarsening loop entered with
its result returns, and both routines return a scale. With the rounding of
binary64 the search loop need not stop. -/
theorem loops_terminate_exact (fuel : ℕ) (dDataMin dDataMax : ℚ) (n : ℤ)
    (hlt : dDataMin < dDataMax) (hn : 2 ≤ n) (hf : 3 ≤ fuel) :
    (∃ N st, searchLoop ((dDataMax - dDataMin) / (n : ℚ)) fuel
          (scFirstNiceNum ((dDataMax - dDataMin) / (n : ℚ))) = .ok (N, st) ∧
        ∃ res, coarsenLoop dDataMin dDataMax n fuel (N, st)
          (scCalcExtLabel dDataMin dDataMax N) = .ok res) ∧
      (∃ r, scDixonKronmal fuel dDataMin dDataMax n = .ok r) ∧
      ∃ r, scMaxInterval fuel dDataMin dDataMax n = .ok r := by
  obtain ⟨N, st, hs, h, hN, _, _, _, hspan⟩ :=
    extScaleVars_smallest fuel dDataMin dDataMax n hlt hn hf
  refine ⟨⟨N, st, hs, ?_⟩, ?_, ?_⟩
  · rw [scCalcExtLabel_eq _ _ _ hN, coarsenLoop_stop _ _ _ _ _ _ _ hspan]
    exact ⟨_, rfl⟩
  · simp only [scDixonKronmal, h]
    exact ⟨_, rfl⟩
  · simp only [scMaxInterval, h]
    exact ⟨_, rfl⟩

/-- Claim C18, evaluated on the code: right after `scFirstNiceNum` the index
is 0, so the stopping test of `scLewart` reads `pdSet[iIndex-1]` at index
`-1`, outside the four entries of the table, whatever the interval size. -/
theorem lewart_first_read_out_of_table :
    ∀ x : ℚ, (scFirstNiceNum x).2.iIndex - 1 = -1 ∧
      readSet pdSet ((scFirstNiceNum x).2.iIndex - 1) = .error .indexRange ∧
      lewartTest x (scFirstNiceNum x).2 = .error .indexRange := by
  intro x
  rw [scFirstNiceNum_eq]
  refine ⟨by norm_num, ?_, lewartTest_index_zero x _⟩
  simp [readSet, pdSet]

/-- Claim C19, evaluated on the code: `scMaxInterval (1, 49, 2)` returns
`scaleMin = 0`, `scaleMax = 0` and `actualIntervals = 0` whatever the fuel: a
degenerate scale. -/
theorem scMaxInterval_degenerate :
    ∀ f : ℕ, ∃ r : ScaleResult, scMaxInterval (f + 3) 1 49 2 = .ok r ∧
      r = ⟨0, 0, 0⟩ ∧ ¬ 1 ≤ r.pnActual ∧ ¬ r.pdScaleMin < r.pdScaleMax := by
  intro f
  have h : extScaleVars (f + 3) 1 49 2 = .ok (50, 0, 0) := by
    apply extScaleVars_cert f 1 49 2 1 0 0 50 <;> norm_num
  refine ⟨⟨0, 0, 0⟩, ?_, rfl, by norm_num, by norm_num⟩
  simp only [scMaxInterval, h]
  norm_num

/-- In exact arithmetic, for `dDataMin < dDataMax` and an interval count `n`
of at least 2 (fuel 3 is enough), the search returns the smallest nice number
`N` not smaller than `(dDataMax - dDataMin) / n`, the multipliers of
`scCalcExtLabel` for `N` are at most `n` apart, and the coarsening loop returns
them without any iteration (fuel 0). With the rounding of binary64 the loop
can iterate. -/
theorem coarsening_never_iterates_exact (fuel : ℕ) (dDataMin dDataMax : ℚ) (n : ℤ)
    (hlt : dDataMin < dDataMax) (hn : 2 ≤ n) (hf : 3 ≤ fuel) :
    ∃ N st, searchLoop ((dDataMax - dDataMin) / (n : ℚ)) fuel
          (scFirstNiceNum ((dDataMax - dDataMin) / (n : ℚ))) = .ok (N, st) ∧
      IsNice N ∧ (dDataMax - dDataMin) / (n : ℚ) ≤ N ∧
      (∀ M, IsNice M → (dDataMax - dDataMin) / (n : ℚ) ≤ M → N ≤ M) ∧
      extSpan dDataMin dDataMax N ≤ n ∧
      coarsenLoop dDataMin dDataMax n 0 (N, st) (scCalcExtLabel dDataMin dDataMax N)
        = .ok (N, st, scCalcExtLabel dDataMin dDataMax N) ∧
      extScaleVars fuel dDataMin dDataMax n
        = .ok (N, scCalcExtLabel dDataMin dDataMax N) := by
  obtain ⟨N, st, hs, h, hN, hle, hnice, hmin, hspan⟩ :=
    extScaleVars_smallest fuel dDataMin dDataMax n hlt hn hf
  refine ⟨N, st, hs, hnice, hle, hmin, ?_, ?_, ?_⟩
  · rw [extSpan, scCalcExtLabel_eq _ _ _ hN]
    exact hspan
  · rw [scCalcExtLabel_eq _ _ _ hN, coarsenLoop_stop _ _ _ _ _ _ _ hspan]
  · rw [scCalcExtLabel_eq _ _ _ hN, h]

/-! The generator, called repeatedly -/

/-- The comparison by squares decides `sqrt (a) * p < x` for `a ≥ 0`. -/
theorem sqrtMulLt_iff (a p x : ℚ) (ha : 0 ≤ a) :
    sqrtMulLt a p x = true ↔ Real.sqrt (a : ℝ) * (p : ℝ) < (x : ℝ) := by
  have ha' : (0 : ℝ) ≤ (a : ℝ) := by exact_mod_cast ha
  have hs : 0 ≤ Real.sqrt (a : ℝ) := Real.sqrt_nonneg _
  have hsq : Real.sqrt (a : ℝ) * Real.sqrt (a : ℝ) = (a : ℝ) := Real.mul_self_sqrt ha'
  have hsp : (Real.sqrt (a : ℝ) * (p : ℝ)) ^ 2 = (a : ℝ) * (p : ℝ) ^ 2 := by
    rw [mul_pow, sq (Real.sqrt (a : ℝ)), hsq]
  unfold sqrtMulLt
  by_cases hp : 0 ≤ p
  · have hp' : (0 : ℝ) ≤ (p : ℝ) := by exact_mod_cast hp
    have h0 : 0 ≤ Real.sqrt (a : ℝ) * (p : ℝ) := mul_nonneg hs hp'
    rw [if_pos hp, decide_eq_true_iff]
    constructor
    · rintro ⟨hx, hlt⟩
      have hx' : (0 : ℝ) < (x : ℝ) := by exact_mod_cast hx
      have hlt' : (a : ℝ) * (p : ℝ) ^ 2 < (x : ℝ) ^ 2 := by exact_mod_cast hlt
      rw [← hsp] at hlt'
      by_contra hcon
      nlinarith
    · intro h
      have hx' : (0 : ℝ) < (x : ℝ) := lt_of_le_of_lt h0 h
      have hlt' : (a : ℝ) * (p : ℝ) ^ 2 < (x : ℝ) ^ 2 := by
        rw [← hsp]; nlinarith
      exact ⟨by exact_mod_cast hx', by exact_mod_cast hlt'⟩
  · have hp' : (p : ℝ) < 0 := by exact_mod_cast not_le.mp hp
    have h0 : Real.sqrt (a : ℝ) * (p : ℝ) ≤ 0 := mul_nonpos_of_nonneg_of_nonpos hs hp'.le
    rw [if_neg hp, decide_eq_true_iff]
    constructor
    · rintro (hx | hlt)
      · have hx' : (0 : ℝ) < (x : ℝ) := by exact_mod_cast hx
        linarith
      · have hlt' : (x : ℝ) ^ 2 < (a : ℝ) * (p : ℝ) ^ 2 := by exact_mod_cast hlt
        rw [← hsp] at hlt'
        by_contra hcon
        nlinarith
    · intro h
      by_cases hx : 0 < x
      · exact Or.inl hx
      · right
        have hx' : (x : ℝ) ≤ 0 := by exact_mod_cast not_lt.mp hx
        have hlt' : (x : ℝ) ^ 2 < (a : ℝ) * (p : ℝ) ^ 2 := by
          rw [← hsp]; nlinarith
        exact_mod_cast hlt'

/-- From a cursor with index 0, 1 or 2 and a positive power of ten,
`scNextNiceNum` returns the nice number of the cursor it leaves, at least
twice the current one, and the new cursor is again of this kind. -/
theorem scNextNiceNum_valid (st : NiceState) (h0 : 0 ≤ st.iIndex) (h3 : st.iIndex < 3)
    (hp : 0 < st.dPowerOfTen) :
    ∃ v st1, scNextNiceNum pdSet SET_LEN st = .ok (v, st1) ∧ v = curNice st1 ∧
      2 * curNice st ≤ v ∧ 0 < curNice st ∧
      0 ≤ st1.iIndex ∧ st1.iIndex < 3 ∧ 0 < st1.dPowerOfTen := by
  obtain ⟨i, p⟩ := st
  simp only at h0 h3 hp
  have hi : i = 0 ∨ i = 1 ∨ i = 2 := by omega
  rcases hi with rfl | rfl | rfl
  · refine ⟨_, _, scNextNiceNum_zero p, ?_, ?_, ?_, ?_, ?_, ?_⟩ <;>
      simp [curNice, pdSet] <;> linarith
  · refine ⟨_, _, scNextNiceNum_one p, ?_, ?_, ?_, ?_, ?_, ?_⟩ <;>
      simp [curNice, pdSet] <;> linarith
  · refine ⟨_, _, scNextNiceNum_two p, ?_, ?_, ?_, ?_, ?_, ?_⟩ <;>
      simp [curNice, pdSet] <;> linarith

/-- The value returned by the `k`-th of `k` successive calls of
`scNextNiceNum` is at least `2 ^ k` times the nice number they start from. -/
theorem nextCalls_grow (k : ℕ) : ∀ st : NiceState, 0 ≤ st.iIndex → st.iIndex < 3 →
    0 < st.dPowerOfTen →
    ∃ v st1, nextCalls k (curNice st, st) = .ok (v, st1) ∧ (2 : ℚ) ^ k * curNice st ≤ v := by
  induction k with
  | zero =>
    intro st _ _ _
    exact ⟨_, _, rfl, by simp⟩
  | succ k ih =>
    intro st h0 h3 hp
    obtain ⟨v, st1, hn, hv, h2, hc, g0, g3, gp⟩ := scNextNiceNum_valid st h0 h3 hp
    obtain ⟨w, st2, hw, hge⟩ := ih st1 g0 g3 gp
    refine ⟨w, st2, ?_, ?_⟩
    · simp only [nextCalls, hn, hv, hw]
    · have hk : (0 : ℚ) ≤ (2 : ℚ) ^ k := by positivity
      calc (2 : ℚ) ^ (k + 1) * curNice st = (2 : ℚ) ^ k * (2 * curNice st) := by ring
        _ ≤ (2 : ℚ) ^ k * curNice st1 := by
            apply mul_le_mul_of_nonneg_left _ hk
            rw [← hv]; exact h2
        _ ≤ w := hge

/-- Claim C12: from a cursor with index 0, 1 or 2 and a positive power of
ten, `scNextNiceNum` with the table `pdSet` and `SET_LEN = 3` returns a value
strictly greater than the current nice number `pdSet[iIndex] * dPowerOfTen`
and leaves the index in `{0, 1, 2}`; and for every bound `B` there is a number
of calls from which on every further call returns a value greater than `B`. -/
theorem scNextNiceNum_increasing_unbounded (st : NiceState) (h0 : 0 ≤ st.iIndex)
    (h3 : st.iIndex < 3) (hp : 0 < st.dPowerOfTen) :
    ∃ m, readSet pdSet st.iIndex = .ok m ∧
      (∃ v st1, scNextNiceNum pdSet SET_LEN st = .ok (v, st1) ∧
        m * st.dPowerOfTen < v ∧ 0 ≤ st1.iIndex ∧ st1.iIndex < 3) ∧
      ∀ B : ℚ, ∃ k : ℕ, ∀ j : ℕ, k ≤ j →
        ∃ v st1, nextCalls j (m * st.dPowerOfTen, st) = .ok (v, st1) ∧ B < v := by
  have hm : readSet pdSet st.iIndex = .ok (pdSet.getD st.iIndex.toNat 0) := by
    have : st.iIndex < ((pdSet.length : ℕ) : ℤ) := by
      simp only [pdSet, List.length_cons, List.length_nil]; omega
    simp only [readSet, h0, this, and_self, if_true]
  obtain ⟨v, st1, hn, _, h2, hc, g0, g3, _⟩ := scNextNiceNum_valid st h0 h3 hp
  refine ⟨_, hm, ⟨v, st1, hn, ?_, g0, g3⟩, ?_⟩
  · show curNice st < v
    linarith
  · intro B
    obtain ⟨k, hk⟩ := pow_unbounded_of_one_lt (B / curNice st) (one_lt_two : (1 : ℚ) < 2)
    rw [div_lt_iff₀ hc] at hk
    refine ⟨k, fun j hj => ?_⟩
    obtain ⟨w, st2, hw, hge⟩ := nextCalls_grow j st h0 h3 hp
    refine ⟨w, st2, hw, ?_⟩
    have hpow : (2 : ℚ) ^ k ≤ (2 : ℚ) ^ j := pow_le_pow_right₀ (by norm_num) hj
    calc B < (2 : ℚ) ^ k * curNice st := hk
      _ ≤ (2 : ℚ) ^ j * curNice st := mul_le_mul_of_nonneg_right hpow hc.le
      _ ≤ w := hge

theorem scNextNiceNum_increasing_unbounded_witness :
    (0 : ℤ) ≤ 2 ∧ (2 : ℤ) < 3 ∧ (0 : ℚ) < 1 ∧
    ∃ m, readSet pdSet (2 : ℤ) = .ok m ∧
      (∃ v st1, scNextNiceNum pdSet SET_LEN ⟨2, 1⟩ = .ok (v, st1) ∧
        m * (1 : ℚ) < v ∧ 0 ≤ st1.iIndex ∧ st1.iIndex < 3) ∧
      ∀ B : ℚ, ∃ k : ℕ, ∀ j : ℕ, k ≤ j →
        ∃ v st1, nextCalls j (m * (1 : ℚ), ⟨2, 1⟩) = .ok (v, st1) ∧ B < v :=
  ⟨by norm_num, by norm_num, by norm_num,
    scNextNiceNum_increasing_unbounded ⟨2, 1⟩ (by norm_num) (by norm_num) (by norm_num)⟩

/-! The multiplier span as the nice number grows -/

theorem extSpan_eq (dDataMin dDataMax N : ℚ) (hN : 0 < N) :
    extSpan dDataMin dDataMax N = ⌊dDataMax / N⌋ - ⌊dDataMin / N⌋ := by
  rw [extSpan, scCalcExtLabel_eq _ _ _ hN]

/-- The span does not grow when the nice number is replaced by an integer
multiple of it. -/
theorem extSpan_multiple (dDataMin dDataMax a : ℚ) (c : ℤ) (hlt : dDataMin < dDataMax)
    (ha : 0 < a) (hc : 0 < c) :
    extSpan dDataMin dDataMax ((c : ℚ) * a) ≤ extSpan dDataMin dDataMax a := by
  have hc' : (0 : ℚ) < (c : ℚ) := by exact_mod_cast hc
  have hb : 0 < (c : ℚ) * a := mul_pos hc' ha
  rw [extSpan_eq _ _ _ hb, extSpan_eq _ _ _ ha]
  have hmono : ⌊dDataMin / a⌋ ≤ ⌊dDataMax / a⌋ :=
    Int.floor_mono (div_le_div_of_nonneg_right hlt.le ha.le)
  have h1 : ⌊dDataMax / ((c : ℚ) * a)⌋ * c ≤ ⌊dDataMax / a⌋ := by
    apply Int.le_floor.mpr
    have := Int.floor_le (dDataMax / ((c : ℚ) * a))
    rw [le_div_iff₀ hb] at this
    rw [le_div_iff₀ ha]
    push_cast
    linarith
  have h2 : ⌊dDataMin / a⌋ < (⌊dDataMin / ((c : ℚ) * a)⌋ + 1) * c := by
    apply Int.floor_lt.mpr
    have := Int.lt_floor_add_one (dDataMin / ((c : ℚ) * a))
    rw [div_lt_iff₀ hb] at this
    rw [div_lt_iff₀ ha]
    push_cast
    linarith
  by_cases hpos : ⌊dDataMax / ((c : ℚ) * a)⌋ - ⌊dDataMin / ((c : ℚ) * a)⌋ ≤ 0
  · omega
  · have h3 : 0 ≤ ⌊dDataMax / ((c : ℚ) * a)⌋ - ⌊dDataMin / ((c : ℚ) * a)⌋ - 1 := by omega
    nlinarith

/-- The span grows by at most one when the nice number grows. -/
theorem extSpan_le_succ (dDataMin dDataMax a b : ℚ) (hlt : dDataMin < dDataMax)
    (ha : 0 < a) (hab : a < b) :
    extSpan dDataMin dDataMax b ≤ extSpan dDataMin dDataMax a + 1 := by
  have hb : 0 < b := lt_trans ha hab
  rw [extSpan_eq _ _ _ hb, extSpan_eq _ _ _ ha]
  have hd : 0 < dDataMax - dDataMin := by linarith
  have e1 := Int.floor_le (dDataMax / b)
  have e2 := Int.lt_floor_add_one (dDataMin / b)
  have e3 := Int.lt_floor_add_one (dDataMax / a)
  have e4 := Int.floor_le (dDataMin / a)
  have e5 : (dDataMax - dDataMin) / b < (dDataMax - dDataMin) / a :=
    div_lt_div_of_pos_left hd ha hab
  rw [sub_div, sub_div] at e5
  have e6 : ((⌊dDataMax / b⌋ - ⌊dDataMin / b⌋ : ℤ) : ℚ)
      < ((⌊dDataMax / a⌋ - ⌊dDataMin / a⌋ + 2 : ℤ) : ℚ) := by
    push_cast; linarith
  have := Int.cast_lt.mp e6
  omega

/-- Of two nice numbers `a < b` the larger is an integer multiple of the
smaller, unless they are `2 * 10 ^ k` and `5 * 10 ^ k`. -/
theorem nice_multiple (a b : ℚ) (ha : IsNice a) (hb : IsNice b) (hab : a < b)
    (hex : ¬ ∃ k : ℤ, a = 2 * (10 : ℚ) ^ k ∧ b = 5 * (10 : ℚ) ^ k) :
    ∃ c : ℤ, 0 < c ∧ b = (c : ℚ) * a := by
  obtain ⟨m, i, hm, rfl⟩ := ha
  obtain ⟨m', j, hm', rfl⟩ := hb
  have hi : (0 : ℚ) < (10 : ℚ) ^ i := zpow_pos (by norm_num) i
  rcases lt_trichotomy j i with h | h | h
  · exfalso
    have h1 : (10 : ℚ) ^ j ≤ (10 : ℚ) ^ (i - 1) :=
      zpow_le_zpow_right₀ (by norm_num) (by omega)
    rw [zpow_sub_one₀ (by norm_num)] at h1
    have hj : (0 : ℚ) < (10 : ℚ) ^ j := zpow_pos (by norm_num) j
    rcases hm with rfl | rfl | rfl <;> rcases hm' with rfl | rfl | rfl <;> linarith
  · subst h
    rcases hm with rfl | rfl | rfl <;> rcases hm' with rfl | rfl | rfl
    · exfalso; linarith
    · exact ⟨2, by norm_num, by push_cast; ring⟩
    · exact ⟨5, by norm_num, by push_cast; ring⟩
    · exfalso; linarith
    · exfalso; linarith
    · exact absurd ⟨j, rfl, rfl⟩ hex
    · exfalso; linarith
    · exfalso; linarith
    · exfalso; linarith
  · obtain ⟨d, hd⟩ : ∃ d : ℕ, j = i + 1 + (d : ℤ) := ⟨(j - i - 1).toNat, by omega⟩
    have hj : (10 : ℚ) ^ j = (10 : ℚ) ^ i * 10 * (10 : ℚ) ^ d := by
      rw [hd, zpow_add₀ (by norm_num), zpow_add_one₀ (by norm_num), zpow_natCast]
    rw [hj]
    rcases hm with rfl | rfl | rfl <;> rcases hm' with rfl | rfl | rfl
    · exact ⟨10 * 10 ^ d, by positivity, by push_cast; ring⟩
    · exact ⟨20 * 10 ^ d, by positivity, by push_cast; ring⟩
    · exact ⟨50 * 10 ^ d, by positivity, by push_cast; ring⟩
    · exact ⟨5 * 10 ^ d, by positivity, by push_cast; ring⟩
    · exact ⟨10 * 10 ^ d, by positivity, by push_cast; ring⟩
    · exact ⟨25 * 10 ^ d, by positivity, by push_cast; ring⟩
    · exact ⟨2 * 10 ^ d, by positivity, by push_cast; ring⟩
    · exact ⟨4 * 10 ^ d, by positivity, by push_cast; ring⟩
    · exact ⟨10 * 10 ^ d, by positivity, by push_cast; ring⟩

/-- In exact arithmetic and with an unbounded `int`, for `min < max` and
nice numbers `a < b` other than `a = 2 * 10 ^ k` and `b = 5 * 10 ^ k`, that is
whenever `b` is an integer multiple of `a`, the span `hi - lo` of
`scCalcExtLabel` with `b` is at most the span with `a`. -/
theorem extSpan_antitone_exact (dDataMin dDataMax a b : ℚ) (hlt : dDataMin < dDataMax)
    (ha : IsNice a) (hb : IsNice b) (hab : a < b)
    (hex : ¬ ∃ k : ℤ, a = 2 * (10 : ℚ) ^ k ∧ b = 5 * (10 : ℚ) ^ k) :
    extSpan dDataMin dDataMax b ≤ extSpan dDataMin dDataMax a := by
  have hpos := isNice_pos a ha
  obtain ⟨c, hc, rfl⟩ := nice_multiple a b ha hb hab hex
  exact extSpan_multiple dDataMin dDataMax a c hlt hpos hc

/-! The routines over the arithmetic of the machine -/

namespace Machine

variable {D : Type}

theorem scPowerLoop_zero (A : Arith D) (root res : D) : scPowerLoop A 0 root res = res := by
  rw [scPowerLoop]; simp

theorem scPowerLoop_one (A : Arith D) (root res : D) :
    scPowerLoop A 1 root res = A.mul res root := by
  rw [scPowerLoop]; simp [scPowerLoop_zero]

/-- One round of the loop of `scPower` on an even exponent above 0. -/
theorem scPowerLoop_even (A : Arith D) (e e2 : ℕ) (root res : D) (he : e / 2 = e2)
    (h0 : e2 ≠ 0) (h2 : e % 2 = 0) :
    scPowerLoop A e root res = scPowerLoop A e2 (A.mul root root) res := by
  subst he
  have he : e ≠ 0 := by omega
  rw [scPowerLoop]
  simp [he, h0, h2]

/-- One round of the loop of `scPower` on an odd exponent above 1. -/
theorem scPowerLoop_odd (A : Arith D) (e e2 : ℕ) (root res : D) (he : e / 2 = e2)
    (h0 : e2 ≠ 0) (h2 : e % 2 = 1) :
    scPowerLoop A e root res = scPowerLoop A e2 (A.mul root root) (A.mul res root) := by
  subst he
  have he : e ≠ 0 := by omega
  rw [scPowerLoop]
  simp [he, h0, h2]

theorem scFirstNiceNum_cert (A : Arith D) (x : D) (k : ℤ) (p : D) (hk : A.ilog10 x = k)
    (hp : scPower A (A.ofInt 10) k = p) (hg : A.le (A.mul p (A.ofInt 10)) x = false) :
    scFirstNiceNum A x = (p, ⟨0, p⟩) := by
  simp [scFirstNiceNum, hk, hp, hg]

theorem scFirstNiceNum_cert_up (A : Arith D) (x : D) (k : ℤ) (p p1 : D) (hk : A.ilog10 x = k)
    (hp : scPower A (A.ofInt 10) k = p) (hg : A.le (A.mul p (A.ofInt 10)) x = true)
    (hp1 : A.mul p (A.ofInt 10) = p1) :
    scFirstNiceNum A x = (p1, ⟨0, p1⟩) := by
  subst hp1
  simp [scFirstNiceNum, hk, hp, hg]

theorem scNextNiceNum_zero_any (A : Arith D) (p v : D) (hv : A.mul (A.ofInt 2) p = v) :
    scNextNiceNum A (pdSet A) SET_LEN ⟨0, p⟩ = .ok (v, ⟨1, p⟩) := by
  simp [scNextNiceNum, readSet, pdSet, SET_LEN, Scale.pdSet, hv]

theorem scNextNiceNum_one_any (A : Arith D) (p v : D) (hv : A.mul (A.ofInt 5) p = v) :
    scNextNiceNum A (pdSet A) SET_LEN ⟨1, p⟩ = .ok (v, ⟨2, p⟩) := by
  simp [scNextNiceNum, readSet, pdSet, SET_LEN, Scale.pdSet, hv]

theorem scNextNiceNum_two_any (A : Arith D) (p p1 v : D) (hp : A.mul p (A.ofInt 10) = p1)
    (hv : A.mul (A.ofInt 1) p1 = v) :
    scNextNiceNum A (pdSet A) SET_LEN ⟨2, p⟩ = .ok (v, ⟨0, p1⟩) := by
  simp [scNextNiceNum, readSet, pdSet, SET_LEN, Scale.pdSet, hp, hv]

theorem searchLoop_stop_any (A : Arith D) (x : D) (fuel : ℕ) (N : D) (st : NiceState D)
    (h : A.lt N x = false) : searchLoop A x fuel (N, st) = .ok (N, st) := by
  cases fuel <;> simp [searchLoop, h]

theorem searchLoop_step_any (A : Arith D) (x : D) (fuel : ℕ) (N : D) (st : NiceState D)
    (h : A.lt N x = true) (next : D × NiceState D) (hn : scNextNiceNum A (pdSet A) SET_LEN st = .ok next) :
    searchLoop A x (fuel + 1) (N, st) = searchLoop A x fuel next := by
  simp [searchLoop, h, hn]

/-- The multipliers of `scCalcExtLabel` from the two conversions and the
outcomes `g1`, `g2` of the two corrections. -/
theorem scCalcExtLabel_cert (A : Arith D) (dDataMin dDataMax N : D) (lo hi : ℤ) (g1 g2 : Bool)
    (h1 : A.floorInt (A.div dDataMin N) = lo)
    (h2 : A.le (A.mul (A.ofInt (lo + 1)) N) dDataMin = g1)
    (h3 : A.floorInt (A.div dDataMax N) = hi)
    (h4 : A.le dDataMax (A.mul (A.ofInt (hi - 1)) N) = g2) :
    scCalcExtLabel A dDataMin dDataMax N
      = (if g1 = true then lo + 1 else lo, if g2 = true then hi - 1 else hi) := by
  simp only [scCalcExtLabel, h1, h2, h3, h4]

/-- The multipliers of `scCalcIntLabel` from the two conversions and the
outcomes `g1`, `g2` of the two corrections. -/
theorem scCalcIntLabel_cert (A : Arith D) (dDataMin dDataMax N : D) (lo hi : ℤ) (g1 g2 : Bool)
    (h1 : A.ceilInt (A.div dDataMin N) = lo)
    (h2 : A.le dDataMin (A.mul (A.ofInt (lo - 1)) N) = g1)
    (h3 : A.ceilInt (A.div dDataMax N) = hi)
    (h4 : A.le (A.mul (A.ofInt (hi + 1)) N) dDataMax = g2) :
    scCalcIntLabel A dDataMin dDataMax N
      = (if g1 = true then lo - 1 else lo, if g2 = true then hi + 1 else hi) := by
  simp only [scCalcIntLabel, h1, h2, h3, h4]

theorem coarsenLoop_stop_any (A : Arith D) (dDataMin dDataMax : D) (n : ℤ) (fuel : ℕ)
    (N : D) (st : NiceState D) (lo hi : ℤ) (h : hi - lo ≤ n) :
    coarsenLoop A dDataMin dDataMax n fuel (N, st) (lo, hi) = .ok (N, st, lo, hi) := by
  cases fuel <;> simp [coarsenLoop, not_lt.mpr h]

theorem coarsenLoop_step_any (A : Arith D) (dDataMin dDataMax : D) (n : ℤ) (fuel : ℕ)
    (N : D) (st : NiceState D) (lo hi : ℤ) (h : n < hi - lo) (N1 : D) (st1 : NiceState D)
    (hn : scNextNiceNum A (pdSet A) SET_LEN st = .ok (N1, st1)) :
    coarsenLoop A dDataMin dDataMax n (fuel + 1) (N, st) (lo, hi)
      = coarsenLoop A dDataMin dDataMax n fuel (N1, st1)
          (scCalcExtLabel A dDataMin dDataMax N1) := by
  simp [coarsenLoop, h, hn]

/-- Whatever the arithmetic and however often the coarsening loop iterates,
the multipliers it returns are at most `nIntervals` apart: this is the
negation of its test. -/
theorem coarsenLoop_exit (A : Arith D) (dDataMin dDataMax : D) (n : ℤ) :
    ∀ (fuel : ℕ) (s : D × NiceState D) (m : ℤ × ℤ) (N : D) (st : NiceState D) (lo hi : ℤ),
      coarsenLoop A dDataMin dDataMax n fuel s m = .ok (N, st, lo, hi) → hi - lo ≤ n := by
  intro fuel
  induction fuel with
  | zero =>
    rintro ⟨N0, st0⟩ ⟨lo0, hi0⟩ N st lo hi h
    by_cases c : hi0 - lo0 > n
    · simp [coarsenLoop, c] at h
    · simp only [coarsenLoop, c, if_false, Except.ok.injEq, Prod.mk.injEq] at h
      obtain ⟨_, _, rfl, rfl⟩ := h
      exact not_lt.mp c
  | succ fuel ih =>
    rintro ⟨N0, st0⟩ ⟨lo0, hi0⟩ N st lo hi h
    by_cases c : hi0 - lo0 > n
    · simp only [coarsenLoop, c, if_true] at h
      cases hn : scNextNiceNum A (pdSet A) SET_LEN st0 with
      | error e => rw [hn] at h; cases h
      | ok next =>
        obtain ⟨N1, st1⟩ := next
        rw [hn] at h
        exact ih _ _ N st lo hi h
    · simp only [coarsenLoop, c, if_false, Except.ok.injEq, Prod.mk.injEq] at h
      obtain ⟨_, _, rfl, rfl⟩ := h
      exact not_lt.mp c

/-- Whatever the arithmetic, `extScaleVars` returns multipliers at most
`nIntervals` apart. -/
theorem extScaleVars_exit (A : Arith D) (fuel : ℕ) (dDataMin dDataMax : D) (n : ℤ)
    (N : D) (lo hi : ℤ) (h : extScaleVars A fuel dDataMin dDataMax n = .ok (N, lo, hi)) :
    hi - lo ≤ n := by
  unfold extScaleVars at h
  split_ifs at h
  simp only at h
  split at h
  · cases h
  · rename_i N0 st0 hs
    split at h
    · cases h
    · rename_i N1 st1 lo1 hi1 hc
      simp only [Except.ok.injEq, Prod.mk.injEq] at h
      obtain ⟨_, rfl, rfl⟩ := h
      exact coarsenLoop_exit A dDataMin dDataMax n _ _ _ _ _ _ _ hc

/-- Whatever the arithmetic, a scale returned by `scMaxInterval` has at most
`nMaxIntervals` intervals. -/
theorem scMaxInterval_exit (A : Arith D) (fuel : ℕ) (dDataMin dDataMax : D) (n : ℤ)
    (r : ScaleResult D) (h : scMaxInterval A fuel dDataMin dDataMax n = .ok r) :
    r.pnActual ≤ n := by
  unfold scMaxInterval at h
  split at h
  · cases h
  · rename_i N lo hi hv
    simp only [Except.ok.injEq] at h
    subst h
    exact extScaleVars_exit A fuel dDataMin dDataMax n N lo hi hv

/-! Rounding to binary64 -/

theorem roundEven_of_near (m : ℚ) (n : ℤ) (h1 : (n : ℚ) - 1 / 2 < m)
    (h2 : m < (n : ℚ) + 1 / 2) : roundEven m = n := by
  unfold roundEven
  by_cases c : (n : ℚ) ≤ m
  · have hf : ⌊m⌋ = n := Int.floor_eq_iff.mpr ⟨c, by linarith⟩
    rw [hf, if_pos (by linarith)]
  · have hf : ⌊m⌋ = n - 1 := Int.floor_eq_iff.mpr ⟨by push_cast; linarith, by
      push_cast; linarith [not_le.mp c]⟩
    have e1 : ((n - 1 : ℤ) : ℚ) = (n : ℚ) - 1 := by push_cast; ring
    rw [hf, e1, if_neg (by linarith), if_pos (by linarith)]
    ring

theorem ulpExp_normal (q : ℚ) (e : ℤ) (he : -1074 ≤ e) (h1 : (2 : ℚ) ^ (e + 52) ≤ |q|)
    (h2 : |q| < (2 : ℚ) ^ (e + 53)) : ulpExp q = e := by
  have hpos : 0 < |q| := lt_of_lt_of_le (zpow_pos (by norm_num) _) h1
  have hlog : Int.log 2 |q| = e + 52 := by
    apply le_antisymm
    · have := (Int.lt_zpow_iff_log_lt (b := 2) (by norm_num) hpos).mp (by
        have e3 : e + 53 = e + 52 + 1 := by ring
        rw [e3] at h2
        simpa using h2)
      omega
    · exact (Int.zpow_le_iff_le_log (b := 2) (by norm_num) hpos).mp (by simpa using h1)
  rw [ulpExp, hlog]
  omega

theorem ulpExp_subnormal (q : ℚ) (hq : q ≠ 0) (h2 : |q| < (2 : ℚ) ^ (-1022 : ℤ)) :
    ulpExp q = -1074 := by
  have hpos : 0 < |q| := abs_pos.mpr hq
  have hlog : Int.log 2 |q| < -1022 :=
    (Int.lt_zpow_iff_log_lt (b := 2) (by norm_num) hpos).mp (by simpa using h2)
  rw [ulpExp]
  omega

theorem rnd64_zero : rnd64 0 = 0 := by simp [rnd64]

/-- A certificate for one rounding: `v = n * 2 ^ e` is the binary64 number
nearest to `q`, where `2 ^ e` is the spacing of the binary64 numbers around
`q`. -/
theorem rnd64_of (q v : ℚ) (e n : ℤ) (hq : q ≠ 0) (hu : ulpExp q = e)
    (hv : v = (n : ℚ) * (2 : ℚ) ^ e)
    (h1 : (2 * (n : ℚ) - 1) * (2 : ℚ) ^ e < 2 * q)
    (h2 : 2 * q < (2 * (n : ℚ) + 1) * (2 : ℚ) ^ e) : rnd64 q = v := by
  have hp : (0 : ℚ) < (2 : ℚ) ^ e := zpow_pos (by norm_num) e
  have hr : roundEven (q / (2 : ℚ) ^ e) = n := by
    apply roundEven_of_near
    · rw [lt_div_iff₀ hp]; linarith
    · rw [div_lt_iff₀ hp]; linarith
  rw [rnd64, if_neg hq, hu, hr, hv]

/-- The certificate for a positive number in the normal range. -/
theorem rnd64_pos (q v : ℚ) (e n : ℤ) (he : -1074 ≤ e) (hlo : (2 : ℚ) ^ (e + 52) ≤ q)
    (hhi : q < (2 : ℚ) ^ (e + 53)) (hv : v = (n : ℚ) * (2 : ℚ) ^ e)
    (h1 : (2 * (n : ℚ) - 1) * (2 : ℚ) ^ e < 2 * q)
    (h2 : 2 * q < (2 * (n : ℚ) + 1) * (2 : ℚ) ^ e) : rnd64 q = v := by
  have hpos : 0 < q := lt_of_lt_of_le (zpow_pos (by norm_num) _) hlo
  have ha : |q| = q := abs_of_pos hpos
  exact rnd64_of q v e n hpos.ne' (ulpExp_normal q e he (by rw [ha]; exact hlo)
    (by rw [ha]; exact hhi)) hv h1 h2

/-- The certificate for a negative number in the normal range. -/
theorem rnd64_neg (q v : ℚ) (e n : ℤ) (he : -1074 ≤ e) (hlo : (2 : ℚ) ^ (e + 52) ≤ -q)
    (hhi : -q < (2 : ℚ) ^ (e + 53)) (hv : v = (n : ℚ) * (2 : ℚ) ^ e)
    (h1 : (2 * (n : ℚ) - 1) * (2 : ℚ) ^ e < 2 * q)
    (h2 : 2 * q < (2 * (n : ℚ) + 1) * (2 : ℚ) ^ e) : rnd64 q = v := by
  have hneg : q < 0 := by
    have := lt_of_lt_of_le (zpow_pos (by norm_num : (0 : ℚ) < 2) (e + 52)) hlo
    linarith
  have ha : |q| = -q := abs_of_neg hneg
  exact rnd64_of q v e n hneg.ne (ulpExp_normal q e he (by rw [ha]; exact hlo)
    (by rw [ha]; exact hhi)) hv h1 h2

/-- The certificate for a positive number in the subnormal range. -/
theorem rnd64_tiny (q v : ℚ) (n : ℤ) (hpos : 0 < q) (hhi : q < (2 : ℚ) ^ (-1022 : ℤ))
    (hv : v = (n : ℚ) * (2 : ℚ) ^ (-1074 : ℤ))
    (h1 : (2 * (n : ℚ) - 1) * (2 : ℚ) ^ (-1074 : ℤ) < 2 * q)
    (h2 : 2 * q < (2 * (n : ℚ) + 1) * (2 : ℚ) ^ (-1074 : ℤ)) : rnd64 q = v := by
  have ha : |q| = q := abs_of_pos hpos
  exact rnd64_of q v (-1074) n hpos.ne' (ulpExp_subnormal q hpos.ne' (by rw [ha]; exact hhi))
    hv h1 h2

theorem cast32_of_range (z : ℤ) (h1 : -2147483648 ≤ z) (h2 : z ≤ 2147483647) :
    cast32 z = z := by
  simp [cast32, h1, h2]

theorem ieee_ilog10 (x : ℚ) (k : ℤ) (hx : 0 < x) (h1 : (10 : ℚ) ^ k ≤ x)
    (h2 : x < (10 : ℚ) ^ (k + 1)) : ieee.ilog10 x = k := by
  show Int.log 10 x = k
  apply le_antisymm
  · have := (Int.lt_zpow_iff_log_lt (b := 10) (by norm_num) hx).mp (by simpa using h2)
    omega
  · exact (Int.zpow_le_iff_le_log (b := 10) (by norm_num) hx).mp (by simpa using h1)

theorem ieee_floorInt (x : ℚ) (z : ℤ) (h1 : (z : ℚ) ≤ x) (h2 : x < (z : ℚ) + 1)
    (r1 : -2147483648 ≤ z) (r2 : z ≤ 2147483647) : ieee.floorInt x = z := by
  show cast32 ⌊x⌋ = z
  rw [Int.floor_eq_iff.mpr ⟨h1, h2⟩, cast32_of_range z r1 r2]

theorem ieee_ceilInt (x : ℚ) (z : ℤ) (h1 : (z : ℚ) - 1 < x) (h2 : x ≤ (z : ℚ))
    (r1 : -2147483648 ≤ z) (r2 : z ≤ 2147483647) : ieee.ceilInt x = z := by
  show cast32 ⌈x⌉ = z
  rw [Int.ceil_eq_iff.mpr ⟨h1, h2⟩, cast32_of_range z r1 r2]

theorem roundEven_intCast (z : ℤ) : roundEven (z : ℚ) = z :=
  roundEven_of_near _ z (by linarith) (by linarith)

/-- Integers below `2 ^ 53` in magnitude are binary64 numbers: rounding leaves
them unchanged. -/
theorem rnd64_intCast (z : ℤ) (h1 : -9007199254740992 < z) (h2 : z < 9007199254740992) :
    rnd64 (z : ℚ) = (z : ℚ) := by
  by_cases hz : z = 0
  · subst hz; simp [rnd64]
  · have hq : (z : ℚ) ≠ 0 := by exact_mod_cast hz
    have hpos : 0 < |(z : ℚ)| := abs_pos.mpr hq
    have habs : |(z : ℚ)| < (2 : ℚ) ^ (53 : ℤ) := by
      rw [abs_lt]
      constructor
      · have : ((-9007199254740992 : ℤ) : ℚ) < (z : ℚ) := by exact_mod_cast h1
        norm_num at this ⊢
        linarith
      · have : (z : ℚ) < ((9007199254740992 : ℤ) : ℚ) := by exact_mod_cast h2
        norm_num at this ⊢
        linarith
    have hlog : Int.log 2 |(z : ℚ)| < 53 :=
      (Int.lt_zpow_iff_log_lt (b := 2) (by norm_num) hpos).mp (by simpa using habs)
    have he0 : ulpExp (z : ℚ) ≤ 0 := by rw [ulpExp]; omega
    have he1 : -1074 ≤ ulpExp (z : ℚ) := by rw [ulpExp]; omega
    obtain ⟨k, hk⟩ : ∃ k : ℕ, ulpExp (z : ℚ) = -(k : ℤ) :=
      ⟨(-ulpExp (z : ℚ)).toNat, by omega⟩
    have hdiv : (z : ℚ) / (2 : ℚ) ^ (-(k : ℤ)) = ((z * 2 ^ k : ℤ) : ℚ) := by
      rw [zpow_neg, zpow_natCast, div_inv_eq_mul]
      push_cast
      ring
    rw [rnd64, if_neg hq, hk, hdiv, roundEven_intCast, zpow_neg, zpow_natCast]
    push_cast
    have h2k : ((2 : ℚ) ^ k) ≠ 0 := by positivity
    field_simp

theorem ieee_ofInt (z : ℤ) (h1 : -9007199254740992 < z) (h2 : z < 9007199254740992) :
    ieee.ofInt z = (z : ℚ) := rnd64_intCast z h1 h2

theorem ieee_lt_true (a b : ℚ) (h : a < b) : ieee.lt a b = true := decide_eq_true h

theorem ieee_lt_false (a b : ℚ) (h : ¬ a < b) : ieee.lt a b = false := decide_eq_false h

theorem ieee_le_true (a b : ℚ) (h : a ≤ b) : ieee.le a b = true := decide_eq_true h

theorem ieee_le_false (a b : ℚ) (h : ¬ a ≤ b) : ieee.le a b = false := decide_eq_false h

theorem rnd64_eq_zero (q : ℚ) (h : q = 0) : rnd64 q = 0 := by rw [h, rnd64_zero]

theorem scPower_neg {D : Type} (A : Arith D) (root : D) (k : ℤ) (n : ℕ) (hk : k < 0)
    (hn : (-k).toNat = n) :
    scPower A root k = scPowerLoop A n (A.div (A.ofInt 1) root) (A.ofInt 1) := by
  rw [scPower, if_pos hk, hn]

theorem scPower_nonneg {D : Type} (A : Arith D) (root : D) (k : ℤ) (n : ℕ) (hk : 0 ≤ k)
    (hn : k.toNat = n) :
    scPower A root k = scPowerLoop A n root (A.ofInt 1) := by
  rw [scPower, if_neg (not_lt.mpr hk), hn]

theorem roundEven_of_half (m : ℚ) (f : ℤ) (h : m = (f : ℚ) + 1 / 2) :
    roundEven m = if f % 2 = 0 then f else f + 1 := by
  have hf : ⌊m⌋ = f := Int.floor_eq_iff.mpr ⟨by rw [h]; linarith, by rw [h]; linarith⟩
  unfold roundEven
  rw [hf, h, if_neg (by linarith), if_neg (by linarith)]

/-- A certificate for a rounding that falls half way between two binary64
numbers: the one with the even last digit is taken. -/
theorem rnd64_half_of (q v : ℚ) (e f n : ℤ) (hq : q ≠ 0) (hu : ulpExp q = e)
    (hm : 2 * q = (2 * (f : ℚ) + 1) * (2 : ℚ) ^ e)
    (hn : n = if f % 2 = 0 then f else f + 1)
    (hv : v = (n : ℚ) * (2 : ℚ) ^ e) : rnd64 q = v := by
  have hp : (0 : ℚ) < (2 : ℚ) ^ e := zpow_pos (by norm_num) e
  have hr : roundEven (q / (2 : ℚ) ^ e) = n := by
    rw [hn]
    apply roundEven_of_half
    rw [div_eq_iff hp.ne']
    linarith
  rw [rnd64, if_neg hq, hu, hr, hv]

theorem rnd64_half_pos (q v : ℚ) (e f n : ℤ) (he : -1074 ≤ e)
    (hlo : (2 : ℚ) ^ (e + 52) ≤ q) (hhi : q < (2 : ℚ) ^ (e + 53))
    (hm : 2 * q = (2 * (f : ℚ) + 1) * (2 : ℚ) ^ e)
    (hn : n = if f % 2 = 0 then f else f + 1)
    (hv : v = (n : ℚ) * (2 : ℚ) ^ e) : rnd64 q = v := by
  have hpos : 0 < q := lt_of_lt_of_le (zpow_pos (by norm_num) _) hlo
  have ha : |q| = q := abs_of_pos hpos
  exact rnd64_half_of q v e f n hpos.ne' (ulpExp_normal q e he (by rw [ha]; exact hlo)
    (by rw [ha]; exact hhi)) hm hn hv

theorem rnd64_half_neg (q v : ℚ) (e f n : ℤ) (he : -1074 ≤ e)
    (hlo : (2 : ℚ) ^ (e + 52) ≤ -q) (hhi : -q < (2 : ℚ) ^ (e + 53))
    (hm : 2 * q = (2 * (f : ℚ) + 1) * (2 : ℚ) ^ e)
    (hn : n = if f % 2 = 0 then f else f + 1)
    (hv : v = (n : ℚ) * (2 : ℚ) ^ e) : rnd64 q = v := by
  have hneg : q < 0 := by
    have := lt_of_lt_of_le (zpow_pos (by norm_num : (0 : ℚ) < 2) (e + 52)) hlo
    linarith
  have ha : |q| = -q := abs_of_neg hneg
  exact rnd64_half_of q v e f n hneg.ne (ulpExp_normal q e he (by rw [ha]; exact hlo)
    (by rw [ha]; exact hhi)) hm hn hv

/-! The exact routines are the routines of the machine without rounding -/

/-- The loop of the exact `scPower` is the loop of the machine routine on the
arithmetic without rounding. -/
theorem scPowerLoop_exact (e : ℕ) :
    ∀ root res : ℚ, scPowerLoop exact e root res = Scale.scPowerLoop e root res := by
  induction e using Nat.strong_induction_on with
  | _ e ih =>
    intro root res
    rw [scPowerLoop, Scale.scPowerLoop]
    by_cases h0 : e = 0
    · simp [h0]
    · simp only [h0, if_false]
      exact ih _ (by omega) _ _

/-- The exact `scPower` is the machine routine on the arithmetic without
rounding. -/
theorem scPower_exact (root : ℚ) (e : ℤ) : scPower exact root e = Scale.scPower root e := by
  simp only [scPower, Scale.scPower, scPowerLoop_exact]
  simp [exact]

/-- The exact `scFirstNiceNum` is the machine routine on the arithmetic
without rounding: the same nice number and the same cursor. -/
theorem scFirstNiceNum_exact (x : ℚ) :
    (scFirstNiceNum exact x).1 = (Scale.scFirstNiceNum x).1 ∧
      (scFirstNiceNum exact x).2.iIndex = (Scale.scFirstNiceNum x).2.iIndex ∧
      (scFirstNiceNum exact x).2.dPowerOfTen = (Scale.scFirstNiceNum x).2.dPowerOfTen := by
  have h10 : exact.ofInt 10 = (10 : ℚ) := by simp [exact]
  simp only [scFirstNiceNum, Scale.scFirstNiceNum, scPower_exact, h10]
  simp only [exact, decide_eq_true_eq]
  exact ⟨trivial, trivial, trivial⟩

/-- The exact `scCalcExtLabel` is the machine routine on the arithmetic
without rounding. -/
theorem scCalcExtLabel_exact (dDataMin dDataMax N : ℚ) :
    scCalcExtLabel exact dDataMin dDataMax N = Scale.scCalcExtLabel dDataMin dDataMax N := by
  simp only [scCalcExtLabel, Scale.scCalcExtLabel, exact, decide_eq_true_eq, ge_iff_le]

/-- The exact `scCalcIntLabel` is the machine routine on the arithmetic
without rounding. -/
theorem scCalcIntLabel_exact (dDataMin dDataMax N : ℚ) :
    scCalcIntLabel exact dDataMin dDataMax N = Scale.scCalcIntLabel dDataMin dDataMax N := by
  simp only [scCalcIntLabel, Scale.scCalcIntLabel, exact, decide_eq_true_eq, ge_iff_le]

/-! Properties that hold whatever the arithmetic -/

/-- The adjusted multipliers of `scDixonKronmal` are `nExactIntervals` apart,
whether a guard fires or not and whatever the arithmetic. -/
theorem dkAdjust_width_any (A : Arith D) (dDataMin dDataMax : D) (n : ℤ) (N : D) (lo hi : ℤ) :
    (dkAdjust A dDataMin dDataMax n N lo hi).2 - (dkAdjust A dDataMin dDataMax n N lo hi).1
      = n := by
  unfold dkAdjust
  simp only
  split_ifs <;> simp

/-- Whatever the arithmetic, a scale returned by `scMaxInterval` consists of
the two products of the final nice number with the final multipliers. -/
theorem scMaxInterval_shape (A : Arith D) (fuel : ℕ) (a b : D) (n : ℤ) (r : ScaleResult D)
    (h : scMaxInterval A fuel a b n = .ok r) :
    ∃ (N : D) (lo hi : ℤ), extScaleVars A fuel a b n = .ok (N, lo, hi) ∧
      r.pdScaleMin = A.mul (A.ofInt lo) N ∧ r.pdScaleMax = A.mul (A.ofInt hi) N ∧
      hi - lo = r.pnActual := by
  unfold scMaxInterval at h
  split at h
  · cases h
  · rename_i N lo hi hv
    simp only [Except.ok.injEq] at h
    subst h
    exact ⟨N, lo, hi, hv, rfl, rfl, rfl⟩

/-- Whatever the arithmetic, a scale returned by `scDixonKronmal` consists of
the two products of the final nice number with two integers that are
`actualIntervals` apart. -/
theorem scDixonKronmal_shape (A : Arith D) (fuel : ℕ) (a b : D) (n : ℤ) (r : ScaleResult D)
    (h : scDixonKronmal A fuel a b n = .ok r) :
    ∃ (N : D) (lo hi adjLo adjHi : ℤ), extScaleVars A fuel a b n = .ok (N, lo, hi) ∧
      r.pdScaleMin = A.mul (A.ofInt adjLo) N ∧ r.pdScaleMax = A.mul (A.ofInt adjHi) N ∧
      adjHi - adjLo = r.pnActual := by
  unfold scDixonKronmal at h
  split at h
  · cases h
  · rename_i N lo hi hv
    simp only [Except.ok.injEq] at h
    subst h
    exact ⟨N, lo, hi, _, _, hv, rfl, rfl, dkAdjust_width_any A a b n N lo hi⟩

/-- In binary64 arithmetic, for the data range from 3 to 27 and 10 intervals
the routines end with the nice number 5 and the multipliers 0 and 5, and
the products of the multipliers with the nice number are 0 and 25. -/
theorem ieee_extScaleVars_3_27 (f : ℕ) :
    extScaleVars ieee (f + 3) 3 27 10 = .ok (5, 0, 5) ∧
      ieee.mul (ieee.ofInt 0) 5 = 0 ∧
      ieee.mul (ieee.ofInt 5) 5 = 25 := by
  have h1 : ieee.sub 27 3 = 24 :=
    (rnd64_pos _ _ (-48) (6755399441055744) (by norm_num) (by norm_num) (by norm_num) (by norm_num) (by norm_num) (by norm_num))
  have hx2 : ieee.div (ieee.sub 27 3) (ieee.ofInt 10) = (5404319552844595 / 2251799813685248) := by
    rw [h1, ieee_ofInt (10) (by norm_num) (by norm_num)]
    exact (rnd64_pos _ _ (-51) (5404319552844595) (by norm_num) (by norm_num) (by norm_num) (by norm_num) (by norm_num) (by norm_num))
  have hlog3 : ieee.ilog10 (5404319552844595 / 2251799813685248) = 0 :=
    ieee_ilog10 _ _ (by norm_num) (by norm_num) (by norm_num)
  have hpow4 : scPower ieee (ieee.ofInt 10) (0) = 1 := by
    rw [scPower_nonneg ieee _ (0) 0 (by norm_num) (by decide),
      scPowerLoop_zero,
      ieee_ofInt (1) (by norm_num) (by norm_num)]
    norm_num
  have h5 : ieee.mul 1 (ieee.ofInt (10)) = 10 := by
    rw [ieee_ofInt (10) (by norm_num) (by norm_num)]
    exact (rnd64_pos _ _ (-49) (5629499534213120) (by norm_num) (by norm_num) (by norm_num) (by norm_num) (by norm_num) (by norm_num))
  have hg6 : ieee.le (ieee.mul 1 (ieee.ofInt 10)) (5404319552844595 / 2251799813685248) = false := by
    rw [h5]
    exact (ieee_le_false _ _ (by norm_num))
  have hfirst7 : scFirstNiceNum ieee (5404319552844595 / 2251799813685248) = (1, ⟨0, 1⟩) :=
    scFirstNiceNum_cert ieee _ (0) _ hlog3 hpow4 hg6
  have h8 : ieee.lt 1 (5404319552844595 / 2251799813685248) = true :=
    ieee_lt_true _ _ (by norm_num)
  have h10 : ieee.mul (ieee.ofInt (2)) 1 = 2 := by
    rw [ieee_ofInt (2) (by norm_num) (by norm_num)]
    exact (rnd64_pos _ _ (-51) (4503599627370496) (by norm_num) (by norm_num) (by norm_num) (by norm_num) (by norm_num) (by norm_num))
  have hnext9 : scNextNiceNum ieee (pdSet ieee) SET_LEN ⟨0, 1⟩ = .ok (2, ⟨1, 1⟩) :=
    scNextNiceNum_zero_any ieee _ _ h10
  have h11 : ieee.lt 2 (5404319552844595 / 2251799813685248) = true :=
    ieee_lt_true _ _ (by norm_num)
  have h13 : ieee.mul (ieee.ofInt (5)) 1 = 5 := by
    rw [ieee_ofInt (5) (by norm_num) (by norm_num)]
    exact (rnd64_pos _ _ (-50) (5629499534213120) (by norm_num) (by norm_num) (by norm_num) (by norm_num) (by norm_num) (by norm_num))
  have hnext12 : scNextNiceNum ieee (pdSet ieee) SET_LEN ⟨1, 1⟩ = .ok (5, ⟨2, 1⟩) :=
    scNextNiceNum_one_any ieee _ _ h13
  have h14 : ieee.lt 5 (5404319552844595 / 2251799813685248) = false :=
    ieee_lt_false _ _ (by norm_num)
  have hsearch15 : searchLoop ieee (5404319552844595 / 2251799813685248) (f + 3) (scFirstNiceNum ieee (5404319552844595 / 2251799813685248))
      = .ok (5, ⟨2, 1⟩) := by
    rw [hfirst7,
      searchLoop_step_any ieee _ (f + 2) _ _ h8 _ hnext9,
      searchLoop_step_any ieee _ (f + 1) _ _ h11 _ hnext12]
    exact searchLoop_stop_any _ _ _ _ _ h14
  have h16 : ieee.div 3 5 = (5404319552844595 / 9007199254740992) :=
    (rnd64_pos _ _ (-53) (5404319552844595) (by norm_num) (by norm_num) (by norm_num) (by norm_num) (by norm_num) (by norm_num))
  have a17 : ieee.floorInt (ieee.div 3 5) = 0 := by
    rw [h16]
    exact (ieee_floorInt _ (0) (by norm_num) (by norm_num) (by norm_num) (by norm_num))
  have h18 : ieee.mul (ieee.ofInt (0 + 1)) 5 = 5 := by
    rw [ieee_ofInt (0 + 1) (by norm_num) (by norm_num)]
    exact (rnd64_pos _ _ (-50) (5629499534213120) (by norm_num) (by norm_num) (by norm_num) (by norm_num) (by norm_num) (by norm_num))
  have a19 : ieee.le (ieee.mul (ieee.ofInt (0 + 1)) 5) 3 = false := by
    rw [h18]
    exact (ieee_le_false _ _ (by norm_num))
  have h20 : ieee.div 27 5 = (3039929748475085 / 562949953421312) :=
    (rnd64_pos _ _ (-50) (6079859496950170) (by norm_num) (by norm_num) (by norm_num) (by norm_num) (by norm_num) (by norm_num))
  have a21 : ieee.floorInt (ieee.div 27 5) = 5 := by
    rw [h20]
    exact (ieee_floorInt _ (5) (by norm_num) (by norm_num) (by norm_num) (by norm_num))
  have h22 : ieee.mul (ieee.ofInt (5 - 1)) 5 = 20 := by
    rw [ieee_ofInt (5 - 1) (by norm_num) (by norm_num)]
    exact (rnd64_pos _ _ (-48) (5629499534213120) (by norm_num) (by norm_num) (by norm_num) (by norm_num) (by norm_num) (by norm_num))
  have a23 : ieee.le 27 (ieee.mul (ieee.ofInt (5 - 1)) 5) = false := by
    rw [h22]
    exact (ieee_le_false _ _ (by norm_num))
  have hlabel24 : scCalcExtLabel ieee 3 27 5 = (0, 5) := by
    rw [scCalcExtLabel_cert ieee _ _ _ (0) (5) false false a17 a19 a21 a23]
    norm_num
  have h25 : ieee.mul (ieee.ofInt (0)) 5 = 0 := by
    rw [ieee_ofInt (0) (by norm_num) (by norm_num)]
    exact (rnd64_eq_zero _ (by norm_num))
  have h26 : ieee.mul (ieee.ofInt (5)) 5 = 25 := by
    rw [ieee_ofInt (5) (by norm_num) (by norm_num)]
    exact (rnd64_pos _ _ (-48) (7036874417766400) (by norm_num) (by norm_num) (by norm_num) (by norm_num) (by norm_num) (by norm_num))
  have h27 : ieee.lt 3 27 = true :=
    ieee_lt_true _ _ (by norm_num)
  refine ⟨?_, h25, h26⟩
  unfold extScaleVars
  rw [if_neg (by rw [h27]; simp), if_neg (by norm_num)]
  simp only [hx2, hsearch15, hlabel24]
  rw [coarsenLoop_stop_any ieee _ _ 10 _ _ _ (0) (5) (by norm_num)]

/-- In binary64 arithmetic, for the data range from 3 to 27 and 10 intervals
`scMaxInterval` returns the scale from 0 to 25 with 5 intervals and
`scDixonKronmal` the scale from 0 to 50 with 10 intervals. -/
theorem ieee_scales_3_27 (f : ℕ) :
    scMaxInterval ieee (f + 3) 3 27 10 = .ok ⟨0, 25, 5⟩ ∧
      scDixonKronmal ieee (f + 3) 3 27 10 = .ok ⟨0, 50, 10⟩ := by
  obtain ⟨hv, hlo, hhi⟩ := ieee_extScaleVars_3_27 f
  have h1 : ieee.mul (ieee.ofInt (0)) 5 = 0 := by
    rw [ieee_ofInt (0) (by norm_num) (by norm_num)]
    exact (rnd64_eq_zero _ (by norm_num))
  have h2 : ieee.sub 3 0 = 3 :=
    (rnd64_pos _ _ (-51) (6755399441055744) (by norm_num) (by norm_num) (by norm_num) (by norm_num) (by norm_num) (by norm_num))
  have h3 : ieee.mul (ieee.ofInt (5)) 5 = 25 := by
    rw [ieee_ofInt (5) (by norm_num) (by norm_num)]
    exact (rnd64_pos _ _ (-48) (7036874417766400) (by norm_num) (by norm_num) (by norm_num) (by norm_num) (by norm_num) (by norm_num))
  have h4 : ieee.sub 25 27 = (-2) :=
    (rnd64_neg _ _ (-51) (-4503599627370496) (by norm_num) (by norm_num) (by norm_num) (by norm_num) (by norm_num) (by norm_num))
  have h5 : ieee.lt 3 (-2) = false :=
    ieee_lt_false _ _ (by norm_num)
  have h6 : ieee.mul (ieee.ofInt (10)) 5 = 50 := by
    rw [ieee_ofInt (10) (by norm_num) (by norm_num)]
    exact (rnd64_pos _ _ (-47) (7036874417766400) (by norm_num) (by norm_num) (by norm_num) (by norm_num) (by norm_num) (by norm_num))
  have hadj : dkAdjust ieee 3 27 10 5 0 5 = (0, 10) := by
    simp only [dkAdjust, h1, h2, h3, h4, h5]
    norm_num [Int.tdiv]
  constructor
  · unfold scMaxInterval
    simp only [hv, hlo, hhi]
    norm_num
  · unfold scDixonKronmal
    simp only [hv, hadj, h1, h6]

end Machine

/-! Evaluation in binary64 arithmetic

The doubles of the evaluations, as rational numbers:

* 0.1 is `3602879701896397 / 36028797018963968`, 0.2 is twice that, 0.3 is
  `5404319552844595 / 18014398509481984`;
* 0.01 is `5764607523034235 / 576460752303423488`, and the rounded square of
  the double 0.1 is `1441151880758559 / 144115188075855872`, the next double
  above it, printed as 0.010000000000000002;
* 1.3 is `5854679515581645 / 4503599627370496` and 1.8 is
  `8106479329266893 / 4503599627370496`;
* -4.3 is `-4841369599423283 / 1125899906842624` and -3.8 is
  `-4278419646001971 / 1125899906842624`;
* -5.9 is `-3321404725185741 / 562949953421312`.
-/

/-- In binary64 arithmetic, for the doubles nearest to 0.3 and 0.5 and 2
intervals: the search returns the double nearest to 0.1, the multipliers of
`scCalcExtLabel` for it are 2 and 5 because the quotient of 0.3 by 0.1 is
rounded to 2.9999999999999996, the coarsening loop iterates once, and the
routines end with the double nearest to 0.2 and the multipliers 1 and 2. -/
theorem ieee_coarsening_03_05 (f : ℕ) :
    Machine.searchLoop Machine.ieee (3602879701896397 / 36028797018963968) (f + 3)
        (Machine.scFirstNiceNum Machine.ieee (3602879701896397 / 36028797018963968))
      = .ok ((3602879701896397 / 36028797018963968), ⟨0, (3602879701896397 / 36028797018963968)⟩) ∧
    Machine.scCalcExtLabel Machine.ieee (5404319552844595 / 18014398509481984) (1 / 2) (3602879701896397 / 36028797018963968) = (2, 5) ∧
    Machine.extScaleVars Machine.ieee (f + 3) (5404319552844595 / 18014398509481984) (1 / 2) 2
      = .ok ((3602879701896397 / 18014398509481984), 1, 2) := by
  have hx : Machine.ieee.div (Machine.ieee.sub (1 / 2) (5404319552844595 / 18014398509481984)) (Machine.ieee.ofInt 2)
      = (3602879701896397 / 36028797018963968) := by
    rw [show Machine.ieee.sub (1 / 2) (5404319552844595 / 18014398509481984) = (3602879701896397 / 18014398509481984) from (Machine.rnd64_pos _ _ (-55) (7205759403792794) (by norm_num) (by norm_num) (by norm_num) (by norm_num) (by norm_num) (by norm_num)),
      Machine.ieee_ofInt (2) (by norm_num) (by norm_num)]
    exact (Machine.rnd64_pos _ _ (-56) (7205759403792794) (by norm_num) (by norm_num) (by norm_num) (by norm_num) (by norm_num) (by norm_num))
  have hk : Machine.ieee.ilog10 (3602879701896397 / 36028797018963968) = -1 :=
    Machine.ieee_ilog10 _ _ (by norm_num) (by norm_num) (by norm_num)
  have hp : Machine.scPower Machine.ieee (Machine.ieee.ofInt 10) (-1) = (3602879701896397 / 36028797018963968) := by
    rw [Machine.scPower_neg Machine.ieee _ (-1) 1 (by norm_num) (by decide),
      Machine.scPowerLoop_one, Machine.ieee_ofInt (1) (by norm_num) (by norm_num), Machine.ieee_ofInt (10) (by norm_num) (by norm_num),
      show Machine.ieee.div ((1 : ℤ) : ℚ) ((10 : ℤ) : ℚ) = (3602879701896397 / 36028797018963968) from (Machine.rnd64_pos _ _ (-56) (7205759403792794) (by norm_num) (by norm_num) (by norm_num) (by norm_num) (by norm_num) (by norm_num))]
    exact (Machine.rnd64_pos _ _ (-56) (7205759403792794) (by norm_num) (by norm_num) (by norm_num) (by norm_num) (by norm_num) (by norm_num))
  have hg : Machine.ieee.le (Machine.ieee.mul (3602879701896397 / 36028797018963968) (Machine.ieee.ofInt 10)) (3602879701896397 / 36028797018963968)
      = false := by
    rw [Machine.ieee_ofInt (10) (by norm_num) (by norm_num),
      show Machine.ieee.mul (3602879701896397 / 36028797018963968) ((10 : ℤ) : ℚ) = 1 from (Machine.rnd64_pos _ _ (-52) (4503599627370496) (by norm_num) (by norm_num) (by norm_num) (by norm_num) (by norm_num) (by norm_num))]
    exact Machine.ieee_le_false _ _ (by norm_num)
  have hfirst := Machine.scFirstNiceNum_cert Machine.ieee (3602879701896397 / 36028797018963968) (-1) (3602879701896397 / 36028797018963968) hk hp hg
  have hsearch : Machine.searchLoop Machine.ieee (3602879701896397 / 36028797018963968) (f + 3)
      (Machine.scFirstNiceNum Machine.ieee (3602879701896397 / 36028797018963968)) = .ok ((3602879701896397 / 36028797018963968), ⟨0, (3602879701896397 / 36028797018963968)⟩) := by
    rw [hfirst]
    exact Machine.searchLoop_stop_any _ _ _ _ _ (Machine.ieee_lt_false _ _ (by norm_num))
  have a1 : Machine.ieee.floorInt (Machine.ieee.div (5404319552844595 / 18014398509481984) (3602879701896397 / 36028797018963968)) = 2 := by
    rw [show Machine.ieee.div (5404319552844595 / 18014398509481984) (3602879701896397 / 36028797018963968) = (6755399441055743 / 2251799813685248) from (Machine.rnd64_pos _ _ (-51) (6755399441055743) (by norm_num) (by norm_num) (by norm_num) (by norm_num) (by norm_num) (by norm_num))]
    exact Machine.ieee_floorInt _ _ (by norm_num) (by norm_num) (by norm_num) (by norm_num)
  have a2 : Machine.ieee.le (Machine.ieee.mul (Machine.ieee.ofInt (2 + 1)) (3602879701896397 / 36028797018963968)) (5404319552844595 / 18014398509481984)
      = false := by
    rw [Machine.ieee_ofInt (2 + 1) (by norm_num) (by norm_num),
      show Machine.ieee.mul (((2 + 1 : ℤ)) : ℚ) (3602879701896397 / 36028797018963968) = (1351079888211149 / 4503599627370496) from (Machine.rnd64_half_pos _ _ (-54) (5404319552844595) (5404319552844596) (by norm_num) (by norm_num) (by norm_num) (by norm_num) (by norm_num) (by norm_num))]
    exact Machine.ieee_le_false _ _ (by norm_num)
  have a3 : Machine.ieee.floorInt (Machine.ieee.div (1 / 2) (3602879701896397 / 36028797018963968)) = 5 := by
    rw [show Machine.ieee.div (1 / 2) (3602879701896397 / 36028797018963968) = 5 from (Machine.rnd64_pos _ _ (-50) (5629499534213120) (by norm_num) (by norm_num) (by norm_num) (by norm_num) (by norm_num) (by norm_num))]
    exact Machine.ieee_floorInt _ _ (by norm_num) (by norm_num) (by norm_num) (by norm_num)
  have a4 : Machine.ieee.le (1 / 2) (Machine.ieee.mul (Machine.ieee.ofInt (5 - 1)) (3602879701896397 / 36028797018963968))
      = false := by
    rw [Machine.ieee_ofInt (5 - 1) (by norm_num) (by norm_num),
      show Machine.ieee.mul (((5 - 1 : ℤ)) : ℚ) (3602879701896397 / 36028797018963968) = (3602879701896397 / 9007199254740992) from (Machine.rnd64_pos _ _ (-54) (7205759403792794) (by norm_num) (by norm_num) (by norm_num) (by norm_num) (by norm_num) (by norm_num))]
    exact Machine.ieee_le_false _ _ (by norm_num)
  have hext1 : Machine.scCalcExtLabel Machine.ieee (5404319552844595 / 18014398509481984) (1 / 2) (3602879701896397 / 36028797018963968) = (2, 5) := by
    rw [Machine.scCalcExtLabel_cert Machine.ieee _ _ _ 2 5 false false a1 a2 a3 a4]
    rfl
  have hnext : Machine.scNextNiceNum Machine.ieee (Machine.pdSet Machine.ieee) SET_LEN ⟨0, (3602879701896397 / 36028797018963968)⟩
      = .ok ((3602879701896397 / 18014398509481984), ⟨1, (3602879701896397 / 36028797018963968)⟩) :=
    Machine.scNextNiceNum_zero_any Machine.ieee _ _ (by
      rw [Machine.ieee_ofInt (2) (by norm_num) (by norm_num)]
      exact (Machine.rnd64_pos _ _ (-55) (7205759403792794) (by norm_num) (by norm_num) (by norm_num) (by norm_num) (by norm_num) (by norm_num)))
  have b1 : Machine.ieee.floorInt (Machine.ieee.div (5404319552844595 / 18014398509481984) (3602879701896397 / 18014398509481984)) = 1 := by
    rw [show Machine.ieee.div (5404319552844595 / 18014398509481984) (3602879701896397 / 18014398509481984) = (6755399441055743 / 4503599627370496) from (Machine.rnd64_pos _ _ (-52) (6755399441055743) (by norm_num) (by norm_num) (by norm_num) (by norm_num) (by norm_num) (by norm_num))]
    exact Machine.ieee_floorInt _ _ (by norm_num) (by norm_num) (by norm_num) (by norm_num)
  have b2 : Machine.ieee.le (Machine.ieee.mul (Machine.ieee.ofInt (1 + 1)) (3602879701896397 / 18014398509481984)) (5404319552844595 / 18014398509481984)
      = false := by
    rw [Machine.ieee_ofInt (1 + 1) (by norm_num) (by norm_num),
      show Machine.ieee.mul (((1 + 1 : ℤ)) : ℚ) (3602879701896397 / 18014398509481984) = (3602879701896397 / 9007199254740992) from (Machine.rnd64_pos _ _ (-54) (7205759403792794) (by norm_num) (by norm_num) (by norm_num) (by norm_num) (by norm_num) (by norm_num))]
    exact Machine.ieee_le_false _ _ (by norm_num)
  have b3 : Machine.ieee.floorInt (Machine.ieee.div (1 / 2) (3602879701896397 / 18014398509481984)) = 2 := by
    rw [show Machine.ieee.div (1 / 2) (3602879701896397 / 18014398509481984) = (5 / 2) from (Machine.rnd64_pos _ _ (-51) (5629499534213120) (by norm_num) (by norm_num) (by norm_num) (by norm_num) (by norm_num) (by norm_num))]
    exact Machine.ieee_floorInt _ _ (by norm_num) (by norm_num) (by norm_num) (by norm_num)
  have b4 : Machine.ieee.le (1 / 2) (Machine.ieee.mul (Machine.ieee.ofInt (2 - 1)) (3602879701896397 / 18014398509481984))
      = false := by
    rw [Machine.ieee_ofInt (2 - 1) (by norm_num) (by norm_num),
      show Machine.ieee.mul (((2 - 1 : ℤ)) : ℚ) (3602879701896397 / 18014398509481984) = (3602879701896397 / 18014398509481984) from (Machine.rnd64_pos _ _ (-55) (7205759403792794) (by norm_num) (by norm_num) (by norm_num) (by norm_num) (by norm_num) (by norm_num))]
    exact Machine.ieee_le_false _ _ (by norm_num)
  have hext2 : Machine.scCalcExtLabel Machine.ieee (5404319552844595 / 18014398509481984) (1 / 2) (3602879701896397 / 18014398509481984) = (1, 2) := by
    rw [Machine.scCalcExtLabel_cert Machine.ieee _ _ _ 1 2 false false b1 b2 b3 b4]
    rfl
  have hloop : Machine.coarsenLoop Machine.ieee (5404319552844595 / 18014398509481984) (1 / 2) 2 (f + 3)
      ((3602879701896397 / 36028797018963968), ⟨0, (3602879701896397 / 36028797018963968)⟩) (2, 5) = .ok ((3602879701896397 / 18014398509481984), ⟨1, (3602879701896397 / 36028797018963968)⟩, 1, 2) := by
    rw [Machine.coarsenLoop_step_any Machine.ieee _ _ 2 (f + 2) _ _ 2 5 (by norm_num) _ _ hnext,
      hext2]
    exact Machine.coarsenLoop_stop_any Machine.ieee _ _ 2 _ _ _ 1 2 (by norm_num)
  refine ⟨hsearch, hext1, ?_⟩
  unfold Machine.extScaleVars
  rw [if_neg (by rw [Machine.ieee_lt_true _ _ (by norm_num)]; simp), if_neg (by norm_num)]
  simp only [hx, hsearch, hext1, hloop]

/-- In binary64 arithmetic `scMaxInterval` returns, for the doubles nearest to
0.3 and 0.5 and at most 2 intervals, the scale from 0.2 to 0.4 with 1
interval, after one iteration of its coarsening loop. -/
theorem ieee_scMaxInterval_03_05 (f : ℕ) :
    Machine.scMaxInterval Machine.ieee (f + 3) (5404319552844595 / 18014398509481984) (1 / 2) 2
      = .ok ⟨(3602879701896397 / 18014398509481984), (3602879701896397 / 9007199254740992), 1⟩ := by
  have hv := (ieee_coarsening_03_05 f).2.2
  have h1 : Machine.ieee.mul (Machine.ieee.ofInt 1) (3602879701896397 / 18014398509481984) = (3602879701896397 / 18014398509481984) := by
    rw [Machine.ieee_ofInt (1) (by norm_num) (by norm_num)]
    exact (Machine.rnd64_pos _ _ (-55) (7205759403792794) (by norm_num) (by norm_num) (by norm_num) (by norm_num) (by norm_num) (by norm_num))
  have h2 : Machine.ieee.mul (Machine.ieee.ofInt 2) (3602879701896397 / 18014398509481984) = (3602879701896397 / 9007199254740992) := by
    rw [Machine.ieee_ofInt (2) (by norm_num) (by norm_num)]
    exact (Machine.rnd64_pos _ _ (-54) (7205759403792794) (by norm_num) (by norm_num) (by norm_num) (by norm_num) (by norm_num) (by norm_num))
  unfold Machine.scMaxInterval
  simp only [hv, h1, h2]
  norm_num

/-! The exit of the coarsening loop in the exact routines -/

/-- However often the coarsening loop of the exact routines iterates, the
multipliers it returns are at most `nIntervals` apart. -/
theorem coarsenLoop_exit_exact (dDataMin dDataMax : ℚ) (n : ℤ) :
    ∀ (fuel : ℕ) (s : ℚ × NiceState) (m : ℤ × ℤ) (N : ℚ) (st : NiceState) (lo hi : ℤ),
      coarsenLoop dDataMin dDataMax n fuel s m = .ok (N, st, lo, hi) → hi - lo ≤ n := by
  intro fuel
  induction fuel with
  | zero =>
    rintro ⟨N0, st0⟩ ⟨lo0, hi0⟩ N st lo hi h
    by_cases c : hi0 - lo0 > n
    · simp [coarsenLoop, c] at h
    · simp only [coarsenLoop, c, if_false, Except.ok.injEq, Prod.mk.injEq] at h
      obtain ⟨_, _, rfl, rfl⟩ := h
      exact not_lt.mp c
  | succ fuel ih =>
    rintro ⟨N0, st0⟩ ⟨lo0, hi0⟩ N st lo hi h
    by_cases c : hi0 - lo0 > n
    · simp only [coarsenLoop, c, if_true] at h
      cases hn : scNextNiceNum pdSet SET_LEN st0 with
      | error e => rw [hn] at h; cases h
      | ok next =>
        obtain ⟨N1, st1⟩ := next
        rw [hn] at h
        exact ih _ _ N st lo hi h
    · simp only [coarsenLoop, c, if_false, Except.ok.injEq, Prod.mk.injEq] at h
      obtain ⟨_, _, rfl, rfl⟩ := h
      exact not_lt.mp c

/-- A scale returned by the exact `scMaxInterval` has at most `nMaxIntervals`
intervals, by the test of the coarsening loop alone. -/
theorem scMaxInterval_exit_exact (fuel : ℕ) (dDataMin dDataMax : ℚ) (n : ℤ) (r : ScaleResult)
    (h : scMaxInterval fuel dDataMin dDataMax n = .ok r) : r.pnActual ≤ n := by
  unfold scMaxInterval at h
  split at h
  · cases h
  · rename_i N lo hi hv
    simp only [Except.ok.injEq] at h
    subst h
    unfold extScaleVars at hv
    split_ifs at hv
    simp only at hv
    split at hv
    · cases hv
    · rename_i N0 st0 hs
      split at hv
      · cases hv
      · rename_i N1 st1 lo1 hi1 hc
        simp only [Except.ok.injEq, Prod.mk.injEq] at hv
        obtain ⟨_, rfl, rfl⟩ := hv
        exact coarsenLoop_exit_exact dDataMin dDataMax n _ _ _ _ _ _ _ hc

/-! The claims that depend on the arithmetic of the machine -/

/-- Claim C4: whatever the arithmetic of the machine (rounding, conversion to
`int`, accuracy of `log10`) and however often the coarsening loop iterates, a
scale returned by `scMaxInterval` has `*pnActual ≤ nMaxIntervals`, because the
routine leaves the coarsening loop only when its test
`nHiMult - nLoMult > nMaxIntervals` is false; and in exact arithmetic, for
`dDataMin < dDataMax` and `nMaxIntervals ≥ 2`, the routine returns such a scale
(fuel 3 is enough for its loops). -/
theorem scMaxInterval_count_le (D : Type) (A : Machine.Arith D) (fuel : ℕ) (a b : D) (n : ℤ)
    (r : Machine.ScaleResult D) (h : Machine.scMaxInterval A fuel a b n = .ok r) :
    r.pnActual ≤ n ∧
      ∀ (fuel1 : ℕ) (dDataMin dDataMax : ℚ), dDataMin < dDataMax → 2 ≤ n → 3 ≤ fuel1 →
        ∃ r1 : ScaleResult, scMaxInterval fuel1 dDataMin dDataMax n = .ok r1 ∧
          r1.pnActual ≤ n := by
  refine ⟨Machine.scMaxInterval_exit A fuel a b n r h, ?_⟩
  intro fuel1 dDataMin dDataMax hlt hn hf
  obtain ⟨N, h1, _⟩ := extScaleVars_spec fuel1 dDataMin dDataMax n hlt hn hf
  have hr : scMaxInterval fuel1 dDataMin dDataMax n = .ok
      ⟨(⌊dDataMin / N⌋ : ℚ) * N, (⌊dDataMax / N⌋ : ℚ) * N,
        ⌊dDataMax / N⌋ - ⌊dDataMin / N⌋⟩ := by
    simp only [scMaxInterval, h1]
  exact ⟨_, hr, scMaxInterval_exit_exact fuel1 dDataMin dDataMax n _ hr⟩

theorem scMaxInterval_count_le_witness :
    Machine.scMaxInterval Machine.ieee 3 (5404319552844595 / 18014398509481984) (1 / 2) 2
        = .ok ⟨3602879701896397 / 18014398509481984, 3602879701896397 / 9007199254740992, 1⟩ ∧
      ((1 : ℤ) ≤ 2 ∧
        ∀ (fuel1 : ℕ) (dDataMin dDataMax : ℚ), dDataMin < dDataMax → (2 : ℤ) ≤ 2 → 3 ≤ fuel1 →
          ∃ r1 : ScaleResult, scMaxInterval fuel1 dDataMin dDataMax 2 = .ok r1 ∧
            r1.pnActual ≤ 2) :=
  ⟨ieee_scMaxInterval_03_05 0,
    scMaxInterval_count_le ℚ Machine.ieee 3 (5404319552844595 / 18014398509481984) (1 / 2) 2
      ⟨3602879701896397 / 18014398509481984, 3602879701896397 / 9007199254740992, 1⟩
      (ieee_scMaxInterval_03_05 0)⟩

/-- Claim C11, amended: whatever the rounding, a scale returned by
`scMaxInterval` consists of the two machine products of the final multipliers
with the nice number `N` the algorithm ended with, and a scale returned by
`scDixonKronmal` of the two machine products of `N` with two integers, also
when either zero-crossing guard fires; in both cases the two integers are
`*pnActual` apart, so `scaleMax - scaleMin = actualIntervals * N` holds whenever
the two products are not rounded. -/
theorem scale_bounds_are_products (A : Machine.Arith ℚ) (fuel : ℕ) (a b : ℚ) (n : ℤ)
    (r1 r2 : Machine.ScaleResult ℚ)
    (h1 : Machine.scMaxInterval A fuel a b n = .ok r1)
    (h2 : Machine.scDixonKronmal A fuel a b n = .ok r2) :
    ∃ (N : ℚ) (lo hi adjLo adjHi : ℤ),
      Machine.extScaleVars A fuel a b n = .ok (N, lo, hi) ∧
      r1.pdScaleMin = A.mul (A.ofInt lo) N ∧ r1.pdScaleMax = A.mul (A.ofInt hi) N ∧
      hi - lo = r1.pnActual ∧
      r2.pdScaleMin = A.mul (A.ofInt adjLo) N ∧ r2.pdScaleMax = A.mul (A.ofInt adjHi) N ∧
      adjHi - adjLo = r2.pnActual ∧
      (A.mul (A.ofInt lo) N = (lo : ℚ) * N → A.mul (A.ofInt hi) N = (hi : ℚ) * N →
        r1.pdScaleMax - r1.pdScaleMin = (r1.pnActual : ℚ) * N) ∧
      (A.mul (A.ofInt adjLo) N = (adjLo : ℚ) * N → A.mul (A.ofInt adjHi) N = (adjHi : ℚ) * N →
        r2.pdScaleMax - r2.pdScaleMin = (r2.pnActual : ℚ) * N) := by
  obtain ⟨N, lo, hi, hv, e1, e2, e3⟩ := Machine.scMaxInterval_shape A fuel a b n r1 h1
  obtain ⟨N', lo', hi', adjLo, adjHi, hv', e4, e5, e6⟩ :=
    Machine.scDixonKronmal_shape A fuel a b n r2 h2
  rw [hv] at hv'
  simp only [Except.ok.injEq, Prod.mk.injEq] at hv'
  obtain ⟨rfl, rfl, rfl⟩ := hv'
  refine ⟨N, lo, hi, adjLo, adjHi, hv, e1, e2, e3, e4, e5, e6, ?_, ?_⟩
  · intro p1 p2
    rw [e1, e2, p1, p2, ← e3]
    push_cast
    ring
  · intro p1 p2
    rw [e4, e5, p1, p2, ← e6]
    push_cast
    ring

theorem scale_bounds_are_products_witness :
    Machine.scMaxInterval Machine.ieee 3 3 27 10 = .ok ⟨0, 25, 5⟩ ∧
      Machine.scDixonKronmal Machine.ieee 3 3 27 10 = .ok ⟨0, 50, 10⟩ ∧
      ∃ (N : ℚ) (lo hi adjLo adjHi : ℤ),
        Machine.extScaleVars Machine.ieee 3 3 27 10 = .ok (N, lo, hi) ∧
        (0 : ℚ) = Machine.ieee.mul (Machine.ieee.ofInt lo) N ∧
        (25 : ℚ) = Machine.ieee.mul (Machine.ieee.ofInt hi) N ∧
        hi - lo = 5 ∧
        (0 : ℚ) = Machine.ieee.mul (Machine.ieee.ofInt adjLo) N ∧
        (50 : ℚ) = Machine.ieee.mul (Machine.ieee.ofInt adjHi) N ∧
        adjHi - adjLo = 10 ∧
        (Machine.ieee.mul (Machine.ieee.ofInt lo) N = (lo : ℚ) * N →
          Machine.ieee.mul (Machine.ieee.ofInt hi) N = (hi : ℚ) * N →
          (25 : ℚ) - 0 = ((5 : ℤ) : ℚ) * N) ∧
        (Machine.ieee.mul (Machine.ieee.ofInt adjLo) N = (adjLo : ℚ) * N →
          Machine.ieee.mul (Machine.ieee.ofInt adjHi) N = (adjHi : ℚ) * N →
          (50 : ℚ) - 0 = ((10 : ℤ) : ℚ) * N) :=
  ⟨(Machine.ieee_scales_3_27 0).1, (Machine.ieee_scales_3_27 0).2,
    scale_bounds_are_products Machine.ieee 3 3 27 10 ⟨0, 25, 5⟩ ⟨0, 50, 10⟩
      (Machine.ieee_scales_3_27 0).1 (Machine.ieee_scales_3_27 0).2⟩

/-- Claim C5, evaluated on the code in binary64 arithmetic: for the doubles
nearest to -4.3 and -3.8 and at most 5 intervals, `scInternal` takes the
double nearest to 0.1 as nice number, the correction of the low multiplier
fires and gives -43, the high multiplier is -37, and the routine returns 6
intervals, more than `nMaxIntervals`. -/
theorem scInternal_exceeds_count_in_binary64 :
    ∀ f : ℕ, ∃ r : Machine.RefResult ℚ,
      Machine.scInternal Machine.ieee (f + 3) (-4841369599423283 / 1125899906842624) (-4278419646001971 / 1125899906842624) 5 = .ok r ∧
      Machine.scCalcIntLabel Machine.ieee (-4841369599423283 / 1125899906842624) (-4278419646001971 / 1125899906842624) (3602879701896397 / 36028797018963968) = (-43, -37) ∧
      r.pnActual = 6 ∧ ¬ r.pnActual ≤ 5 := by
  intro f
  have h1 : Machine.ieee.sub (-4278419646001971 / 1125899906842624) (-4841369599423283 / 1125899906842624) = (1 / 2) :=
    (Machine.rnd64_pos _ _ (-53) (4503599627370496) (by norm_num) (by norm_num) (by norm_num) (by norm_num) (by norm_num) (by norm_num))
  have hx2 : Machine.ieee.div (Machine.ieee.sub (-4278419646001971 / 1125899906842624) (-4841369599423283 / 1125899906842624)) (Machine.ieee.ofInt 5) = (3602879701896397 / 36028797018963968) := by
    rw [h1, Machine.ieee_ofInt (5) (by norm_num) (by norm_num)]
    exact (Machine.rnd64_pos _ _ (-56) (7205759403792794) (by norm_num) (by norm_num) (by norm_num) (by norm_num) (by norm_num) (by norm_num))
  have hlog3 : Machine.ieee.ilog10 (3602879701896397 / 36028797018963968) = -1 :=
    Machine.ieee_ilog10 _ _ (by norm_num) (by norm_num) (by norm_num)
  have h5 : Machine.ieee.div ((1 : ℤ) : ℚ) ((10 : ℤ) : ℚ) = (3602879701896397 / 36028797018963968) :=
    (Machine.rnd64_pos _ _ (-56) (7205759403792794) (by norm_num) (by norm_num) (by norm_num) (by norm_num) (by norm_num) (by norm_num))
  have h6 : Machine.ieee.mul ((1 : ℤ) : ℚ) (3602879701896397 / 36028797018963968) = (3602879701896397 / 36028797018963968) :=
    (Machine.rnd64_pos _ _ (-56) (7205759403792794) (by norm_num) (by norm_num) (by norm_num) (by norm_num) (by norm_num) (by norm_num))
  have hpow4 : Machine.scPower Machine.ieee (Machine.ieee.ofInt 10) (-1) = (3602879701896397 / 36028797018963968) := by
    rw [Machine.scPower_neg Machine.ieee _ (-1) 1 (by norm_num) (by decide),
      Machine.ieee_ofInt (1) (by norm_num) (by norm_num),
      Machine.ieee_ofInt (10) (by norm_num) (by norm_num),
      h5,
      Machine.scPowerLoop_one,
      h6]
  have h7 : Machine.ieee.mul (3602879701896397 / 36028797018963968) (Machine.ieee.ofInt (10)) = 1 := by
    rw [Machine.ieee_ofInt (10) (by norm_num) (by norm_num)]
    exact (Machine.rnd64_pos _ _ (-52) (4503599627370496) (by norm_num) (by norm_num) (by norm_num) (by norm_num) (by norm_num) (by norm_num))
  have hg8 : Machine.ieee.le (Machine.ieee.mul (3602879701896397 / 36028797018963968) (Machine.ieee.ofInt 10)) (3602879701896397 / 36028797018963968) = false := by
    rw [h7]
    exact (Machine.ieee_le_false _ _ (by norm_num))
  have hfirst9 : Machine.scFirstNiceNum Machine.ieee (3602879701896397 / 36028797018963968) = ((3602879701896397 / 36028797018963968), ⟨0, (3602879701896397 / 36028797018963968)⟩) :=
    Machine.scFirstNiceNum_cert Machine.ieee _ (-1) _ hlog3 hpow4 hg8
  have h10 : Machine.ieee.lt (3602879701896397 / 36028797018963968) (3602879701896397 / 36028797018963968) = false :=
    Machine.ieee_lt_false _ _ (by norm_num)
  have hsearch11 : Machine.searchLoop Machine.ieee (3602879701896397 / 36028797018963968) (f + 3) (Machine.scFirstNiceNum Machine.ieee (3602879701896397 / 36028797018963968))
      = .ok ((3602879701896397 / 36028797018963968), ⟨0, (3602879701896397 / 36028797018963968)⟩) := by
    rw [hfirst9]
    exact Machine.searchLoop_stop_any _ _ _ _ _ h10
  have h12 : Machine.ieee.div (-4841369599423283 / 1125899906842624) (3602879701896397 / 36028797018963968) = (-6051711999279103 / 140737488355328) :=
    (Machine.rnd64_neg _ _ (-47) (-6051711999279103) (by norm_num) (by norm_num) (by norm_num) (by norm_num) (by norm_num) (by norm_num))
  have a13 : Machine.ieee.ceilInt (Machine.ieee.div (-4841369599423283 / 1125899906842624) (3602879701896397 / 36028797018963968)) = -42 := by
    rw [h12]
    exact (Machine.ieee_ceilInt _ (-42) (by norm_num) (by norm_num) (by norm_num) (by norm_num))
  have h14 : Machine.ieee.mul (Machine.ieee.ofInt (-42 - 1)) (3602879701896397 / 36028797018963968) = (-4841369599423283 / 1125899906842624) := by
    rw [Machine.ieee_ofInt (-42 - 1) (by norm_num) (by norm_num)]
    exact (Machine.rnd64_neg _ _ (-50) (-4841369599423283) (by norm_num) (by norm_num) (by norm_num) (by norm_num) (by norm_num) (by norm_num))
  have a15 : Machine.ieee.le (-4841369599423283 / 1125899906842624) (Machine.ieee.mul (Machine.ieee.ofInt (-42 - 1)) (3602879701896397 / 36028797018963968)) = true := by
    rw [h14]
    exact (Machine.ieee_le_true _ _ (by norm_num))
  have h16 : Machine.ieee.div (-4278419646001971 / 1125899906842624) (3602879701896397 / 36028797018963968) = (-5348024557502463 / 140737488355328) :=
    (Machine.rnd64_neg _ _ (-47) (-5348024557502463) (by norm_num) (by norm_num) (by norm_num) (by norm_num) (by norm_num) (by norm_num))
  have a17 : Machine.ieee.ceilInt (Machine.ieee.div (-4278419646001971 / 1125899906842624) (3602879701896397 / 36028797018963968)) = -37 := by
    rw [h16]
    exact (Machine.ieee_ceilInt _ (-37) (by norm_num) (by norm_num) (by norm_num) (by norm_num))
  have h18 : Machine.ieee.mul (Machine.ieee.ofInt (-37 + 1)) (3602879701896397 / 36028797018963968) = (-8106479329266893 / 2251799813685248) := by
    rw [Machine.ieee_ofInt (-37 + 1) (by norm_num) (by norm_num)]
    exact (Machine.rnd64_neg _ _ (-51) (-8106479329266893) (by norm_num) (by norm_num) (by norm_num) (by norm_num) (by norm_num) (by norm_num))
  have a19 : Machine.ieee.le (Machine.ieee.mul (Machine.ieee.ofInt (-37 + 1)) (3602879701896397 / 36028797018963968)) (-4278419646001971 / 1125899906842624) = false := by
    rw [h18]
    exact (Machine.ieee_le_false _ _ (by norm_num))
  have hlabel20 : Machine.scCalcIntLabel Machine.ieee (-4841369599423283 / 1125899906842624) (-4278419646001971 / 1125899906842624) (3602879701896397 / 36028797018963968) = (-43, -37) := by
    rw [Machine.scCalcIntLabel_cert Machine.ieee _ _ _ (-42) (-37) true false a13 a15 a17 a19]
    norm_num
  have h21 : Machine.ieee.mul (Machine.ieee.ofInt (-43)) (3602879701896397 / 36028797018963968) = (-4841369599423283 / 1125899906842624) := by
    rw [Machine.ieee_ofInt (-43) (by norm_num) (by norm_num)]
    exact (Machine.rnd64_neg _ _ (-50) (-4841369599423283) (by norm_num) (by norm_num) (by norm_num) (by norm_num) (by norm_num) (by norm_num))
  have h22 : Machine.ieee.mul (Machine.ieee.ofInt (-37)) (3602879701896397 / 36028797018963968) = (-4165829655317709 / 1125899906842624) := by
    rw [Machine.ieee_ofInt (-37) (by norm_num) (by norm_num)]
    exact (Machine.rnd64_neg _ _ (-51) (-8331659310635418) (by norm_num) (by norm_num) (by norm_num) (by norm_num) (by norm_num) (by norm_num))
  have h23 : Machine.ieee.lt (-4841369599423283 / 1125899906842624) (-4278419646001971 / 1125899906842624) = true :=
    Machine.ieee_lt_true _ _ (by norm_num)
  have hv : Machine.intScaleVars Machine.ieee (f + 3) (-4841369599423283 / 1125899906842624) (-4278419646001971 / 1125899906842624) 5
      = .ok ((3602879701896397 / 36028797018963968), -43, -37) := by
    unfold Machine.intScaleVars
    rw [if_neg (by rw [h23]; simp), if_neg (by norm_num)]
    simp only [hx2, hsearch11, hlabel20]
  refine ⟨⟨(-4841369599423283 / 1125899906842624), (-4165829655317709 / 1125899906842624), 6⟩, ?_, hlabel20, rfl, by norm_num⟩
  unfold Machine.scInternal
  simp only [hv, h21, h22]
  norm_num

/-- Claim C11 as stated fails in binary64 arithmetic: for the data range from
-6 to the double nearest to -5.9 and 2 intervals, `scDixonKronmal` ends with
a nice number that is not of the form `m * 10 ^ k`, the multipliers -120 and
-118, and the two rounded products as scale bounds; their difference is not
`actualIntervals` times the nice number. -/
theorem scale_width_in_binary64 :
    ¬ IsNice (7205759403792795 / 144115188075855872) ∧
      ∀ f : ℕ, ∃ r : Machine.ScaleResult ℚ,
        Machine.extScaleVars Machine.ieee (f + 3) (-6) (-3321404725185741 / 562949953421312) 2
        = .ok ((7205759403792795 / 144115188075855872), -120, -118) ∧
      Machine.scDixonKronmal Machine.ieee (f + 3) (-6) (-3321404725185741 / 562949953421312) 2 = .ok r ∧
      r.pnActual = 2 ∧
      r.pdScaleMax - r.pdScaleMin ≠ (r.pnActual : ℚ) * (7205759403792795 / 144115188075855872) := by
  have main :
      ∀ f : ℕ, ∃ r : Machine.ScaleResult ℚ,
        Machine.extScaleVars Machine.ieee (f + 3) (-6) (-3321404725185741 / 562949953421312) 2
          = .ok ((7205759403792795 / 144115188075855872), -120, -118) ∧
        Machine.scDixonKronmal Machine.ieee (f + 3) (-6) (-3321404725185741 / 562949953421312) 2 = .ok r ∧
        r.pnActual = 2 ∧
        r.pdScaleMax - r.pdScaleMin ≠ (r.pnActual : ℚ) * (7205759403792795 / 144115188075855872) ∧
        ¬ IsNice (7205759403792795 / 144115188075855872) := by
    intro f
    have h1 : Machine.ieee.sub (-3321404725185741 / 562949953421312) (-6) = (56294995342131 / 562949953421312) :=
      (Machine.rnd64_pos _ _ (-56) (7205759403792768) (by norm_num) (by norm_num) (by norm_num) (by norm_num) (by norm_num) (by norm_num))
    have hx2 : Machine.ieee.div (Machine.ieee.sub (-3321404725185741 / 562949953421312) (-6)) (Machine.ieee.ofInt 2) = (56294995342131 / 1125899906842624) := by
      rw [h1, Machine.ieee_ofInt (2) (by norm_num) (by norm_num)]
      exact (Machine.rnd64_pos _ _ (-57) (7205759403792768) (by norm_num) (by norm_num) (by norm_num) (by norm_num) (by norm_num) (by norm_num))
    have hlog3 : Machine.ieee.ilog10 (56294995342131 / 1125899906842624) = -2 :=
      Machine.ieee_ilog10 _ _ (by norm_num) (by norm_num) (by norm_num)
    have h5 : Machine.ieee.div ((1 : ℤ) : ℚ) ((10 : ℤ) : ℚ) = (3602879701896397 / 36028797018963968) :=
      (Machine.rnd64_pos _ _ (-56) (7205759403792794) (by norm_num) (by norm_num) (by norm_num) (by norm_num) (by norm_num) (by norm_num))
    have h6 : Machine.ieee.mul (3602879701896397 / 36028797018963968) (3602879701896397 / 36028797018963968) = (1441151880758559 / 144115188075855872) :=
      (Machine.rnd64_pos _ _ (-59) (5764607523034236) (by norm_num) (by norm_num) (by norm_num) (by norm_num) (by norm_num) (by norm_num))
    have h7 : Machine.ieee.mul ((1 : ℤ) : ℚ) (1441151880758559 / 144115188075855872) = (1441151880758559 / 144115188075855872) :=
      (Machine.rnd64_pos _ _ (-59) (5764607523034236) (by norm_num) (by norm_num) (by norm_num) (by norm_num) (by norm_num) (by norm_num))
    have hpow4 : Machine.scPower Machine.ieee (Machine.ieee.ofInt 10) (-2) = (1441151880758559 / 144115188075855872) := by
      rw [Machine.scPower_neg Machine.ieee _ (-2) 2 (by norm_num) (by decide),
        Machine.ieee_ofInt (1) (by norm_num) (by norm_num),
        Machine.ieee_ofInt (10) (by norm_num) (by norm_num),
        h5,
        Machine.scPowerLoop_even Machine.ieee 2 1 _ _ (by norm_num) (by norm_num) (by norm_num),
        h6,
        Machine.scPowerLoop_one,
        h7]
    have h8 : Machine.ieee.mul (1441151880758559 / 144115188075855872) (Machine.ieee.ofInt (10)) = (7205759403792795 / 72057594037927936) := by
      rw [Machine.ieee_ofInt (10) (by norm_num) (by norm_num)]
      exact (Machine.rnd64_pos _ _ (-56) (7205759403792795) (by norm_num) (by norm_num) (by norm_num) (by norm_num) (by norm_num) (by norm_num))
    have hg9 : Machine.ieee.le (Machine.ieee.mul (1441151880758559 / 144115188075855872) (Machine.ieee.ofInt 10)) (56294995342131 / 1125899906842624) = false := by
      rw [h8]
      exact (Machine.ieee_le_false _ _ (by norm_num))
    have hfirst10 : Machine.scFirstNiceNum Machine.ieee (56294995342131 / 1125899906842624) = ((1441151880758559 / 144115188075855872), ⟨0, (1441151880758559 / 144115188075855872)⟩) :=
      Machine.scFirstNiceNum_cert Machine.ieee _ (-2) _ hlog3 hpow4 hg9
    have h11 : Machine.ieee.lt (1441151880758559 / 144115188075855872) (56294995342131 / 1125899906842624) = true :=
      Machine.ieee_lt_true _ _ (by norm_num)
    have h13 : Machine.ieee.mul (Machine.ieee.ofInt (2)) (1441151880758559 / 144115188075855872) = (1441151880758559 / 72057594037927936) := by
      rw [Machine.ieee_ofInt (2) (by norm_num) (by norm_num)]
      exact (Machine.rnd64_pos _ _ (-58) (5764607523034236) (by norm_num) (by norm_num) (by norm_num) (by norm_num) (by norm_num) (by norm_num))
    have hnext12 : Machine.scNextNiceNum Machine.ieee (Machine.pdSet Machine.ieee) SET_LEN ⟨0, (1441151880758559 / 144115188075855872)⟩ = .ok ((1441151880758559 / 72057594037927936), ⟨1, (1441151880758559 / 144115188075855872)⟩) :=
      Machine.scNextNiceNum_zero_any Machine.ieee _ _ h13
    have h14 : Machine.ieee.lt (1441151880758559 / 72057594037927936) (56294995342131 / 1125899906842624) = true :=
      Machine.ieee_lt_true _ _ (by norm_num)
    have h16 : Machine.ieee.mul (Machine.ieee.ofInt (5)) (1441151880758559 / 144115188075855872) = (7205759403792795 / 144115188075855872) := by
      rw [Machine.ieee_ofInt (5) (by norm_num) (by norm_num)]
      exact (Machine.rnd64_pos _ _ (-57) (7205759403792795) (by norm_num) (by norm_num) (by norm_num) (by norm_num) (by norm_num) (by norm_num))
    have hnext15 : Machine.scNextNiceNum Machine.ieee (Machine.pdSet Machine.ieee) SET_LEN ⟨1, (1441151880758559 / 144115188075855872)⟩ = .ok ((7205759403792795 / 144115188075855872), ⟨2, (1441151880758559 / 144115188075855872)⟩) :=
      Machine.scNextNiceNum_one_any Machine.ieee _ _ h16
    have h17 : Machine.ieee.lt (7205759403792795 / 144115188075855872) (56294995342131 / 1125899906842624) = false :=
      Machine.ieee_lt_false _ _ (by norm_num)
    have hsearch18 : Machine.searchLoop Machine.ieee (56294995342131 / 1125899906842624) (f + 3) (Machine.scFirstNiceNum Machine.ieee (56294995342131 / 1125899906842624))
        = .ok ((7205759403792795 / 144115188075855872), ⟨2, (1441151880758559 / 144115188075855872)⟩) := by
      rw [hfirst10,
        Machine.searchLoop_step_any Machine.ieee _ (f + 2) _ _ h11 _ hnext12,
        Machine.searchLoop_step_any Machine.ieee _ (f + 1) _ _ h14 _ hnext15]
      exact Machine.searchLoop_stop_any _ _ _ _ _ h17
    have h19 : Machine.ieee.div (-6) (7205759403792795 / 144115188075855872) = (-4222124650659839 / 35184372088832) :=
      (Machine.rnd64_neg _ _ (-46) (-8444249301319678) (by norm_num) (by norm_num) (by norm_num) (by norm_num) (by norm_num) (by norm_num))
    have a20 : Machine.ieee.floorInt (Machine.ieee.div (-6) (7205759403792795 / 144115188075855872)) = -120 := by
      rw [h19]
      exact (Machine.ieee_floorInt _ (-120) (by norm_num) (by norm_num) (by norm_num) (by norm_num))
    have h21 : Machine.ieee.mul (Machine.ieee.ofInt (-120 + 1)) (7205759403792795 / 144115188075855872) = (-3349552222856807 / 562949953421312) := by
      rw [Machine.ieee_ofInt (-120 + 1) (by norm_num) (by norm_num)]
      exact (Machine.rnd64_neg _ _ (-50) (-6699104445713614) (by norm_num) (by norm_num) (by norm_num) (by norm_num) (by norm_num) (by norm_num))
    have a22 : Machine.ieee.le (Machine.ieee.mul (Machine.ieee.ofInt (-120 + 1)) (7205759403792795 / 144115188075855872)) (-6) = false := by
      rw [h21]
      exact (Machine.ieee_le_false _ _ (by norm_num))
    have h23 : Machine.ieee.div (-3321404725185741 / 562949953421312) (7205759403792795 / 144115188075855872) = (-8303511812964351 / 70368744177664) :=
      (Machine.rnd64_neg _ _ (-46) (-8303511812964351) (by norm_num) (by norm_num) (by norm_num) (by norm_num) (by norm_num) (by norm_num))
    have a24 : Machine.ieee.floorInt (Machine.ieee.div (-3321404725185741 / 562949953421312) (7205759403792795 / 144115188075855872)) = -118 := by
      rw [h23]
      exact (Machine.ieee_floorInt _ (-118) (by norm_num) (by norm_num) (by norm_num) (by norm_num))
    have h25 : Machine.ieee.mul (Machine.ieee.ofInt (-118 - 1)) (7205759403792795 / 144115188075855872) = (-3349552222856807 / 562949953421312) := by
      rw [Machine.ieee_ofInt (-118 - 1) (by norm_num) (by norm_num)]
      exact (Machine.rnd64_neg _ _ (-50) (-6699104445713614) (by norm_num) (by norm_num) (by norm_num) (by norm_num) (by norm_num) (by norm_num))
    have a26 : Machine.ieee.le (-3321404725185741 / 562949953421312) (Machine.ieee.mul (Machine.ieee.ofInt (-118 - 1)) (7205759403792795 / 144115188075855872)) = false := by
      rw [h25]
      exact (Machine.ieee_le_false _ _ (by norm_num))
    have hlabel27 : Machine.scCalcExtLabel Machine.ieee (-6) (-3321404725185741 / 562949953421312) (7205759403792795 / 144115188075855872) = (-120, -118) := by
      rw [Machine.scCalcExtLabel_cert Machine.ieee _ _ _ (-120) (-118) false false a20 a22 a24 a26]
      norm_num
    have h28 : Machine.ieee.mul (Machine.ieee.ofInt (-120)) (7205759403792795 / 144115188075855872) = (-6755399441055745 / 1125899906842624) := by
      rw [Machine.ieee_ofInt (-120) (by norm_num) (by norm_num)]
      exact (Machine.rnd64_neg _ _ (-50) (-6755399441055745) (by norm_num) (by norm_num) (by norm_num) (by norm_num) (by norm_num) (by norm_num))
    have h29 : Machine.ieee.mul (Machine.ieee.ofInt (-118)) (7205759403792795 / 144115188075855872) = (-6642809450371483 / 1125899906842624) := by
      rw [Machine.ieee_ofInt (-118) (by norm_num) (by norm_num)]
      exact (Machine.rnd64_neg _ _ (-50) (-6642809450371483) (by norm_num) (by norm_num) (by norm_num) (by norm_num) (by norm_num) (by norm_num))
    have h30 : Machine.ieee.lt (-6) (-3321404725185741 / 562949953421312) = true :=
      Machine.ieee_lt_true _ _ (by norm_num)
    have hv : Machine.extScaleVars Machine.ieee (f + 3) (-6) (-3321404725185741 / 562949953421312) 2
        = .ok ((7205759403792795 / 144115188075855872), -120, -118) := by
      unfold Machine.extScaleVars
      rw [if_neg (by rw [h30]; simp), if_neg (by norm_num)]
      simp only [hx2, hsearch18, hlabel27]
      rw [Machine.coarsenLoop_stop_any Machine.ieee _ _ 2 _ _ _ (-120) (-118) (by norm_num)]
    have hadj : Machine.dkAdjust Machine.ieee (-6) (-3321404725185741 / 562949953421312) 2 (7205759403792795 / 144115188075855872) (-120) (-118)
        = (-120, -118) := by
      simp [Machine.dkAdjust, Int.tdiv]
    refine ⟨⟨(-6755399441055745 / 1125899906842624), (-6642809450371483 / 1125899906842624), 2⟩, hv, ?_, rfl, by norm_num, ?_⟩
    · unfold Machine.scDixonKronmal
      simp only [hv, hadj, h28, h29]
    · intro hn
      rcases nice_gap _ hn (-2) with c | c | c | c | c <;> norm_num at c
  exact ⟨(main 0).choose_spec.2.2.2.2, fun f =>
    ⟨(main f).choose, (main f).choose_spec.1, (main f).choose_spec.2.1,
      (main f).choose_spec.2.2.1, (main f).choose_spec.2.2.2.1⟩⟩

/-- In binary64 arithmetic a search that has reached the nice number 0 with the
power of ten 0 never leaves it: every further nice number is 0, below any
positive interval size. -/
theorem ieee_search_stuck (x : ℚ) (hx : 0 < x) :
    ∀ (fuel : ℕ) (i : ℤ), 0 ≤ i → i < 3 →
      Machine.searchLoop Machine.ieee x fuel (0, ⟨i, 0⟩) = .error .outOfFuel := by
  have hlt : Machine.ieee.lt 0 x = true := Machine.ieee_lt_true _ _ hx
  have m0 : ∀ z : ℤ, Machine.ieee.mul (Machine.ieee.ofInt z) 0 = 0 := fun z => by
    show Machine.rnd64 (_ * 0) = 0
    rw [mul_zero, Machine.rnd64_zero]
  have m1 : ∀ z : ℤ, Machine.ieee.mul 0 (Machine.ieee.ofInt z) = 0 := fun z => by
    show Machine.rnd64 (0 * _) = 0
    rw [zero_mul, Machine.rnd64_zero]
  intro fuel
  induction fuel with
  | zero =>
    intro i _ _
    simp [Machine.searchLoop, hlt]
  | succ fuel ih =>
    intro i h0 h3
    have hi : i = 0 ∨ i = 1 ∨ i = 2 := by omega
    rcases hi with rfl | rfl | rfl
    · rw [Machine.searchLoop_step_any Machine.ieee x fuel 0 _ hlt _
        (Machine.scNextNiceNum_zero_any Machine.ieee 0 0 (m0 2))]
      exact ih 1 (by norm_num) (by norm_num)
    · rw [Machine.searchLoop_step_any Machine.ieee x fuel 0 _ hlt _
        (Machine.scNextNiceNum_one_any Machine.ieee 0 0 (m0 5))]
      exact ih 2 (by norm_num) (by norm_num)
    · rw [Machine.searchLoop_step_any Machine.ieee x fuel 0 _ hlt _
        (Machine.scNextNiceNum_two_any Machine.ieee 0 0 0 (m1 10) (m0 1))]
      exact ih 0 (by norm_num) (by norm_num)

/-- Claim C16, evaluated on the code in binary64 arithmetic: for the data range
from 0 to `2 ^ (-1073)` and 2 intervals the interval size is the smallest
positive double `2 ^ (-1074)`, `scPower (10, -324)` underflows to 0, so
`scFirstNiceNum` returns 0, and the search loop of `scMaxInterval` and of
`scDixonKronmal` does not stop within any number of calls of
`scNextNiceNum`. -/
theorem search_never_stops_on_denormal :
    Machine.scFirstNiceNum Machine.ieee ((2 : ℚ) ^ (-1074 : ℤ)) = (0, ⟨0, 0⟩) ∧
      ∀ fuel : ℕ,
        Machine.searchLoop Machine.ieee ((2 : ℚ) ^ (-1074 : ℤ)) fuel
            (Machine.scFirstNiceNum Machine.ieee ((2 : ℚ) ^ (-1074 : ℤ)))
          = .error .outOfFuel ∧
        Machine.scMaxInterval Machine.ieee fuel 0 ((2 : ℚ) ^ (-1073 : ℤ)) 2
          = .error .outOfFuel ∧
        Machine.scDixonKronmal Machine.ieee fuel 0 ((2 : ℚ) ^ (-1073 : ℤ)) 2
          = .error .outOfFuel := by
  have eb : ((2 : ℚ) ^ (-1073 : ℤ)) = (1 / 101201126653655309176247673359458653524778324882071059178450679013715169783997673445980191850718562247593538932158405955694904368692896738433506699970369254960758712138283180682233453871046608170619883839236372534281003741712346349309051677824579778170405028256179384776166707307615251266093163754323003131653853870546747392) := by norm_num
  have ex : ((2 : ℚ) ^ (-1074 : ℤ)) = (1 / 202402253307310618352495346718917307049556649764142118356901358027430339567995346891960383701437124495187077864316811911389808737385793476867013399940738509921517424276566361364466907742093216341239767678472745068562007483424692698618103355649159556340810056512358769552333414615230502532186327508646006263307707741093494784) := by norm_num
  rw [eb, ex]
  have h1 : Machine.ieee.sub (1 / 101201126653655309176247673359458653524778324882071059178450679013715169783997673445980191850718562247593538932158405955694904368692896738433506699970369254960758712138283180682233453871046608170619883839236372534281003741712346349309051677824579778170405028256179384776166707307615251266093163754323003131653853870546747392) 0 = (1 / 101201126653655309176247673359458653524778324882071059178450679013715169783997673445980191850718562247593538932158405955694904368692896738433506699970369254960758712138283180682233453871046608170619883839236372534281003741712346349309051677824579778170405028256179384776166707307615251266093163754323003131653853870546747392) :=
    (Machine.rnd64_tiny _ _ (2) (by norm_num) (by norm_num) (by norm_num) (by norm_num) (by norm_num))
  have hx2 : Machine.ieee.div (Machine.ieee.sub (1 / 101201126653655309176247673359458653524778324882071059178450679013715169783997673445980191850718562247593538932158405955694904368692896738433506699970369254960758712138283180682233453871046608170619883839236372534281003741712346349309051677824579778170405028256179384776166707307615251266093163754323003131653853870546747392) 0) (Machine.ieee.ofInt 2) = (1 / 202402253307310618352495346718917307049556649764142118356901358027430339567995346891960383701437124495187077864316811911389808737385793476867013399940738509921517424276566361364466907742093216341239767678472745068562007483424692698618103355649159556340810056512358769552333414615230502532186327508646006263307707741093494784) := by
    rw [h1, Machine.ieee_ofInt (2) (by norm_num) (by norm_num)]
    exact (Machine.rnd64_tiny _ _ (1) (by norm_num) (by norm_num) (by norm_num) (by norm_num) (by norm_num))
  have hlog3 : Machine.ieee.ilog10 (1 / 202402253307310618352495346718917307049556649764142118356901358027430339567995346891960383701437124495187077864316811911389808737385793476867013399940738509921517424276566361364466907742093216341239767678472745068562007483424692698618103355649159556340810056512358769552333414615230502532186327508646006263307707741093494784) = -324 :=
    Machine.ieee_ilog10 _ _ (by norm_num) (by norm_num) (by norm_num)
  have h5 : Machine.ieee.div ((1 : ℤ) : ℚ) ((10 : ℤ) : ℚ) = (3602879701896397 / 36028797018963968) :=
    (Machine.rnd64_pos _ _ (-56) (7205759403792794) (by norm_num) (by norm_num) (by norm_num) (by norm_num) (by norm_num) (by norm_num))
  have h6 : Machine.ieee.mul (3602879701896397 / 36028797018963968) (3602879701896397 / 36028797018963968) = (1441151880758559 / 144115188075855872) :=
    (Machine.rnd64_pos _ _ (-59) (5764607523034236) (by norm_num) (by norm_num) (by norm_num) (by norm_num) (by norm_num) (by norm_num))
  have h7 : Machine.ieee.mul (1441151880758559 / 144115188075855872) (1441151880758559 / 144115188075855872) = (461168601842739 / 4611686018427387904) :=
    (Machine.rnd64_pos _ _ (-66) (7378697629483824) (by norm_num) (by norm_num) (by norm_num) (by norm_num) (by norm_num) (by norm_num))
  have h8 : Machine.ieee.mul ((1 : ℤ) : ℚ) (461168601842739 / 4611686018427387904) = (461168601842739 / 4611686018427387904) :=
    (Machine.rnd64_pos _ _ (-66) (7378697629483824) (by norm_num) (by norm_num) (by norm_num) (by norm_num) (by norm_num) (by norm_num))
  have h9 : Machine.ieee.mul (461168601842739 / 4611686018427387904) (461168601842739 / 4611686018427387904) = (6044629098073151 / 604462909807314587353088) :=
    (Machine.rnd64_pos _ _ (-79) (6044629098073151) (by norm_num) (by norm_num) (by norm_num) (by norm_num) (by norm_num) (by norm_num))
  have h10 : Machine.ieee.mul (6044629098073151 / 604462909807314587353088) (6044629098073151 / 604462909807314587353088) = (4056481920730341 / 40564819207303340847894502572032) :=
    (Machine.rnd64_pos _ _ (-106) (8112963841460682) (by norm_num) (by norm_num) (by norm_num) (by norm_num) (by norm_num) (by norm_num))
  have h11 : Machine.ieee.mul (4056481920730341 / 40564819207303340847894502572032) (4056481920730341 / 40564819207303340847894502572032) = (1826877046663635 / 182687704666362864775460604089535377456991567872) :=
    (Machine.rnd64_pos _ _ (-159) (7307508186654540) (by norm_num) (by norm_num) (by norm_num) (by norm_num) (by norm_num) (by norm_num))
  have h12 : Machine.ieee.mul (1826877046663635 / 182687704666362864775460604089535377456991567872) (1826877046663635 / 182687704666362864775460604089535377456991567872) = (2964277484475315 / 29642774844752946028434172162224104410437116074403984394101141506025761187823616) :=
    (Machine.rnd64_pos _ _ (-265) (5928554968950630) (by norm_num) (by norm_num) (by norm_num) (by norm_num) (by norm_num) (by norm_num))
  have h13 : Machine.ieee.mul (461168601842739 / 4611686018427387904) (2964277484475315 / 29642774844752946028434172162224104410437116074403984394101141506025761187823616) = (2428336115282179 / 242833611528216133864932738352939863330300854881517440156476551217363035650651062272) :=
    (Machine.rnd64_pos _ _ (-278) (4856672230564358) (by norm_num) (by norm_num) (by norm_num) (by norm_num) (by norm_num) (by norm_num))
  have h14 : Machine.ieee.mul (2964277484475315 / 29642774844752946028434172162224104410437116074403984394101141506025761187823616) (2964277484475315 / 29642774844752946028434172162224104410437116074403984394101141506025761187823616) = (975546421973761 / 97554642197374757230674913431036447054643691958280348464348654988292866838117675628759565720734124098744591597543956965482749239977758915821568) :=
    (Machine.rnd64_pos _ _ (-478) (7804371375790088) (by norm_num) (by norm_num) (by norm_num) (by norm_num) (by norm_num) (by norm_num))
  have h15 : Machine.ieee.mul (975546421973761 / 97554642197374757230674913431036447054643691958280348464348654988292866838117675628759565720734124098744591597543956965482749239977758915821568) (975546421973761 / 97554642197374757230674913431036447054643691958280348464348654988292866838117675628759565720734124098744591597543956965482749239977758915821568) = (6762169998536701 / 67621699985365151533099492469314125634412457732623554832378970755414259527260782012725408753620120050518322559136912470896940487616343748768068989243256265844273495551872650773597634262582584454787101812251032115730947621472199902571314803042180668990660938354910463787008) :=
    (Machine.rnd64_pos _ _ (-903) (6762169998536701) (by norm_num) (by norm_num) (by norm_num) (by norm_num) (by norm_num) (by norm_num))
  have h16 : Machine.ieee.mul (2428336115282179 / 242833611528216133864932738352939863330300854881517440156476551217363035650651062272) (6762169998536701 / 67621699985365151533099492469314125634412457732623554832378970755414259527260782012725408753620120050518322559136912470896940487616343748768068989243256265844273495551872650773597634262582584454787101812251032115730947621472199902571314803042180668990660938354910463787008) = 0 :=
    (Machine.rnd64_tiny _ _ (0) (by norm_num) (by norm_num) (by norm_num) (by norm_num) (by norm_num))
  have hpow4 : Machine.scPower Machine.ieee (Machine.ieee.ofInt 10) (-324) = 0 := by
    rw [Machine.scPower_neg Machine.ieee _ (-324) 324 (by norm_num) (by decide),
      Machine.ieee_ofInt (1) (by norm_num) (by norm_num),
      Machine.ieee_ofInt (10) (by norm_num) (by norm_num),
      h5,
      Machine.scPowerLoop_even Machine.ieee 324 162 _ _ (by norm_num) (by norm_num) (by norm_num),
      h6,
      Machine.scPowerLoop_even Machine.ieee 162 81 _ _ (by norm_num) (by norm_num) (by norm_num),
      h7,
      Machine.scPowerLoop_odd Machine.ieee 81 40 _ _ (by norm_num) (by norm_num) (by norm_num),
      h8,
      h9,
      Machine.scPowerLoop_even Machine.ieee 40 20 _ _ (by norm_num) (by norm_num) (by norm_num),
      h10,
      Machine.scPowerLoop_even Machine.ieee 20 10 _ _ (by norm_num) (by norm_num) (by norm_num),
      h11,
      Machine.scPowerLoop_even Machine.ieee 10 5 _ _ (by norm_num) (by norm_num) (by norm_num),
      h12,
      Machine.scPowerLoop_odd Machine.ieee 5 2 _ _ (by norm_num) (by norm_num) (by norm_num),
      h13,
      h14,
      Machine.scPowerLoop_even Machine.ieee 2 1 _ _ (by norm_num) (by norm_num) (by norm_num),
      h15,
      Machine.scPowerLoop_one,
      h16]
  have h17 : Machine.ieee.mul 0 (Machine.ieee.ofInt (10)) = 0 := by
    rw [Machine.ieee_ofInt (10) (by norm_num) (by norm_num)]
    exact (Machine.rnd64_eq_zero _ (by norm_num))
  have hg18 : Machine.ieee.le (Machine.ieee.mul 0 (Machine.ieee.ofInt 10)) (1 / 202402253307310618352495346718917307049556649764142118356901358027430339567995346891960383701437124495187077864316811911389808737385793476867013399940738509921517424276566361364466907742093216341239767678472745068562007483424692698618103355649159556340810056512358769552333414615230502532186327508646006263307707741093494784) = true := by
    rw [h17]
    exact (Machine.ieee_le_true _ _ (by norm_num))
  have hfirst19 : Machine.scFirstNiceNum Machine.ieee (1 / 202402253307310618352495346718917307049556649764142118356901358027430339567995346891960383701437124495187077864316811911389808737385793476867013399940738509921517424276566361364466907742093216341239767678472745068562007483424692698618103355649159556340810056512358769552333414615230502532186327508646006263307707741093494784) = (0, ⟨0, 0⟩) :=
    Machine.scFirstNiceNum_cert_up Machine.ieee _ (-324) _ _ hlog3 hpow4 hg18 h17
  have h20 : Machine.ieee.lt 0 (1 / 101201126653655309176247673359458653524778324882071059178450679013715169783997673445980191850718562247593538932158405955694904368692896738433506699970369254960758712138283180682233453871046608170619883839236372534281003741712346349309051677824579778170405028256179384776166707307615251266093163754323003131653853870546747392) = true :=
    Machine.ieee_lt_true _ _ (by norm_num)
  have hstuck : ∀ fuel : ℕ, Machine.searchLoop Machine.ieee (1 / 202402253307310618352495346718917307049556649764142118356901358027430339567995346891960383701437124495187077864316811911389808737385793476867013399940738509921517424276566361364466907742093216341239767678472745068562007483424692698618103355649159556340810056512358769552333414615230502532186327508646006263307707741093494784) fuel
      (Machine.scFirstNiceNum Machine.ieee (1 / 202402253307310618352495346718917307049556649764142118356901358027430339567995346891960383701437124495187077864316811911389808737385793476867013399940738509921517424276566361364466907742093216341239767678472745068562007483424692698618103355649159556340810056512358769552333414615230502532186327508646006263307707741093494784)) = .error .outOfFuel := by
    intro fuel
    rw [hfirst19]
    exact ieee_search_stuck _ (by norm_num) fuel 0 (by norm_num) (by norm_num)
  have hv : ∀ fuel : ℕ, Machine.extScaleVars Machine.ieee fuel 0 (1 / 101201126653655309176247673359458653524778324882071059178450679013715169783997673445980191850718562247593538932158405955694904368692896738433506699970369254960758712138283180682233453871046608170619883839236372534281003741712346349309051677824579778170405028256179384776166707307615251266093163754323003131653853870546747392) 2
      = .error .outOfFuel := by
    intro fuel
    unfold Machine.extScaleVars
    rw [if_neg (by rw [h20]; simp), if_neg (by norm_num)]
    simp only [hx2, hstuck fuel]
  refine ⟨hfirst19, fun fuel => ⟨hstuck fuel, ?_, ?_⟩⟩
  · unfold Machine.scMaxInterval
    simp only [hv fuel]
  · unfold Machine.scDixonKronmal
    simp only [hv fuel]

end Scale

namespace LinearConversion

/-- For `rawLow < rawHigh` the conversion set up by `calcScale` passes through
both end points. -/
theorem rawToEng_endpoints (c : linConv_t) (hlt : c.rawLow < c.rawHigh)
    (hu : isU16 c.rawHigh) :
    (calcScale c).1 = 0 ∧ (rawToEng (calcScale c).2 c.rawLow).2 = c.engLow ∧
      (rawToEng (calcScale c).2 c.rawHigh).2 = c.engHigh := by
  unfold isU16 at hu
  have hne : c.rawLow ≠ c.rawHigh := Nat.ne_of_lt hlt
  have hr : ((((c.rawHigh : ℤ) - (c.rawLow : ℤ)) % 65536).toNat : ℚ)
      = (c.rawHigh : ℚ) - (c.rawLow : ℚ) := by
    have h1 : (((c.rawHigh : ℤ) - (c.rawLow : ℤ)) % 65536).toNat = c.rawHigh - c.rawLow := by
      omega
    rw [h1, Nat.cast_sub hlt.le]
  have hpos : (c.rawHigh : ℚ) - (c.rawLow : ℚ) ≠ 0 := by
    have : (c.rawLow : ℚ) < (c.rawHigh : ℚ) := by exact_mod_cast hlt
    linarith
  simp only [calcScale, rawToEng, if_pos hne, hr]
  refine ⟨trivial, ?_, ?_⟩
  · ring
  · field_simp

/-- Claim C14, evaluated on the code: with `rawLow = 1000`, `rawHigh = 0`,
`engLow = 0` and `engHigh = 10`, `calcScale` returns 0 and `rawToEng` maps
`rawLow` to `engLow`, but it maps `rawHigh` to `-1250 / 8067` and not to
`engHigh`: the raw range is stored as `65536 - 1000`. -/
theorem rawToEng_reversed_range :
    isU16 1000 ∧ isU16 0 ∧
      (calcScale ⟨1000, 0, 0, 10, 0, 0, 0⟩).1 = 0 ∧
      (rawToEng (calcScale ⟨1000, 0, 0, 10, 0, 0, 0⟩).2 1000).2 = 0 ∧
      (rawToEng (calcScale ⟨1000, 0, 0, 10, 0, 0, 0⟩).2 0).2 = -1250 / 8067 ∧
      (rawToEng (calcScale ⟨1000, 0, 0, 10, 0, 0, 0⟩).2 0).2 ≠ 10 := by
  have hr : ((((0 : ℕ) : ℤ) - ((1000 : ℕ) : ℤ)) % 65536).toNat = 64536 := by decide
  refine ⟨by unfold isU16; norm_num, by unfold isU16; norm_num, ?_, ?_, ?_, ?_⟩ <;>
    simp only [calcScale, rawToEng, hr] <;> norm_num

end LinearConversion
